import Mathlib

/-!
# Verification of the dns-as-doh protocol core

A shallow embedding, in Lean 4, of the protocol and codec stack of the
dns-as-doh repository: the DNS wire codec (`ParseMessage` / `Marshal`), the
payload codec (`EncodePayload` / `DecodePayload` over base32 labels), the
AEAD envelope (`Encrypt` / `Decrypt` with the timestamp window), the
security layer (rate limiter, replay detector) and the server handler's
decision pipeline.

Modelling conventions:
* bytes are `Nat` values (< 256 where it matters, stated as hypotheses);
* byte strings are `List Nat`; Go slices become Lean lists;
* sources of randomness (padding bytes, nonce tails) become explicit
  parameters, so every function is deterministic and executable;
* wall-clock time is an explicit `Int` parameter (Unix seconds);
* the external ChaCha20-Poly1305 AEAD and HKDF are abstract parameters
  (`AEADScheme`, a key-derivation function), constrained only by the
  round-trip and length laws every AEAD satisfies;
* loops whose Go termination argument is "the reader shrinks" are given
  explicit fuel, together with theorems showing the fuel never runs out,
  so the embedding is total exactly where the Go code is.
-/

set_option linter.unusedVariables false

namespace DnsTunnel


/-! ## Byte-list utilities -/

/-- Byte at index `i` of a buffer (Go: indexing into a byte slice / the
position of a `bytes.Reader`). -/
def byteAt (buf : List Nat) (i : Nat) : Option Nat := buf.get? i

/-- `sliceAt buf pos n` is `buf[pos : pos+n]` (what Go's `io.ReadFull` into an
`n`-byte buffer yields when it succeeds). -/
def sliceAt (buf : List Nat) (pos n : Nat) : List Nat := (buf.drop pos).take n

/-! ## Base32 (RFC 4648 standard alphabet, no padding)

Model of Go's `encoding/base32` with `StdEncoding.WithPadding(NoPadding)`,
which the payload codec uses (`base32Encoding` in the source). The bit
manipulations mirror the Go implementation's shifts; shifts and masks on
bytes become division and remainder. -/

/-- One full 5-byte group producing 8 base32 digits (Go `encode`'s shifts,
each masked to 5 bits). -/
def enc5 (b0 b1 b2 b3 b4 : Nat) : List Nat :=
  [b0 / 8 % 32,
   (b0 * 4 + b1 / 64) % 32,
   b1 / 2 % 32,
   (b1 * 16 + b2 / 16) % 32,
   (b2 * 2 + b3 / 128) % 32,
   b3 / 4 % 32,
   (b3 * 8 + b4 / 32) % 32,
   b4 % 32]

/-- Base32 digit stream of a byte string: full 5-byte groups yield 8 digits;
a trailing group of 1/2/3/4 bytes is zero-padded and yields 2/4/5/7 digits
(`EncodedLen` with `NoPadding`). -/
def b32encBytes : List Nat → List Nat
  | b0 :: b1 :: b2 :: b3 :: b4 :: rest => enc5 b0 b1 b2 b3 b4 ++ b32encBytes rest
  | [] => []
  | [b0] => (enc5 b0 0 0 0 0).take 2
  | [b0, b1] => (enc5 b0 b1 0 0 0).take 4
  | [b0, b1, b2] => (enc5 b0 b1 b2 0 0).take 5
  | [b0, b1, b2, b3] => (enc5 b0 b1 b2 b3 0).take 7

/-- One 8-digit group back to 5 bytes (Go `decode`'s shifts, each truncated
to a byte). -/
def dec8 (d0 d1 d2 d3 d4 d5 d6 d7 : Nat) : List Nat :=
  [(d0 * 8 + d1 / 4) % 256,
   (d1 * 64 + d2 * 2 + d3 / 16) % 256,
   (d3 * 16 + d4 / 2) % 256,
   (d4 * 128 + d5 * 4 + d6 / 8) % 256,
   (d6 * 32 + d7) % 256]

/-- Digits back to bytes. A final partial group of 2/4/5/7 digits yields
1/2/3/4 bytes; lengths 1, 3 and 6 mod 8 are corrupt (Go's
`CorruptInputError` for `NoPadding`). -/
def b32decDigits : List Nat → Option (List Nat)
  | d0 :: d1 :: d2 :: d3 :: d4 :: d5 :: d6 :: d7 :: rest =>
    (b32decDigits rest).map (fun bs => dec8 d0 d1 d2 d3 d4 d5 d6 d7 ++ bs)
  | [] => some []
  | [d0, d1] => some ((dec8 d0 d1 0 0 0 0 0 0).take 1)
  | [d0, d1, d2, d3] => some ((dec8 d0 d1 d2 d3 0 0 0 0).take 2)
  | [d0, d1, d2, d3, d4] => some ((dec8 d0 d1 d2 d3 d4 0 0 0).take 3)
  | [d0, d1, d2, d3, d4, d5, d6] => some ((dec8 d0 d1 d2 d3 d4 d5 d6 0).take 4)
  | _ => none

/-- Digit to alphabet character: `ABCDEFGHIJKLMNOPQRSTUVWXYZ234567`. -/
def b32char (d : Nat) : Nat := if d < 26 then 65 + d else 24 + d

/-- Character back to digit (Go's `decodeMap`); `none` on characters outside
the alphabet. -/
def b32digit (c : Nat) : Option Nat :=
  if 65 ≤ c ∧ c ≤ 90 then some (c - 65)
  else if 50 ≤ c ∧ c ≤ 55 then some (c - 24)
  else none

/-- ASCII lowercasing of one byte (the encoder's post-pass in
`EncodePayload`). -/
def lowerByte (b : Nat) : Nat := if 65 ≤ b ∧ b ≤ 90 then b + 32 else b

/-- ASCII uppercasing of one byte (`bytes.ToUpper` in `DecodePayload`). -/
def upperByte (b : Nat) : Nat := if 97 ≤ b ∧ b ≤ 122 then b - 32 else b

/-- Full base32 decode: map characters through the alphabet, then regroup
bits. Any failure is Go's single `CorruptInputError` class. -/
def b32decode (chars : List Nat) : Option (List Nat) :=
  (chars.mapM b32digit).bind b32decDigits

/-! ### Base32 round-trip -/

/-! ## DNS names

Go: `type Name [][]byte` — an ordered list of labels, each a byte string. -/

/-- A DNS name: a list of labels. -/
abbrev Name := List (List Nat)

/-- Wire size of a name: `Σ (len(label)+1)` plus the null terminator. -/
def nameWire (n : Name) : Nat := (n.map (fun l => l.length + 1)).sum + 1

/-- Sum of the label parts of the wire size (without the terminator). -/
def sumParts (n : Name) : Nat := (n.map (fun l => l.length + 1)).sum

/-- One label is well-formed: non-empty, at most 63 bytes, all bytes. -/
def validLabelB (l : List Nat) : Bool :=
  decide (1 ≤ l.length) && decide (l.length ≤ 63) && l.all (fun b => decide (b < 256))

/-- A name is well-formed: every label well-formed and wire size ≤ 255
(the invariants `NewName` enforces). -/
def validNameB (n : Name) : Bool :=
  n.all validLabelB && decide (nameWire n ≤ 255)

/-- ASCII-case-insensitive equality of two byte strings. Models Go's
`bytes.EqualFold` restricted to ASCII, which is all the tunnel's domain
labels use. -/
def equalFold (a b : List Nat) : Bool :=
  a.map lowerByte == b.map lowerByte

/-- Go `Name.TrimSuffix`: split off `suffix` from the end of `n`
(case-insensitively), returning the remaining prefix labels. -/
def trimSuffix (n suffix : Name) : Option Name :=
  if n.length < suffix.length then none
  else
    if ((n.drop (n.length - suffix.length)).zip suffix).all
        (fun p => equalFold p.1 p.2) then
      some (n.take (n.length - suffix.length))
    else none

/-! ## Payload codec (`internal/dns` encode.go) -/

/-- Go constant `ClientIDSize`. -/
abbrev ClientIDSize : Nat := 8

/-- Go constant `MinPadding`. -/
abbrev MinPadding : Nat := 3

/-- Go constant `MaxPadding`. -/
abbrev MaxPadding : Nat := 8

/-- Go constant `MinPaddingPoll`. -/
abbrev MinPaddingPoll : Nat := 8

/-- Go constant `PaddingPrefixBase` (0xe0). -/
abbrev PaddingPrefixBase : Nat := 224

/-- Go constant `MaxLabelLength`. -/
abbrev MaxLabelLength : Nat := 63

/-- Payload-codec errors: `ErrPayloadTooLong`, `ErrInvalidPayload`, base32
`CorruptInputError`, reader EOF during a frame, and the (unreachable) fuel
sentinel of the frame loop. -/
inductive PayErr where
  | tooLong | invalid | base32 | short | fuelOut | invalidQuery
  deriving DecidableEq

/-- `DNSNameCapacity`: available payload bytes for a given suffix domain.
Uses `Int` with Go's truncated division (`Int.tdiv`), since the Go `int`
arithmetic may go negative for oversized domains. -/
def DNSNameCapacity (domain : Name) : Int :=
  Int.tdiv
    (Int.tdiv ((domain.foldl (fun a l => a - ((l.length : Int) + 1)) (255 - 1)) * 63) 64 * 5)
    8

/-- `splitLabels` loop body, fuelled (each step consumes ≥ 1 byte, so fuel
`data.length` suffices). -/
def splitLabelsAux : Nat → List Nat → Nat → List (List Nat)
  | 0, _, _ => []
  | fuel + 1, data, maxLen =>
    if data.length = 0 then []
    else
      data.take (min data.length maxLen) ::
        splitLabelsAux fuel (data.drop (min data.length maxLen)) maxLen

/-- Go `splitLabels`: cut `data` into consecutive chunks of at most
`maxLen` bytes. -/
def splitLabels (data : List Nat) (maxLen : Nat) : List (List Nat) :=
  splitLabelsAux data.length data maxLen

/-- The padding length chosen by `EncodePayload`: base (3, or 8 for an empty
poll) plus `randByte % 6`; the random byte is an explicit parameter. -/
def encPaddingLen (payloadLen randByte : Nat) : Nat :=
  (if payloadLen = 0 then MinPaddingPoll else MinPadding) +
    randByte % (MaxPadding - MinPadding + 1)

/-- The raw frame buffer written by `EncodePayload`:
`ClientID ∥ (0xe0+padLen) ∥ padding ∥ (len ∥ payload)?`. The padding bytes
come from the explicit random source `padRand`. -/
def encRaw (payload clientID : List Nat) (paddingLen : Nat) (padRand : Nat → Nat) :
    List Nat :=
  clientID ++ [PaddingPrefixBase + paddingLen] ++
    (List.range paddingLen).map (fun i => padRand i % 256) ++
    (if payload.length = 0 then [] else [payload.length] ++ payload)

/-- Go `EncodePayload`: build the raw frame buffer, reject payloads whose
length byte would collide with the padding encoding (≥ 0xe0) and buffers
over the name capacity, then base32-encode, lowercase, cut into labels and
append the suffix domain. -/
def EncodePayload (payload clientID : List Nat) (domain : Name)
    (randByte : Nat) (padRand : Nat → Nat) : Except PayErr Name :=
  if 0 < payload.length ∧ PaddingPrefixBase ≤ payload.length then
    Except.error PayErr.tooLong
  else if ((encRaw payload clientID (encPaddingLen payload.length randByte) padRand).length : Int)
      > DNSNameCapacity domain then
    Except.error PayErr.tooLong
  else
    Except.ok
      (splitLabels
        ((b32encBytes (encRaw payload clientID (encPaddingLen payload.length randByte) padRand)).map
          (fun d => lowerByte (b32char d)))
        MaxLabelLength ++ domain)

/-- The frame loop of `DecodePayload`: read a header byte; `≥ 0xe0` skips a
padding frame, otherwise a data frame's bytes are appended to the payload;
EOF ends the loop. Each iteration consumes at least one byte, so fuel
`len + 1` suffices. -/
def readFramesAux : Nat → List Nat → List Nat → Except PayErr (List Nat)
  | _, [], acc => Except.ok acc
  | 0, _ :: _, _ => Except.error PayErr.fuelOut
  | fuel + 1, p :: rest, acc =>
    if PaddingPrefixBase ≤ p then
      if p - PaddingPrefixBase ≤ rest.length then
        readFramesAux fuel (rest.drop (p - PaddingPrefixBase)) acc
      else Except.error PayErr.short
    else
      if p ≤ rest.length then
        readFramesAux fuel (rest.drop p) (acc ++ rest.take p)
      else Except.error PayErr.short

/-- Go `DecodePayload`: trim the suffix domain, join and uppercase the
prefix labels, base32-decode, read the ClientID, then read frames. -/
def DecodePayload (name domain : Name) : Except PayErr (List Nat × List Nat) :=
  match trimSuffix name domain with
  | none => Except.error PayErr.invalid
  | some pre =>
    match b32decode ((pre.flatten).map upperByte) with
    | none => Except.error PayErr.base32
    | some decoded =>
      if decoded.length < ClientIDSize then Except.error PayErr.invalid
      else
        (readFramesAux (((decoded.drop ClientIDSize).length) + 1)
            (decoded.drop ClientIDSize) []).map
          (fun payload => (decoded.take ClientIDSize, payload))

/-! ### Payload codec lemmas -/

/-! ## AEAD envelope (`internal/crypto/chacha20.go`)

The external ChaCha20-Poly1305 AEAD is modelled abstractly: `AEADScheme`
bundles a seal and an unseal function together with the two laws every
AEAD implementation satisfies (opening a sealed message under the same key
and nonce yields the plaintext; sealing adds exactly the 16-byte Poly1305
tag). HKDF-SHA256 is an abstract key-derivation parameter
`kdf : List Nat → String → List Nat` (secret and `info` context to key). -/

/-- Big-endian byte encoding of `v` in `w` bytes (`binary.BigEndian.PutUintN`). -/
def toBE : Nat → Nat → List Nat
  | 0, _ => []
  | w + 1, v => toBE w (v / 256) ++ [v % 256]

/-- Big-endian byte decoding (`binary.BigEndian.UintN`). -/
def fromBE (l : List Nat) : Nat := l.foldl (fun a b => a * 256 + b % 256) 0

/-- Abstract authenticated-encryption scheme (ChaCha20-Poly1305):
`seal key nonce plaintext` and `unseal key nonce ciphertext`, plus the two
laws used by the proofs. -/
structure AEADScheme where
  Seal : List Nat → List Nat → List Nat → List Nat
  Open : List Nat → List Nat → List Nat → Option (List Nat)
  open_seal : ∀ k n p, Open k n (Seal k n p) = some p
  seal_length : ∀ k n p, (Seal k n p).length = p.length + 16

/-- Go constant `NonceSize` (12 bytes). -/
abbrev NonceSize : Nat := 12

/-- Go constant `NonceCounterSize` (8 bytes). -/
abbrev NonceCounterSize : Nat := 8

/-- Go constant `TimestampSize` (4 bytes). -/
abbrev TimestampSize : Nat := 4

/-- Go constant `ReplayWindow` (5 minutes), in seconds. -/
abbrev ReplayWindowSec : Int := 300

/-- The Poly1305 tag size, `chacha20poly1305.Overhead`. -/
abbrev AEADOverhead : Nat := 16

/-- Go constant `ContextClientToServer`. -/
def ContextClientToServer : String := "client-to-server"

/-- Go constant `ContextServerToClient`. -/
def ContextServerToClient : String := "server-to-client"

/-- Crypto errors of `chacha20.go`. -/
inductive CryptoErr where
  | invalidKey | decryptionFailed | replayDetected | messageTooOld | messageTooNew
  deriving DecidableEq

/-- `Cipher`: direction-scoped keys plus the nonce counter. -/
structure Cipher where
  encryptKey : List Nat
  decryptKey : List Nat
  counter : Nat
  deriving DecidableEq

/-- Go `NewCipher`: reject secrets shorter than 16 bytes, derive the two
directional keys, and assign them by role. -/
def NewCipher (kdf : List Nat → String → List Nat) (sharedSecret : List Nat)
    (isClient : Bool) : Except CryptoErr Cipher :=
  if sharedSecret.length < 16 then Except.error CryptoErr.invalidKey
  else if isClient then
    Except.ok ⟨kdf sharedSecret ContextClientToServer,
               kdf sharedSecret ContextServerToClient, 0⟩
  else
    Except.ok ⟨kdf sharedSecret ContextServerToClient,
               kdf sharedSecret ContextClientToServer, 0⟩

/-- Go `Cipher.Encrypt`: bump the counter, build the nonce
`counter_be64 ∥ random[4]` (the 4 random bytes are the explicit `rnd`
parameter), prefix the payload with `uint32(now)` big-endian, seal, and
return `nonce ∥ ciphertext` together with the updated cipher state. -/
def Encrypt (aead : AEADScheme) (c : Cipher) (now : Int) (rnd : List Nat)
    (plaintext : List Nat) : List Nat × Cipher :=
  (toBE NonceCounterSize (c.counter + 1) ++ rnd ++
      aead.Seal c.encryptKey (toBE NonceCounterSize (c.counter + 1) ++ rnd)
        (toBE TimestampSize ((now % 4294967296).toNat) ++ plaintext),
    { c with counter := c.counter + 1 })

/-- Go `Cipher.Decrypt`: length check, AEAD open, then the timestamp
freshness window (too old beyond 5 minutes, too new beyond 1 minute of
forward skew). Time is in Unix seconds. -/
def Decrypt (aead : AEADScheme) (c : Cipher) (now : Int) (data : List Nat) :
    Except CryptoErr (List Nat) :=
  if data.length < NonceSize + TimestampSize + AEADOverhead then
    Except.error CryptoErr.decryptionFailed
  else
    match aead.Open c.decryptKey (data.take NonceSize) (data.drop NonceSize) with
    | none => Except.error CryptoErr.decryptionFailed
    | some payload =>
      if payload.length < TimestampSize then Except.error CryptoErr.decryptionFailed
      else
        if now - (fromBE (payload.take TimestampSize) : Int) > ReplayWindowSec then
          Except.error CryptoErr.messageTooOld
        else if (fromBE (payload.take TimestampSize) : Int) - now > 60 then
          Except.error CryptoErr.messageTooNew
        else Except.ok (payload.drop TimestampSize)

/-- Go `Cipher.EncryptWithoutTimestamp` (response direction). -/
def EncryptWithoutTimestamp (aead : AEADScheme) (c : Cipher) (rnd : List Nat)
    (plaintext : List Nat) : List Nat × Cipher :=
  (toBE NonceCounterSize (c.counter + 1) ++ rnd ++
      aead.Seal c.encryptKey (toBE NonceCounterSize (c.counter + 1) ++ rnd) plaintext,
    { c with counter := c.counter + 1 })

/-- Go `Cipher.DecryptWithoutTimestamp`. -/
def DecryptWithoutTimestamp (aead : AEADScheme) (c : Cipher) (data : List Nat) :
    Except CryptoErr (List Nat) :=
  if data.length < NonceSize + AEADOverhead then
    Except.error CryptoErr.decryptionFailed
  else
    match aead.Open c.decryptKey (data.take NonceSize) (data.drop NonceSize) with
    | none => Except.error CryptoErr.decryptionFailed
    | some plaintext => Except.ok plaintext

/-- A toy AEAD instance (prefix a 16-byte tag of zeros) used only to
instantiate witnesses; the claim theorems are proved for every
`AEADScheme`. -/
def toyAEAD : AEADScheme where
  Seal := fun _ _ p => List.replicate 16 0 ++ p
  Open := fun _ _ ct => if 16 ≤ ct.length then some (ct.drop 16) else none
  open_seal := by
    intro k n p
    simp
  seal_length := by
    intro k n p
    simp

/-- A toy key-derivation function for witnesses. -/
def toyKDF : List Nat → String → List Nat := fun s ctx => s ++ (ctx.toList.map Char.toNat)

/-! ## Security layer (`internal/server/security.go`)

The rate limiter keeps, per key, a `counter` of `(count, windowStart)`.
We model a single key's counter (the map plays no other role for one key)
and `time.Now()` becomes an explicit call-time parameter. The window is a
duration parameter `W` (the server passes `time.Second`). -/

/-- One rate-limiter counter: Go's `counter` struct. -/
structure RLCounter where
  count : Nat
  windowStart : Int
  deriving DecidableEq

/-- Go `RateLimiter.Allow` for one key: when the key is absent or the
window has elapsed (`now − windowStart ≥ window`), reset to a fresh window
with count 1 and admit; otherwise deny at the limit, else increment and
admit. -/
def Allow (limit : Nat) (window : Int) (st : Option RLCounter) (now : Int) :
    Bool × RLCounter :=
  match st with
  | none => (true, ⟨1, now⟩)
  | some c =>
    if window ≤ now - c.windowStart then (true, ⟨1, now⟩)
    else if limit ≤ c.count then (false, c)
    else (true, ⟨c.count + 1, c.windowStart⟩)

/-- Run `Allow` over a list of call times; the trace records, per call,
(time, admitted, windowStart after the call). -/
def rlRun (limit : Nat) (window : Int) : Option RLCounter → List Int →
    List (Int × Bool × Int)
  | _, [] => []
  | st, t :: ts =>
    (t, (Allow limit window st t).1, (Allow limit window st t).2.windowStart) ::
      rlRun limit window (some (Allow limit window st t).2) ts

/-- Number of admitted calls in a trace whose window start is `s`. -/
def tagCount (s : Int) (tr : List (Int × Bool × Int)) : Nat :=
  (tr.filter (fun e => e.2.1 && (e.2.2 == s))).length

/-- Number of admitted calls in a trace whose time lies in `[lo, hi)`. -/
def admittedIn (tr : List (Int × Bool × Int)) (lo hi : Int) : Nat :=
  (tr.filter (fun e => e.2.1 && decide (lo ≤ e.1) && decide (e.1 < hi))).length

/-- Call times sorted in non-decreasing order with lower bound `s`. -/
def sortedGE : Int → List Int → Prop
  | _, [] => True
  | s, t :: ts => s ≤ t ∧ sortedGE t ts

/-- Call times sorted in non-decreasing order (`time.Now()` is monotone). -/
def sortedTimes : List Int → Prop
  | [] => True
  | t :: ts => sortedGE t ts

/-! ## Replay detector (`internal/crypto/chacha20.go`, `ReplayDetector`)

The `seen` map becomes an association list from nonce to first-seen time;
the background `cleanup` goroutine's sweeps become explicit events, since
their interleaving with `Check` calls is what the claim is about. -/

/-- Replay-detector state: nonce ↦ first-seen time. -/
abbrev RDState := List (List Nat × Int)

/-- Map lookup in the `seen` map. -/
def rdLookup (st : RDState) (nonce : List Nat) : Option Int :=
  (st.find? (fun e => e.1 == nonce)).map (fun e => e.2)

/-- Go `ReplayDetector.Check`: true iff the nonce was seen before; a fresh
nonce is recorded with the current time and reported unseen. -/
def Check (st : RDState) (nonce : List Nat) (now : Int) : Bool × RDState :=
  match rdLookup st nonce with
  | some _ => (true, st)
  | none => (false, (nonce, now) :: st)

/-- One sweep of the `cleanup` goroutine at time `now`: delete entries whose
first-seen time is before `now − window`. -/
def cleanupSweep (window : Int) (st : RDState) (now : Int) : RDState :=
  st.filter (fun e => !decide (e.2 < now - window))

/-- Detector events: a `Check` call or a cleanup sweep. -/
inductive RDEvent where
  | chk (nonce : List Nat) (t : Int)
  | sweep (t : Int)
  deriving DecidableEq

/-- Apply one event to the detector state. -/
def rdStep (window : Int) (st : RDState) : RDEvent → RDState
  | RDEvent.chk n t => (Check st n t).2
  | RDEvent.sweep t => cleanupSweep window st t

/-- Run a sequence of events. -/
def rdRun (window : Int) (st : RDState) (evs : List RDEvent) : RDState :=
  evs.foldl (rdStep window) st

/-! ## DNS wire codec (`internal/dns` message.go)

The reader is position-passing over the byte list; `readName` carries the
compression-pointer count, the seek-back position recorded at the first
pointer, and explicit fuel (proved unreachable in `C9`). -/

/-- Go constant `MaxNameLength`. -/
abbrev MaxNameLength : Nat := 255

/-- Go constant `MaxEDNSSize`. -/
abbrev MaxEDNSSize : Nat := 4096

/-- Go constant `compressionPointerLimit`. -/
abbrev compressionPointerLimit : Nat := 10

/-- Go constant `RRTypeA`. -/
abbrev RRTypeA : Nat := 1

/-- Go constant `RRTypeAAAA`. -/
abbrev RRTypeAAAA : Nat := 28

/-- Go constant `RRTypeTXT`. -/
abbrev RRTypeTXT : Nat := 16

/-- Go constant `RRTypeOPT`. -/
abbrev RRTypeOPT : Nat := 41

/-- Go constant `ClassIN`. -/
abbrev ClassIN : Nat := 1

/-- Go constant `RcodeFormatError`. -/
abbrev RcodeFormatError : Nat := 1

/-- Go constant `RcodeServerFail`. -/
abbrev RcodeServerFail : Nat := 2

/-- Go constant `RcodeNameError` (NXDOMAIN). -/
abbrev RcodeNameError : Nat := 3

/-- Wire-codec errors of message.go, plus the fuel sentinel (proved
unreachable). `eof` covers `io.EOF` and `io.ErrUnexpectedEOF` from short
reads. -/
inductive DnsErr where
  | eof | zeroLengthLabel | labelTooLong | nameTooLong
  | tooManyPointers | reservedLabelType | trailingBytes | integerOverflow
  | fuel
  deriving DecidableEq

/-- Go `Question`. -/
structure Question where
  qname : Name
  qtype : Nat
  qclass : Nat
  deriving DecidableEq

/-- Go `RR`. -/
structure RR where
  rname : Name
  rtype : Nat
  rclass : Nat
  ttl : Nat
  rdata : List Nat
  deriving DecidableEq

/-- Go `Message`. -/
structure Message where
  id : Nat
  flags : Nat
  question : List Question
  answer : List RR
  authority : List RR
  additional : List RR
  deriving DecidableEq

/-- Validation loop of Go `NewName`, accumulating the wire length. -/
def NewNameAux : List (List Nat) → Nat → Except DnsErr Unit
  | [], tot => if MaxNameLength < tot + 1 then Except.error DnsErr.nameTooLong else Except.ok ()
  | l :: rest, tot =>
    if l.length = 0 then Except.error DnsErr.zeroLengthLabel
    else if MaxLabelLength < l.length then Except.error DnsErr.labelTooLong
    else NewNameAux rest (tot + l.length + 1)

/-- Go `NewName`: validate labels and total wire length. -/
def NewName (labels : List (List Nat)) : Except DnsErr Name :=
  (NewNameAux labels 0).map (fun _ => labels)

/-- Go `readName` loop, fuelled. State: position, pointer count, recorded
seek-back position (set at the first pointer), accumulated labels. `&0xc0`
on a byte is the value of `labelType / 64`; `&0x3f` is `labelType % 64`. -/
def readNameAux (buf : List Nat) : Nat → Nat → Nat → Option Nat → List (List Nat) →
    Except DnsErr (Name × Nat)
  | 0, _, _, _, _ => Except.error DnsErr.fuel
  | fuel + 1, pos, nPtr, seekTo, labels =>
    match byteAt buf pos with
    | none => Except.error DnsErr.eof
    | some labelType =>
      match labelType / 64 with
      | 0 =>
        if labelType % 64 = 0 then
          (NewName labels).map (fun nm => (nm, seekTo.getD (pos + 1)))
        else
          if pos + 1 + labelType % 64 ≤ buf.length then
            readNameAux buf fuel (pos + 1 + labelType % 64) nPtr seekTo
              (labels ++ [sliceAt buf (pos + 1) (labelType % 64)])
          else Except.error DnsErr.eof
      | 3 =>
        match byteAt buf (pos + 1) with
        | none => Except.error DnsErr.eof
        | some lower =>
          if compressionPointerLimit < nPtr + 1 then Except.error DnsErr.tooManyPointers
          else
            readNameAux buf fuel (labelType % 64 * 256 + lower) (nPtr + 1)
              (if nPtr = 0 then some (pos + 2) else seekTo) labels
      | _ => Except.error DnsErr.reservedLabelType

/-- Fuel bound for `readNameAux`: at most 11 pointer follows, and between
pointer follows the position strictly advances through the buffer. -/
def readNameFuel (buf : List Nat) : Nat := 12 * (buf.length + 2)

/-- Go `readName` at a reader position; returns the name and the position
the reader is left at (the seek-back position when compression was
followed). -/
def readName (buf : List Nat) (pos : Nat) : Except DnsErr (Name × Nat) :=
  readNameAux buf (readNameFuel buf) pos 0 none []

/-- `binary.Read` of a big-endian `uint16`. -/
def readU16 (buf : List Nat) (pos : Nat) : Except DnsErr (Nat × Nat) :=
  match byteAt buf pos, byteAt buf (pos + 1) with
  | some b0, some b1 => Except.ok (b0 * 256 + b1, pos + 2)
  | _, _ => Except.error DnsErr.eof

/-- `binary.Read` of a big-endian `uint32`. -/
def readU32 (buf : List Nat) (pos : Nat) : Except DnsErr (Nat × Nat) :=
  match byteAt buf pos, byteAt buf (pos + 1), byteAt buf (pos + 2), byteAt buf (pos + 3) with
  | some b0, some b1, some b2, some b3 =>
    Except.ok (((b0 * 256 + b1) * 256 + b2) * 256 + b3, pos + 4)
  | _, _, _, _ => Except.error DnsErr.eof

/-- Go `readQuestion`. -/
def readQuestion (buf : List Nat) (pos : Nat) : Except DnsErr (Question × Nat) :=
  match readName buf pos with
  | Except.error e => Except.error e
  | Except.ok (nm, pos1) =>
    match readU16 buf pos1 with
    | Except.error e => Except.error e
    | Except.ok (t, pos2) =>
      match readU16 buf pos2 with
      | Except.error e => Except.error e
      | Except.ok (cl, pos3) => Except.ok (⟨nm, t, cl⟩, pos3)

/-- Go `readRR`. -/
def readRR (buf : List Nat) (pos : Nat) : Except DnsErr (RR × Nat) :=
  match readName buf pos with
  | Except.error e => Except.error e
  | Except.ok (nm, pos1) =>
    match readU16 buf pos1 with
    | Except.error e => Except.error e
    | Except.ok (t, pos2) =>
      match readU16 buf pos2 with
      | Except.error e => Except.error e
      | Except.ok (cl, pos3) =>
        match readU32 buf pos3 with
        | Except.error e => Except.error e
        | Except.ok (ttl, pos4) =>
          match readU16 buf pos4 with
          | Except.error e => Except.error e
          | Except.ok (rdLength, pos5) =>
            if pos5 + rdLength ≤ buf.length then
              Except.ok (⟨nm, t, cl, ttl, sliceAt buf pos5 rdLength⟩, pos5 + rdLength)
            else Except.error DnsErr.eof

/-- The question-section loop of `ParseMessage`. -/
def readQuestions (buf : List Nat) : Nat → Nat → Except DnsErr (List Question × Nat)
  | 0, pos => Except.ok ([], pos)
  | n + 1, pos =>
    match readQuestion buf pos with
    | Except.error e => Except.error e
    | Except.ok (q, pos1) =>
      match readQuestions buf n pos1 with
      | Except.error e => Except.error e
      | Except.ok (qs, pos2) => Except.ok (q :: qs, pos2)

/-- A record-section loop of `ParseMessage`. -/
def readRRs (buf : List Nat) : Nat → Nat → Except DnsErr (List RR × Nat)
  | 0, pos => Except.ok ([], pos)
  | n + 1, pos =>
    match readRR buf pos with
    | Except.error e => Except.error e
    | Except.ok (rr, pos1) =>
      match readRRs buf n pos1 with
      | Except.error e => Except.error e
      | Except.ok (rrs, pos2) => Except.ok (rr :: rrs, pos2)

/-- Go `ParseMessage`: header, four sections, then the trailing-bytes
check. -/
def ParseMessage (buf : List Nat) : Except DnsErr Message :=
  match readU16 buf 0 with
  | Except.error e => Except.error e
  | Except.ok (id, p1) =>
    match readU16 buf p1 with
    | Except.error e => Except.error e
    | Except.ok (flags, p2) =>
      match readU16 buf p2 with
      | Except.error e => Except.error e
      | Except.ok (qdCount, p3) =>
        match readU16 buf p3 with
        | Except.error e => Except.error e
        | Except.ok (anCount, p4) =>
          match readU16 buf p4 with
          | Except.error e => Except.error e
          | Except.ok (nsCount, p5) =>
            match readU16 buf p5 with
            | Except.error e => Except.error e
            | Except.ok (arCount, p6) =>
              match readQuestions buf qdCount p6 with
              | Except.error e => Except.error e
              | Except.ok (qs, p7) =>
                match readRRs buf anCount p7 with
                | Except.error e => Except.error e
                | Except.ok (ans, p8) =>
                  match readRRs buf nsCount p8 with
                  | Except.error e => Except.error e
                  | Except.ok (auth, p9) =>
                    match readRRs buf arCount p9 with
                    | Except.error e => Except.error e
                    | Except.ok (add, p10) =>
                      if p10 < buf.length then Except.error DnsErr.trailingBytes
                      else Except.ok ⟨id, flags, qs, ans, auth, add⟩

/-! ### Message writer (`messageBuilder`) -/

/-- One lowercase hexadecimal digit, as in Go's `%02x`. -/
def hexDigit (d : Nat) : Nat := if d < 10 then 48 + d else 87 + d

/-- One byte of `Name.String()`: alphanumerics and `-` stand for
themselves, everything else is escaped as `\xHH`. -/
def escByte (b : Nat) : List Nat :=
  if b = 45 ∨ (48 ≤ b ∧ b ≤ 57) ∨ (65 ≤ b ∧ b ≤ 90) ∨ (97 ≤ b ∧ b ≤ 122) then [b]
  else [92, 120, hexDigit (b / 16 % 16), hexDigit (b % 16)]

/-- Go `Name.String()` as a byte string (Go strings are byte strings): the
root is `"."`, otherwise the escaped labels joined by `.`. Used as the
compression-cache key. -/
def nameStr (n : Name) : List Nat :=
  if n.isEmpty then [46]
  else List.intercalate [46] (n.map (fun l => (l.map escByte).flatten))

/-- Go `messageBuilder`: output buffer plus the name-compression cache
(`String()` of a suffix ↦ offset); the Go map with overwrite becomes a
prepend-and-first-match association list. -/
structure msgBuilder where
  buf : List Nat
  nameCache : List (List Nat × Nat)

/-- Cache lookup. -/
def cacheLookup (cache : List (List Nat × Nat)) (key : List Nat) : Option Nat :=
  (cache.find? (fun e => e.1 == key)).map (fun e => e.2)

/-- Go `messageBuilder.writeName`: at each suffix, emit a compression
pointer when the suffix is cached at an offset that fits in 14 bits
(`ptr&0x3fff == ptr`), else record the current offset for the suffix and
emit the label; terminate with a zero byte. -/
def writeName (b : msgBuilder) : Name → msgBuilder
  | [] => { b with buf := b.buf ++ [0] }
  | l :: rest =>
    match cacheLookup b.nameCache (nameStr (l :: rest)) with
    | some ptr =>
      if ptr % 16384 = ptr then
        { b with buf := b.buf ++ [192 + ptr / 256, ptr % 256] }
      else
        writeName
          { buf := b.buf ++ [l.length % 256] ++ l,
            nameCache := (nameStr (l :: rest), b.buf.length) :: b.nameCache } rest
    | none =>
      writeName
        { buf := b.buf ++ [l.length % 256] ++ l,
          nameCache := (nameStr (l :: rest), b.buf.length) :: b.nameCache } rest

/-- `binary.Write` of a big-endian `uint16` value (< 2^16 in all reachable
states). -/
def writeU16 (v : Nat) : List Nat := [v / 256 % 256, v % 256]

/-- `binary.Write` of a big-endian `uint32`. -/
def writeU32 (v : Nat) : List Nat :=
  [v / 16777216 % 256, v / 65536 % 256, v / 256 % 256, v % 256]

/-- Go `messageBuilder.writeQuestion`. -/
def writeQuestion (b : msgBuilder) (q : Question) : msgBuilder :=
  let b1 := writeName b q.qname
  { b1 with buf := b1.buf ++ writeU16 q.qtype ++ writeU16 q.qclass }

/-- Go `messageBuilder.writeRR`; fails with `ErrIntegerOverflow` when the
RDATA length does not fit `uint16`. -/
def writeRR (b : msgBuilder) (rr : RR) : Except DnsErr msgBuilder :=
  let b1 := writeName b rr.rname
  if rr.rdata.length % 65536 = rr.rdata.length then
    Except.ok { b1 with
      buf := b1.buf ++ writeU16 rr.rtype ++ writeU16 rr.rclass ++ writeU32 rr.ttl ++
        writeU16 rr.rdata.length ++ rr.rdata }
  else Except.error DnsErr.integerOverflow

/-- The record-section loop of `Marshal`. -/
def writeRRs (b : msgBuilder) : List RR → Except DnsErr msgBuilder
  | [] => Except.ok b
  | rr :: rest =>
    match writeRR b rr with
    | Except.error e => Except.error e
    | Except.ok b1 => writeRRs b1 rest

/-- Go `Message.Marshal`: section counts must fit `uint16`; header, then
questions, then the three record sections, sharing one name cache. -/
def Marshal (m : Message) : Except DnsErr (List Nat) :=
  if m.question.length % 65536 ≠ m.question.length then Except.error DnsErr.integerOverflow
  else if m.answer.length % 65536 ≠ m.answer.length then Except.error DnsErr.integerOverflow
  else if m.authority.length % 65536 ≠ m.authority.length then
    Except.error DnsErr.integerOverflow
  else if m.additional.length % 65536 ≠ m.additional.length then
    Except.error DnsErr.integerOverflow
  else
    match writeRRs
        (m.question.foldl writeQuestion
          ⟨writeU16 m.id ++ writeU16 m.flags ++ writeU16 m.question.length ++
            writeU16 m.answer.length ++ writeU16 m.authority.length ++
            writeU16 m.additional.length, []⟩)
        m.answer with
    | Except.error e => Except.error e
    | Except.ok b2 =>
      match writeRRs b2 m.authority with
      | Except.error e => Except.error e
      | Except.ok b3 =>
        match writeRRs b3 m.additional with
        | Except.error e => Except.error e
        | Except.ok b4 => Except.ok b4.buf

/-! ## Message helpers and the server handler (`internal/dns` tunnel.go,
`internal/server` handler.go) -/

/-- Go `Message.Opcode`. -/
def Opcode (m : Message) : Nat := m.flags / 2048 % 16

/-- Go `Message.Rcode`. -/
def Rcode (m : Message) : Nat := m.flags % 16

/-- Go `Message.IsResponse` (QR bit, 0x8000). -/
def IsResponse (m : Message) : Bool := m.flags / 32768 % 2 = 1

/-- Go `Message.SetRcode`: keep the high 12 flag bits, replace the RCODE. -/
def SetRcode (m : Message) (rcode : Nat) : Message :=
  { m with flags := m.flags / 16 * 16 + rcode % 16 }

/-- Go `CreateResponse`: same ID and questions, flags = 0x8000. -/
def CreateResponse (query : Message) : Message :=
  ⟨query.id, 32768, query.question, [], [], []⟩

/-- Go `Message.GetEDNS0Size`: class of the first OPT record in Additional,
or 0. -/
def GetEDNS0Size (m : Message) : Nat :=
  match m.additional.find? (fun rr => rr.rtype == RRTypeOPT) with
  | some rr => rr.rclass
  | none => 0

/-- Go `Message.AddEDNS0`. -/
def AddEDNS0 (m : Message) (udpSize : Nat) : Message :=
  { m with additional := m.additional ++ [⟨[], RRTypeOPT, udpSize, 0, []⟩] }

/-- Go `EncodeTXTData` loop, fuelled (each iteration consumes 255 bytes). -/
def EncodeTXTDataAux : Nat → List Nat → List Nat
  | 0, data => [data.length % 256] ++ data
  | fuel + 1, data =>
    if 255 < data.length then
      255 :: (data.take 255 ++ EncodeTXTDataAux fuel (data.drop 255))
    else data.length :: data

/-- Go `EncodeTXTData`: TXT character-string packing, splitting at 255. -/
def EncodeTXTData (data : List Nat) : List Nat := EncodeTXTDataAux data.length data

/-- Errors of `ValidateQuery` / `CreateTunnelResponse`:
`ErrInvalidQuery`, the unsupported-opcode error, the question-count error,
`ErrNotAuthoritative` and the EDNS0-too-small error. -/
inductive VErr where
  | invalidQuery | badOpcode | badQuestionCount | notAuthoritative | ednsTooSmall
  deriving DecidableEq

/-- Go `ValidateQuery`: not a response, opcode 0, exactly one question,
name under the authoritative suffix (else `ErrNotAuthoritative`), and a
minimum EDNS0 size when configured. -/
def ValidateQuery (msg : Message) (domain : Name) (minEDNSSize : Nat) :
    Except VErr Unit :=
  if IsResponse msg then Except.error VErr.invalidQuery
  else if Opcode msg ≠ 0 then Except.error VErr.badOpcode
  else if msg.question.length ≠ 1 then Except.error VErr.badQuestionCount
  else
    match msg.question with
    | [q] =>
      match trimSuffix q.qname domain with
      | none => Except.error VErr.notAuthoritative
      | some _ =>
        if 0 < minEDNSSize ∧ GetEDNS0Size msg < minEDNSSize then
          Except.error VErr.ednsTooSmall
        else Except.ok ()
    | _ => Except.error VErr.badQuestionCount

/-- Go `ExtractQueryPayload`: not a response, one question of type
TXT/A/AAAA, then `DecodePayload` on the question name. -/
def ExtractQueryPayload (msg : Message) (domain : Name) :
    Except PayErr (List Nat × List Nat) :=
  if IsResponse msg then Except.error PayErr.invalidQuery
  else if msg.question.length ≠ 1 then Except.error PayErr.invalidQuery
  else
    match msg.question with
    | [q] =>
      if q.qtype ≠ RRTypeTXT ∧ q.qtype ≠ RRTypeA ∧ q.qtype ≠ RRTypeAAAA then
        Except.error PayErr.invalidQuery
      else DecodePayload q.qname domain
    | _ => Except.error PayErr.invalidQuery

/-- Go `CreateTunnelResponse`: QR=1, AA=1, one TXT answer carrying the
character-string-packed payload, echoing the query's EDNS0 size. -/
def CreateTunnelResponse (query : Message) (domain : Name) (payload : List Nat)
    (ttl : Nat) : Except VErr Message :=
  if query.question.length ≠ 1 then Except.error VErr.invalidQuery
  else
    match query.question with
    | [q] =>
      Except.ok
        (if 0 < GetEDNS0Size query then
          AddEDNS0
            { CreateResponse query with
              flags := (CreateResponse query).flags ||| 1024,
              answer := [⟨q.qname, RRTypeTXT, ClassIN, ttl, EncodeTXTData payload⟩] }
            (GetEDNS0Size query)
        else
          { CreateResponse query with
            flags := (CreateResponse query).flags ||| 1024,
            answer := [⟨q.qname, RRTypeTXT, ClassIN, ttl, EncodeTXTData payload⟩] })
    | _ => Except.error VErr.invalidQuery

/-- Go `CreateErrorResponse`: response with the given RCODE; AA set only
when the (single) question is inside the authoritative suffix; echoes
EDNS0. -/
def CreateErrorResponse (query : Message) (domain : Name) (rcode : Nat) : Message :=
  if 0 < GetEDNS0Size query then
    AddEDNS0 (createErrorCore query domain rcode) (GetEDNS0Size query)
  else createErrorCore query domain rcode
where
  createErrorCore (query : Message) (domain : Name) (rcode : Nat) : Message :=
    if query.question.length = 1 then
      match query.question with
      | [q] =>
        match trimSuffix q.qname domain with
        | some _ =>
          { SetRcode (CreateResponse query) rcode with
            flags := (SetRcode (CreateResponse query) rcode).flags ||| 1024 }
        | none => SetRcode (CreateResponse query) rcode
      | _ => SetRcode (CreateResponse query) rcode
    else SetRcode (CreateResponse query) rcode

/-- The server handler's collaborators: the authoritative domain and
configuration, the AEAD and server cipher, and the upstream resolver as a
pure function (`nil` upstream responses are `none`). The response
encryption's nonce randomness is `respRnd`; `varyTTL`'s clock-derived
variance is absorbed into `responseTTL`. -/
structure ServerEnv where
  domain : Name
  maxUDPSize : Nat
  responseTTL : Nat
  aead : AEADScheme
  cipher : Cipher
  resolver : Message → Option Message
  respRnd : List Nat

/-- The error cases of `processTunnelQuery`, wrapping each failing step. -/
inductive ServErr where
  | extractFailed (e : PayErr)
  | decryptFailed (e : CryptoErr)
  | parseFailed (e : DnsErr)
  | upstreamFailed
  | marshalFailed (e : DnsErr)
  | responseFailed (e : VErr)
  deriving DecidableEq

/-- Go `Handler.processTunnelQuery`: extract the encrypted payload from the
query name, decrypt, parse the inner query, resolve upstream, marshal,
encrypt the response without timestamp, and build the tunnel response.
Note: no replay-cache call appears anywhere in this pipeline. -/
def processTunnelQuery (env : ServerEnv) (now : Int) (query : Message) :
    Except ServErr (Message × Cipher) :=
  match ExtractQueryPayload query env.domain with
  | Except.error e => Except.error (ServErr.extractFailed e)
  | Except.ok (_clientID, encryptedPayload) =>
    match Decrypt env.aead env.cipher now encryptedPayload with
    | Except.error e => Except.error (ServErr.decryptFailed e)
    | Except.ok decryptedQuery =>
      match ParseMessage decryptedQuery with
      | Except.error e => Except.error (ServErr.parseFailed e)
      | Except.ok originalQuery =>
        match env.resolver originalQuery with
        | none => Except.error ServErr.upstreamFailed
        | some dnsResponse =>
          match Marshal dnsResponse with
          | Except.error e => Except.error (ServErr.marshalFailed e)
          | Except.ok responseData =>
            match CreateTunnelResponse query env.domain
                (EncryptWithoutTimestamp env.aead env.cipher env.respRnd responseData).1
                env.responseTTL with
            | Except.error e => Except.error (ServErr.responseFailed e)
            | Except.ok response =>
              Except.ok (response,
                (EncryptWithoutTimestamp env.aead env.cipher env.respRnd responseData).2)

/-- What the handler does with one datagram: drop it, send an error
response with the given RCODE (via `CreateErrorResponse`), or send a
tunnel response. -/
inductive HandlerAction where
  | drop
  | respondErr (rcode : Nat)
  | respond (response : Message)
  deriving DecidableEq

/-- Go `Handler.handleQuery`: parse (drop on failure), drop responses,
validate (`ErrNotAuthoritative` ⇒ NXDOMAIN, other validation failures ⇒
FORMERR), then process the tunnel query (any failure ⇒ SERVFAIL). -/
def handleQuery (env : ServerEnv) (now : Int) (data : List Nat) : HandlerAction :=
  match ParseMessage data with
  | Except.error _ => HandlerAction.drop
  | Except.ok query =>
    if IsResponse query then HandlerAction.drop
    else
      match ValidateQuery query env.domain (env.maxUDPSize % 65536) with
      | Except.error VErr.notAuthoritative => HandlerAction.respondErr RcodeNameError
      | Except.error _ => HandlerAction.respondErr RcodeFormatError
      | Except.ok _ =>
        match processTunnelQuery env now query with
        | Except.error _ => HandlerAction.respondErr RcodeServerFail
        | Except.ok (response, _) => HandlerAction.respond response

/-- The timestamp a `Decrypt` call would read out of `data` (the first 4
bytes of the AEAD-opened payload, big-endian), when the data authenticates
under the cipher. -/
def DecryptTimestamp (aead : AEADScheme) (c : Cipher) (data : List Nat) : Option Int :=
  if data.length < NonceSize + TimestampSize + AEADOverhead then none
  else
    match aead.Open c.decryptKey (data.take NonceSize) (data.drop NonceSize) with
    | none => none
    | some payload =>
      if payload.length < TimestampSize then none
      else some (fromBE (payload.take TimestampSize))

/-- The timestamp carried inside an encrypted tunnel query under the
server's cipher. -/
def queryTimestampOf (env : ServerEnv) (query : Message) : Option Int :=
  match ExtractQueryPayload query env.domain with
  | Except.error _ => none
  | Except.ok (_, encryptedPayload) =>
    DecryptTimestamp env.aead env.cipher encryptedPayload

/-! ### Validity of messages, and read-correctness predicates -/

/-- A question the codec can emit: a `NewName`-valid name and `uint16`
type and class. -/
def validQuestionB (q : Question) : Bool :=
  validNameB q.qname && decide (q.qtype < 65536) && decide (q.qclass < 65536)

/-- A resource record the codec can emit: a `NewName`-valid name, `uint16`
type, class and RDATA length, `uint32` TTL, byte-valued RDATA. -/
def validRRB (rr : RR) : Bool :=
  validNameB rr.rname && decide (rr.rtype < 65536) && decide (rr.rclass < 65536) &&
    decide (rr.ttl < 4294967296) && decide (rr.rdata.length < 65536) &&
    rr.rdata.all (fun b => decide (b < 256))

/-- A message the codec can emit: `uint16` id, flags and section counts,
and valid questions and records. -/
def validMessage (m : Message) : Bool :=
  decide (m.id < 65536) && decide (m.flags < 65536) &&
    decide (m.question.length < 65536) && decide (m.answer.length < 65536) &&
    decide (m.authority.length < 65536) && decide (m.additional.length < 65536) &&
    m.question.all validQuestionB && m.answer.all validRRB &&
    m.authority.all validRRB && m.additional.all validRRB

/-- Name-read correctness at offset `off`: under any buffer extension and
any reader state whose pointer count and seek-back slot agree, the fuelled
reader either runs out of fuel, trips the pointer cap, or returns the
`NewName` of the accumulated labels followed by `nm`, leaving the reader
at the seek-back position (`endP` for a top-level read). -/
def ReadsAt (buf : List Nat) (off : Nat) (nm : Name) (endP : Nat) : Prop :=
  ∀ (ext : List Nat) (fuel nPtr : Nat) (st : Option Nat) (acc : List (List Nat)),
    (nPtr = 0 ↔ st = none) →
    readNameAux (buf ++ ext) fuel off nPtr st acc = Except.error DnsErr.fuel ∨
    readNameAux (buf ++ ext) fuel off nPtr st acc = Except.error DnsErr.tooManyPointers ∨
    readNameAux (buf ++ ext) fuel off nPtr st acc
      = (NewName (acc ++ nm)).map (fun v => (v, st.getD endP))

/-- A compression-cache entry is good when its key is the `String()` of a
valid nonempty name that reads back from the recorded offset. -/
def entryGood (buf : List Nat) (e : List Nat × Nat) : Prop :=
  ∃ (nm : Name) (endP : Nat), e.1 = nameStr nm ∧ validNameB nm = true ∧ nm ≠ [] ∧
    ReadsAt buf e.2 nm endP

/-- Every cache entry of the builder is good. -/
def CacheGood (b : msgBuilder) : Prop := ∀ e ∈ b.nameCache, entryGood b.buf e

/-- Question-read correctness at `off` under any extension. -/
def QReadsAt (buf : List Nat) (off : Nat) (q : Question) (endP : Nat) : Prop :=
  ∀ ext, readQuestion (buf ++ ext) off = Except.error DnsErr.tooManyPointers ∨
    readQuestion (buf ++ ext) off = Except.ok (q, endP)

/-- Record-read correctness at `off` under any extension. -/
def RRReadsAt (buf : List Nat) (off : Nat) (rr : RR) (endP : Nat) : Prop :=
  ∀ ext, readRR (buf ++ ext) off = Except.error DnsErr.tooManyPointers ∨
    readRR (buf ++ ext) off = Except.ok (rr, endP)

/-- Question-section read correctness at `off` under any extension. -/
def QsReadAt (buf : List Nat) (off : Nat) (qs : List Question) (endP : Nat) : Prop :=
  ∀ ext, readQuestions (buf ++ ext) qs.length off = Except.error DnsErr.tooManyPointers ∨
    readQuestions (buf ++ ext) qs.length off = Except.ok (qs, endP)

/-- Record-section read correctness at `off` under any extension. -/
def RRsReadAt (buf : List Nat) (off : Nat) (rrs : List RR) (endP : Nat) : Prop :=
  ∀ ext, readRRs (buf ++ ext) rrs.length off = Except.error DnsErr.tooManyPointers ∨
    readRRs (buf ++ ext) rrs.length off = Except.ok (rrs, endP)

/-! ## Theorems -/

theorem byteAt_append_right (a b : List Nat) (i : Nat) :
    byteAt (a ++ b) (a.length + i) = byteAt b i := by
  induction a with
  | nil => simp [byteAt]
  | cons x xs ih => simpa [byteAt, List.length_cons, Nat.succ_add] using ih

theorem byteAt_append_left (a b : List Nat) (i : Nat) (h : i < a.length) :
    byteAt (a ++ b) i = byteAt a i := by
  induction a generalizing i with
  | nil => simp at h
  | cons x xs ih =>
    cases i with
    | zero => rfl
    | succ j => simpa [byteAt] using ih j (by simpa using h)

theorem byteAt_eq_some (buf : List Nat) (i : Nat) (h : i < buf.length) :
    ∃ b, byteAt buf i = some b := by
  induction buf generalizing i with
  | nil => simp at h
  | cons x xs ih =>
    cases i with
    | zero => exact ⟨x, rfl⟩
    | succ j => exact ih j (by simpa using h)

theorem byteAt_eq_none (buf : List Nat) (i : Nat) (h : buf.length ≤ i) :
    byteAt buf i = none := by
  simp only [byteAt, List.get?_eq_none]
  exact h

theorem byteAt_lt_length (buf : List Nat) (i b : Nat) (h : byteAt buf i = some b) :
    i < buf.length := by
  by_contra hc
  rw [byteAt_eq_none buf i (by omega)] at h
  exact Option.noConfusion h

theorem sliceAt_append (a b c : List Nat) :
    sliceAt (a ++ b ++ c) a.length b.length = b := by
  simp [sliceAt, List.drop_append, List.take_append]

theorem sliceAt_extend (buf ext : List Nat) (pos n : Nat) (h : pos + n ≤ buf.length) :
    sliceAt (buf ++ ext) pos n = sliceAt buf pos n := by
  unfold sliceAt
  rw [List.drop_append_of_le_length (by omega)]
  rw [List.take_append_of_le_length (by rw [List.length_drop]; omega)]

theorem enc5_lt (b0 b1 b2 b3 b4 : Nat) : ∀ d ∈ enc5 b0 b1 b2 b3 b4, d < 32 := by
  simp only [enc5, List.mem_cons, List.not_mem_nil, or_false]
  rintro d (rfl | rfl | rfl | rfl | rfl | rfl | rfl | rfl) <;> omega

theorem b32encBytes_lt (l : List Nat) : ∀ d ∈ b32encBytes l, d < 32 := by
  induction l using b32encBytes.induct with
  | case1 b0 b1 b2 b3 b4 rest ih =>
    intro d hd
    rw [b32encBytes] at hd
    rcases List.mem_append.1 hd with h | h
    · exact enc5_lt _ _ _ _ _ d h
    · exact ih d h
  | case2 => intro d hd; simp [b32encBytes] at hd
  | case3 b0 =>
    intro d hd
    exact enc5_lt b0 0 0 0 0 d (List.mem_of_mem_take hd)
  | case4 b0 b1 =>
    intro d hd
    exact enc5_lt b0 b1 0 0 0 d (List.mem_of_mem_take hd)
  | case5 b0 b1 b2 =>
    intro d hd
    exact enc5_lt b0 b1 b2 0 0 d (List.mem_of_mem_take hd)
  | case6 b0 b1 b2 b3 =>
    intro d hd
    exact enc5_lt b0 b1 b2 b3 0 d (List.mem_of_mem_take hd)

theorem dec8_enc5 (b0 b1 b2 b3 b4 : Nat) (h0 : b0 < 256) (h1 : b1 < 256)
    (h2 : b2 < 256) (h3 : b3 < 256) (h4 : b4 < 256) :
    dec8 (b0 / 8 % 32) ((b0 * 4 + b1 / 64) % 32) (b1 / 2 % 32)
      ((b1 * 16 + b2 / 16) % 32) ((b2 * 2 + b3 / 128) % 32) (b3 / 4 % 32)
      ((b3 * 8 + b4 / 32) % 32) (b4 % 32) = [b0, b1, b2, b3, b4] := by
  simp only [dec8, List.cons.injEq, and_true]
  refine ⟨?_, ?_, ?_, ?_, ?_⟩ <;> omega

theorem b32decDigits_encBytes (l : List Nat) (h : ∀ b ∈ l, b < 256) :
    b32decDigits (b32encBytes l) = some l := by
  induction l using b32encBytes.induct with
  | case1 b0 b1 b2 b3 b4 rest ih =>
    have h0 : b0 < 256 := h b0 (by simp)
    have h1 : b1 < 256 := h b1 (by simp)
    have h2 : b2 < 256 := h b2 (by simp)
    have h3 : b3 < 256 := h b3 (by simp)
    have h4 : b4 < 256 := h b4 (by simp)
    have hrest := ih (fun b hb => h b (by simp [hb]))
    rw [b32encBytes]
    simp only [enc5, List.cons_append, List.nil_append]
    rw [b32decDigits, hrest]
    simp only [Option.map_some']
    rw [dec8_enc5 b0 b1 b2 b3 b4 h0 h1 h2 h3 h4]
    simp only [List.cons_append, List.nil_append]
  | case2 => rfl
  | case3 b0 =>
    have h0 : b0 < 256 := h b0 (by simp)
    have e1 : b32encBytes [b0] = [b0 / 8 % 32, (b0 * 4 + 0 / 64) % 32] := rfl
    have e2 : b32decDigits [b0 / 8 % 32, (b0 * 4 + 0 / 64) % 32] =
        some [((b0 / 8 % 32) * 8 + ((b0 * 4 + 0 / 64) % 32) / 4) % 256] := rfl
    rw [e1, e2]
    simp only [Option.some.injEq, List.cons.injEq, and_true]
    omega
  | case4 b0 b1 =>
    have h0 : b0 < 256 := h b0 (by simp)
    have h1 : b1 < 256 := h b1 (by simp)
    have e1 : b32encBytes [b0, b1] =
        [b0 / 8 % 32, (b0 * 4 + b1 / 64) % 32, b1 / 2 % 32, (b1 * 16 + 0 / 16) % 32] := rfl
    rw [e1]
    have e2 : b32decDigits
        [b0 / 8 % 32, (b0 * 4 + b1 / 64) % 32, b1 / 2 % 32, (b1 * 16 + 0 / 16) % 32] =
        some (((dec8 (b0 / 8 % 32) ((b0 * 4 + b1 / 64) % 32) (b1 / 2 % 32)
          ((b1 * 16 + 0 / 16) % 32) 0 0 0 0)).take 2) := rfl
    rw [e2]
    simp only [dec8, List.take, Option.some.injEq, List.cons.injEq, and_true]
    exact ⟨by omega, by omega⟩
  | case5 b0 b1 b2 =>
    have h0 : b0 < 256 := h b0 (by simp)
    have h1 : b1 < 256 := h b1 (by simp)
    have h2 : b2 < 256 := h b2 (by simp)
    have e1 : b32encBytes [b0, b1, b2] =
        [b0 / 8 % 32, (b0 * 4 + b1 / 64) % 32, b1 / 2 % 32, (b1 * 16 + b2 / 16) % 32,
         (b2 * 2 + 0 / 128) % 32] := rfl
    rw [e1]
    have e2 : b32decDigits
        [b0 / 8 % 32, (b0 * 4 + b1 / 64) % 32, b1 / 2 % 32, (b1 * 16 + b2 / 16) % 32,
         (b2 * 2 + 0 / 128) % 32] =
        some (((dec8 (b0 / 8 % 32) ((b0 * 4 + b1 / 64) % 32) (b1 / 2 % 32)
          ((b1 * 16 + b2 / 16) % 32) ((b2 * 2 + 0 / 128) % 32) 0 0 0)).take 3) := rfl
    rw [e2]
    simp only [dec8, List.take, Option.some.injEq, List.cons.injEq, and_true]
    exact ⟨by omega, by omega, by omega⟩
  | case6 b0 b1 b2 b3 =>
    have h0 : b0 < 256 := h b0 (by simp)
    have h1 : b1 < 256 := h b1 (by simp)
    have h2 : b2 < 256 := h b2 (by simp)
    have h3 : b3 < 256 := h b3 (by simp)
    have e1 : b32encBytes [b0, b1, b2, b3] =
        [b0 / 8 % 32, (b0 * 4 + b1 / 64) % 32, b1 / 2 % 32, (b1 * 16 + b2 / 16) % 32,
         (b2 * 2 + b3 / 128) % 32, b3 / 4 % 32, (b3 * 8 + 0 / 32) % 32] := rfl
    rw [e1]
    have e2 : b32decDigits
        [b0 / 8 % 32, (b0 * 4 + b1 / 64) % 32, b1 / 2 % 32, (b1 * 16 + b2 / 16) % 32,
         (b2 * 2 + b3 / 128) % 32, b3 / 4 % 32, (b3 * 8 + 0 / 32) % 32] =
        some (((dec8 (b0 / 8 % 32) ((b0 * 4 + b1 / 64) % 32) (b1 / 2 % 32)
          ((b1 * 16 + b2 / 16) % 32) ((b2 * 2 + b3 / 128) % 32) (b3 / 4 % 32)
          ((b3 * 8 + 0 / 32) % 32) 0)).take 4) := rfl
    rw [e2]
    simp only [dec8, List.take, Option.some.injEq, List.cons.injEq, and_true]
    exact ⟨by omega, by omega, by omega, by omega⟩

theorem b32digit_roundtrip (d : Nat) (h : d < 32) :
    b32digit (upperByte (lowerByte (b32char d))) = some d := by
  interval_cases d <;> rfl

theorem mapM_b32digit_chars (ds : List Nat) (h : ∀ d ∈ ds, d < 32) :
    ((ds.map (fun d => upperByte (lowerByte (b32char d)))).mapM b32digit) = some ds := by
  induction ds with
  | nil => rfl
  | cons d rest ih =>
    have hd := b32digit_roundtrip d (h d (by simp))
    have hrest := ih (fun x hx => h x (by simp [hx]))
    simp only [List.map_cons, List.mapM_cons, hd, hrest]
    rfl

/-- Encoding then lowercasing then uppercasing then decoding is the
identity on byte strings. -/
theorem b32_roundtrip (l : List Nat) (h : ∀ b ∈ l, b < 256) :
    b32decode ((b32encBytes l).map (fun d => upperByte (lowerByte (b32char d)))) = some l := by
  unfold b32decode
  rw [mapM_b32digit_chars _ (b32encBytes_lt l)]
  simpa using b32decDigits_encBytes l h

/-- Length bound: 5 · encodedLen ≤ 8 · len + 4 (the `EncodedLen` formula
`(n*8 + 4) / 5` for no padding). -/
theorem b32encBytes_length (l : List Nat) :
    5 * (b32encBytes l).length ≤ 8 * l.length + 4 := by
  induction l using b32encBytes.induct with
  | case1 b0 b1 b2 b3 b4 rest ih => simp [b32encBytes, enc5]; omega
  | case2 => simp [b32encBytes]
  | case3 b0 => simp [b32encBytes, enc5]
  | case4 b0 b1 => simp [b32encBytes, enc5]
  | case5 b0 b1 b2 => simp [b32encBytes, enc5]
  | case6 b0 b1 b2 b3 => simp [b32encBytes, enc5]

theorem equalFold_refl (a : List Nat) : equalFold a a = true := by
  simp [equalFold]

theorem zip_self_eq (l : Name) (p : List Nat × List Nat) (hp : p ∈ l.zip l) :
    p.1 = p.2 := by
  induction l with
  | nil => simp [List.zip] at hp
  | cons x xs ih =>
    rw [List.zip_cons_cons] at hp
    rcases List.mem_cons.1 hp with h | h
    · rw [h]
    · exact ih h

theorem trimSuffix_append (pre domain : Name) :
    trimSuffix (pre ++ domain) domain = some pre := by
  unfold trimSuffix
  have hlen : (pre ++ domain).length = pre.length + domain.length := by simp
  rw [if_neg (by omega)]
  have hdrop : (pre ++ domain).drop ((pre ++ domain).length - domain.length) = domain := by
    rw [hlen, Nat.add_sub_cancel, List.drop_left]
  have htake : (pre ++ domain).take ((pre ++ domain).length - domain.length) = pre := by
    rw [hlen, Nat.add_sub_cancel, List.take_left]
  rw [hdrop, htake, if_pos]
  apply List.all_eq_true.2
  intro p hp
  rw [zip_self_eq domain p hp]
  exact equalFold_refl _

theorem splitLabelsAux_nil (fuel m : Nat) : splitLabelsAux fuel [] m = [] := by
  cases fuel <;> simp [splitLabelsAux]

theorem splitLabelsAux_spec :
    ∀ (fuel : Nat) (data : List Nat), data.length ≤ fuel →
      (splitLabelsAux fuel data 63).flatten = data ∧
      (∀ l ∈ splitLabelsAux fuel data 63, 1 ≤ l.length ∧ l.length ≤ 63) ∧
      63 * (splitLabelsAux fuel data 63).length < data.length + 63 := by
  intro fuel
  induction fuel with
  | zero =>
    intro data h
    have hnil : data = [] := List.eq_nil_of_length_eq_zero (by omega)
    subst hnil
    refine ⟨rfl, by simp [splitLabelsAux], by simp [splitLabelsAux]⟩
  | succ f ih =>
    intro data h
    rw [splitLabelsAux]
    by_cases hd : data.length = 0
    · rw [if_pos hd]
      have hnil : data = [] := List.eq_nil_of_length_eq_zero hd
      subst hnil
      exact ⟨rfl, by simp, by simp⟩
    · rw [if_neg hd]
      rcases Nat.lt_or_ge data.length 63 with hlt | hge
      · have hch : min data.length 63 = data.length := by omega
        rw [hch, List.drop_length, List.take_length, splitLabelsAux_nil]
        refine ⟨by simp, ?_, by simp; omega⟩
        intro l hl
        rcases List.mem_cons.1 hl with hx | hx
        · subst hx; omega
        · simp at hx
      · have hch : min data.length 63 = 63 := by omega
        rw [hch]
        have hdl : (data.drop 63).length = data.length - 63 := by simp
        obtain ⟨ih1, ih2, ih3⟩ := ih (data.drop 63) (by omega)
        refine ⟨?_, ?_, ?_⟩
        · rw [List.flatten_cons, ih1]
          exact List.take_append_drop _ data
        · intro l hl
          rcases List.mem_cons.1 hl with hx | hx
          · subst hx
            rw [List.length_take]
            omega
          · exact ih2 l hx
        · rw [List.length_cons]
          rw [hdl] at ih3
          omega

theorem splitLabels_join (data : List Nat) :
    (splitLabels data MaxLabelLength).flatten = data :=
  (splitLabelsAux_spec data.length data (le_refl _)).1

theorem splitLabels_labels (data : List Nat) :
    ∀ l ∈ splitLabels data MaxLabelLength, 1 ≤ l.length ∧ l.length ≤ MaxLabelLength :=
  (splitLabelsAux_spec data.length data (le_refl _)).2.1

theorem splitLabels_count (data : List Nat) :
    MaxLabelLength * (splitLabels data MaxLabelLength).length <
      data.length + MaxLabelLength :=
  (splitLabelsAux_spec data.length data (le_refl _)).2.2

theorem readFramesAux_nil (fuel : Nat) (acc : List Nat) :
    readFramesAux fuel [] acc = Except.ok acc := by
  cases fuel <;> rfl

theorem readFramesAux_skip (fuel padLen : Nat) (hpl : padLen ≤ 31)
    (padding tail acc : List Nat) (hp : padding.length = padLen) :
    readFramesAux (fuel + 1) ((PaddingPrefixBase + padLen) :: (padding ++ tail)) acc =
      readFramesAux fuel tail acc := by
  rw [readFramesAux]
  rw [if_pos (by omega)]
  have he : PaddingPrefixBase + padLen - PaddingPrefixBase = padLen := by omega
  rw [he]
  rw [if_pos (by simp [hp])]
  rw [← hp, List.drop_left]

theorem readFramesAux_data (fuel : Nat) (payload acc : List Nat)
    (hlen : payload.length < PaddingPrefixBase) :
    readFramesAux (fuel + 1) (payload.length :: payload) acc =
      Except.ok (acc ++ payload) := by
  rw [readFramesAux]
  rw [if_neg (by omega)]
  rw [if_pos (le_refl _)]
  rw [List.take_length, List.drop_length]
  exact readFramesAux_nil fuel _

theorem encRaw_bytes_lt (payload clientID : List Nat) (padLen : Nat)
    (padRand : Nat → Nat) (hpad : padLen ≤ 31)
    (hpay : ∀ b ∈ payload, b < 256) (hplen : payload.length < PaddingPrefixBase)
    (hcid : ∀ b ∈ clientID, b < 256) :
    ∀ b ∈ encRaw payload clientID padLen padRand, b < 256 := by
  intro b hb
  unfold encRaw at hb
  simp only [List.mem_append, List.mem_cons, List.not_mem_nil, or_false,
    List.mem_map, List.mem_range] at hb
  rcases hb with ((hb | hb) | hb) | hb
  · exact hcid b hb
  · simp only [PaddingPrefixBase] at hb
    omega
  · obtain ⟨i, _, hi⟩ := hb
    omega
  · by_cases hz : payload.length = 0
    · simp [hz] at hb
    · rw [if_neg hz] at hb
      rcases List.mem_cons.1 hb with hb | hb
      · simp only [PaddingPrefixBase] at hplen
        omega
      · exact hpay b hb

theorem encRaw_length (payload clientID : List Nat) (padLen : Nat)
    (padRand : Nat → Nat) (hcidlen : clientID.length = ClientIDSize) :
    (encRaw payload clientID padLen padRand).length =
      9 + padLen + (if payload.length = 0 then 0 else 1 + payload.length) := by
  unfold encRaw
  by_cases hz : payload.length = 0
  · simp [hz, hcidlen, ClientIDSize]
    omega
  · simp [hz, hcidlen, ClientIDSize]
    omega

theorem encPaddingLen_le (payloadLen randByte : Nat) :
    MinPadding ≤ encPaddingLen payloadLen randByte ∧
      encPaddingLen payloadLen randByte ≤ 13 := by
  unfold encPaddingLen
  by_cases hz : payloadLen = 0 <;>
    simp [hz, MinPadding, MaxPadding, MinPaddingPoll] <;> omega

/-- C1: for every byte sequence `b` with `|b| < 0xE0` that fits the capacity
of a suffix domain `D` (expressed as: `EncodePayload` succeeds, which is the
code's own fit criterion, for the given random padding choices), and every
8-byte ClientID `cid`, decoding the encoded name under `D` returns `(cid, b)`
without error. -/
theorem C1_payload_roundtrip
    (payload clientID : List Nat) (domain : Name) (randByte : Nat)
    (padRand : Nat → Nat) (nm : Name)
    (hpay : ∀ b ∈ payload, b < 256) (hplen : payload.length < PaddingPrefixBase)
    (hcidlen : clientID.length = ClientIDSize) (hcid : ∀ b ∈ clientID, b < 256)
    (henc : EncodePayload payload clientID domain randByte padRand = Except.ok nm) :
    DecodePayload nm domain = Except.ok (clientID, payload) := by
  unfold EncodePayload at henc
  rw [if_neg (by omega)] at henc
  by_cases hcap : ((encRaw payload clientID (encPaddingLen payload.length randByte) padRand).length : Int)
      > DNSNameCapacity domain
  · rw [if_pos hcap] at henc
    exact absurd henc (by simp)
  · rw [if_neg hcap] at henc
    have hnm := Except.ok.inj henc
    subst hnm
    obtain ⟨hpl1, hpl2⟩ := encPaddingLen_le payload.length randByte
    set padLen := encPaddingLen payload.length randByte with hpadeq
    set raw := encRaw payload clientID padLen padRand with hraweq
    have hrawlt : ∀ b ∈ raw, b < 256 :=
      encRaw_bytes_lt payload clientID padLen padRand (by omega) hpay hplen hcid
    have hrawlen := encRaw_length payload clientID padLen padRand hcidlen
    unfold DecodePayload
    rw [trimSuffix_append]
    dsimp only
    rw [splitLabels_join]
    rw [List.map_map]
    have hmapeq :
        ((b32encBytes raw).map (upperByte ∘ fun d => lowerByte (b32char d))) =
          ((b32encBytes raw).map (fun d => upperByte (lowerByte (b32char d)))) := by
      simp [Function.comp]
    rw [hmapeq, b32_roundtrip raw hrawlt]
    dsimp only
    rw [← hraweq] at hrawlen
    have hrawge : 9 ≤ raw.length := by
      rw [hrawlen]
      split <;> omega
    rw [if_neg (by simp only [ClientIDSize]; omega)]
    have hsplit : raw = clientID ++
        ((PaddingPrefixBase + padLen) ::
          (((List.range padLen).map (fun i => padRand i % 256)) ++
            (if payload.length = 0 then [] else [payload.length] ++ payload))) := by
      rw [hraweq]
      unfold encRaw
      simp
    have htake : raw.take ClientIDSize = clientID := by
      rw [hsplit, ← hcidlen, List.take_left]
    have hdrop : raw.drop ClientIDSize =
        (PaddingPrefixBase + padLen) ::
          (((List.range padLen).map (fun i => padRand i % 256)) ++
            (if payload.length = 0 then [] else [payload.length] ++ payload)) := by
      rw [hsplit, ← hcidlen, List.drop_left]
    rw [htake, hdrop]
    have hpadbytes : ((List.range padLen).map (fun i => padRand i % 256)).length = padLen := by
      simp
    by_cases hz : payload.length = 0
    · rw [if_pos hz]
      have hpz : payload = [] := List.eq_nil_of_length_eq_zero hz
      subst hpz
      rw [List.append_nil]
      have hlen2 : ((PaddingPrefixBase + padLen) ::
          ((List.range padLen).map (fun i => padRand i % 256))).length = padLen + 1 := by
        simp
      rw [hlen2]
      have hstep := readFramesAux_skip (padLen + 1) padLen (by omega)
        ((List.range padLen).map (fun i => padRand i % 256)) [] [] hpadbytes
      rw [List.append_nil] at hstep
      rw [hstep, readFramesAux_nil]
      rfl
    · rw [if_neg hz]
      have hlen2 : ((PaddingPrefixBase + padLen) ::
          (((List.range padLen).map (fun i => padRand i % 256)) ++
            ([payload.length] ++ payload))).length = padLen + payload.length + 2 := by
        simp
        omega
      rw [hlen2]
      have hstep := readFramesAux_skip (padLen + payload.length + 2) padLen (by omega)
        ((List.range padLen).map (fun i => padRand i % 256))
        ([payload.length] ++ payload) [] hpadbytes

      rw [show padLen + payload.length + 2 + 1 = (padLen + payload.length + 2) + 1 from rfl,
        hstep]
      have hdata := readFramesAux_data (padLen + payload.length + 1) payload [] hplen
      rw [show ([payload.length] ++ payload) = payload.length :: payload from rfl]
      rw [show padLen + payload.length + 2 = (padLen + payload.length + 1) + 1 from rfl,
        hdata]
      rfl

/-- C1 witness: a concrete payload, ClientID and suffix domain for which the
round-trip evaluates as the theorem states. -/
theorem C1_witness :
    DecodePayload
      ((EncodePayload [1, 2, 3] [1, 1, 1, 1, 1, 1, 1, 1] [[116]] 0 (fun _ => 0)).toOption.getD [])
      [[116]] = Except.ok ([1, 1, 1, 1, 1, 1, 1, 1], [1, 2, 3]) :=
  C1_payload_roundtrip [1, 2, 3] [1, 1, 1, 1, 1, 1, 1, 1] [[116]] 0 (fun _ => 0) _
    (by decide) (by decide) (by decide) (by decide) (by rfl)

theorem capacity_foldl (domain : Name) (init : Int) :
    domain.foldl (fun a l => a - ((l.length : Int) + 1)) init =
      init - (sumParts domain : Int) := by
  induction domain generalizing init with
  | nil => simp [sumParts]
  | cons x xs ih =>
    rw [List.foldl_cons, ih]
    simp only [sumParts, List.map_cons, List.sum_cons]
    push_cast
    ring

theorem nameWire_append (a b : Name) :
    nameWire (a ++ b) = sumParts a + nameWire b := by
  simp only [nameWire, sumParts, List.map_append, List.sum_append]
  omega

theorem sumParts_eq (n : Name) : sumParts n = n.flatten.length + n.length := by
  induction n with
  | nil => simp [sumParts]
  | cons x xs ih =>
    simp only [sumParts, List.map_cons, List.sum_cons, List.flatten_cons,
      List.length_append, List.length_cons] at *
    omega

/-- C8: for every payload `EncodePayload` accepts under a suffix domain that
is itself a valid DNS name, the returned name has every label at most 63
bytes and total wire size at most 255 bytes. -/
theorem C8_encoded_name_bounds
    (payload clientID : List Nat) (domain : Name) (randByte : Nat)
    (padRand : Nat → Nat) (nm : Name)
    (hdom : validNameB domain = true)
    (henc : EncodePayload payload clientID domain randByte padRand = Except.ok nm) :
    (∀ l ∈ nm, l.length ≤ MaxLabelLength) ∧ nameWire nm ≤ 255 := by
  obtain ⟨hdall, hdwire⟩ := (Bool.and_eq_true _ _).mp hdom
  have hdwire2 : nameWire domain ≤ 255 := of_decide_eq_true hdwire
  have hdlab : ∀ l ∈ domain, validLabelB l = true := List.all_eq_true.mp hdall
  have hP : sumParts domain + 1 ≤ 255 := by
    have : nameWire domain = sumParts domain + 1 := by simp [nameWire, sumParts]
    omega
  unfold EncodePayload at henc
  by_cases h1 : 0 < payload.length ∧ PaddingPrefixBase ≤ payload.length
  · rw [if_pos h1] at henc
    exact absurd henc (by simp)
  · rw [if_neg h1] at henc
    by_cases hcap : ((encRaw payload clientID (encPaddingLen payload.length randByte) padRand).length : Int)
        > DNSNameCapacity domain
    · rw [if_pos hcap] at henc
      exact absurd henc (by simp)
    · rw [if_neg hcap] at henc
      have hnm := Except.ok.inj henc
      subst hnm
      set raw := encRaw payload clientID (encPaddingLen payload.length randByte) padRand
        with hraweq
      have hcapval : DNSNameCapacity domain =
          ((((254 - sumParts domain) * 63 / 64) * 5 / 8 : Nat) : Int) := by
        unfold DNSNameCapacity
        rw [capacity_foldl]
        rw [show (255 - 1 : Int) - (sumParts domain : Int) =
          ((254 - sumParts domain : Nat) : Int) by push_cast; omega]
        rw [show ((254 - sumParts domain : Nat) : Int) * 63 =
          (((254 - sumParts domain) * 63 : Nat) : Int) by push_cast; ring]
        rw [show Int.tdiv (((254 - sumParts domain) * 63 : Nat) : Int) (64 : Int) =
          (((254 - sumParts domain) * 63 / 64 : Nat) : Int) from rfl]
        rw [show ((((254 - sumParts domain) * 63 / 64 : Nat)) : Int) * 5 =
          ((((254 - sumParts domain) * 63 / 64) * 5 : Nat) : Int) by push_cast; ring]
        rw [show Int.tdiv ((((254 - sumParts domain) * 63 / 64) * 5 : Nat) : Int) (8 : Int) =
          ((((254 - sumParts domain) * 63 / 64) * 5 / 8 : Nat) : Int) from rfl]
      have hcapN : raw.length ≤ ((254 - sumParts domain) * 63 / 64) * 5 / 8 := by
        rw [hcapval] at hcap
        exact_mod_cast not_lt.mp hcap
      have he5 : 5 * (b32encBytes raw).length ≤ 8 * raw.length + 4 := b32encBytes_length raw
      set enc := (b32encBytes raw).map (fun d => lowerByte (b32char d)) with henceq
      have hencl : enc.length = (b32encBytes raw).length := by
        rw [henceq, List.length_map]
      have hflat : (splitLabels enc MaxLabelLength).flatten = enc := splitLabels_join enc
      have hcount : 63 * (splitLabels enc MaxLabelLength).length < enc.length + 63 :=
        splitLabels_count enc
      constructor
      · intro l hl
        rcases List.mem_append.1 hl with hl | hl
        · exact (splitLabels_labels enc l hl).2
        · have := hdlab l hl
          simp only [validLabelB, Bool.and_eq_true, decide_eq_true_eq] at this
          exact this.1.2
      · rw [nameWire_append, sumParts_eq, hflat]
        have hnw : nameWire domain = sumParts domain + 1 := by simp [nameWire, sumParts]
        omega

/-- C8 witness: a concrete encoding for which the bounds evaluate as the
theorem states. -/
theorem C8_witness :
    (∀ l ∈ (EncodePayload [9] [2, 2, 2, 2, 2, 2, 2, 2] [[116], [99, 111]] 1
        (fun _ => 7)).toOption.getD [], l.length ≤ MaxLabelLength) ∧
      nameWire ((EncodePayload [9] [2, 2, 2, 2, 2, 2, 2, 2] [[116], [99, 111]] 1
        (fun _ => 7)).toOption.getD []) ≤ 255 :=
  C8_encoded_name_bounds [9] [2, 2, 2, 2, 2, 2, 2, 2] [[116], [99, 111]] 1
    (fun _ => 7) _ (by decide) (by rfl)

theorem toBE_length (w v : Nat) : (toBE w v).length = w := by
  induction w generalizing v with
  | zero => rfl
  | succ k ih => simp [toBE, ih]

theorem fromBE_append_single (l : List Nat) (x : Nat) :
    fromBE (l ++ [x]) = fromBE l * 256 + x % 256 := by
  simp [fromBE, List.foldl_append]

theorem fromBE_toBE (w v : Nat) (h : v < 256 ^ w) : fromBE (toBE w v) = v := by
  induction w generalizing v with
  | zero =>
    simp [Nat.pow_zero] at h
    simp [toBE, fromBE, h]
  | succ k ih =>
    rw [toBE, fromBE_append_single]
    rw [ih (v / 256) (by rw [Nat.pow_succ] at h; omega)]
    omega

theorem take_append_exact (a b : List Nat) (n : Nat) (h : a.length = n) :
    (a ++ b).take n = a := by
  subst h
  exact List.take_left a b

theorem drop_append_exact (a b : List Nat) (n : Nat) (h : a.length = n) :
    (a ++ b).drop n = b := by
  subst h
  exact List.drop_left a b

theorem decrypt_encrypt (aead : AEADScheme) (ck sk : Cipher)
    (hkey : sk.decryptKey = ck.encryptKey) (t0 t1 : Int) (rnd p : List Nat)
    (hrnd : rnd.length = 4) (h0 : 0 ≤ t0) (h32 : t0 < 4294967296) :
    Decrypt aead sk t1 (Encrypt aead ck t0 rnd p).1 =
      (if t1 - t0 > 300 then Except.error CryptoErr.messageTooOld
       else if t0 - t1 > 60 then Except.error CryptoErr.messageTooNew
       else Except.ok p) := by
  have hmod : t0 % 4294967296 = t0 := by omega
  have hts : ((t0 % 4294967296).toNat) = t0.toNat := by rw [hmod]
  have htslt : t0.toNat < 256 ^ 4 := by omega
  unfold Encrypt Decrypt
  dsimp only
  have hn : (toBE NonceCounterSize (ck.counter + 1) ++ rnd).length = NonceSize := by
    simp [toBE_length, hrnd]
  have hs : (aead.Seal ck.encryptKey (toBE NonceCounterSize (ck.counter + 1) ++ rnd)
      (toBE TimestampSize ((t0 % 4294967296).toNat) ++ p)).length =
      (toBE TimestampSize ((t0 % 4294967296).toNat) ++ p).length + 16 :=
    aead.seal_length _ _ _
  rw [if_neg (by
    rw [List.length_append, hn, hs]
    simp only [List.length_append, toBE_length]
    simp only [NonceSize, TimestampSize, AEADOverhead]
    omega)]
  rw [take_append_exact _ _ _ hn, drop_append_exact _ _ _ hn]
  rw [hkey, aead.open_seal]
  dsimp only
  rw [if_neg (by
    simp only [List.length_append, toBE_length]
    simp only [TimestampSize]
    omega)]
  rw [take_append_exact _ _ _ (toBE_length _ _), drop_append_exact _ _ _ (toBE_length _ _)]
  rw [hts, fromBE_toBE 4 t0.toNat htslt]
  rw [Int.toNat_of_nonneg h0]

/-- C3: with two ciphers built from the same secret with opposite `isClient`
roles, the client's encrypt key and the server's decrypt key are both the
HKDF client-to-server key (and symmetrically for the other direction, so a
single cipher encrypts and decrypts under the two different
direction-scoped keys); opening a sealed timestamped envelope on the server
cipher returns the plaintext when the elapsed time is under 5 minutes, and
yields the freshness error `ErrMessageTooOld` when the clock has advanced
by more than 5 minutes. -/
theorem C3_timestamped_envelope
    (aead : AEADScheme) (kdf : List Nat → String → List Nat)
    (secret p rnd : List Nat) (t0 t1 : Int) (cc sc : Cipher)
    (hcc : NewCipher kdf secret true = Except.ok cc)
    (hsc : NewCipher kdf secret false = Except.ok sc)
    (hrnd : rnd.length = 4) (h0 : 0 ≤ t0) (h32 : t0 < 4294967296) (hle : t0 ≤ t1) :
    (cc.encryptKey = kdf secret ContextClientToServer ∧
     sc.decryptKey = kdf secret ContextClientToServer ∧
     cc.decryptKey = kdf secret ContextServerToClient ∧
     sc.encryptKey = kdf secret ContextServerToClient) ∧
    (t1 - t0 < 300 → Decrypt aead sc t1 (Encrypt aead cc t0 rnd p).1 = Except.ok p) ∧
    (t1 - t0 > 300 →
      Decrypt aead sc t1 (Encrypt aead cc t0 rnd p).1 =
        Except.error CryptoErr.messageTooOld) := by
  unfold NewCipher at hcc hsc
  by_cases hsl : secret.length < 16
  · rw [if_pos hsl] at hcc
    exact absurd hcc (by simp)
  · rw [if_neg hsl, if_pos rfl] at hcc
    rw [if_neg hsl, if_neg (by simp)] at hsc
    have hcc2 := Except.ok.inj hcc
    have hsc2 := Except.ok.inj hsc
    subst hcc2
    subst hsc2
    have hde := decrypt_encrypt aead
      ⟨kdf secret ContextClientToServer, kdf secret ContextServerToClient, 0⟩
      ⟨kdf secret ContextServerToClient, kdf secret ContextClientToServer, 0⟩
      rfl t0 t1 rnd p hrnd h0 h32
    refine ⟨⟨rfl, rfl, rfl, rfl⟩, ?_, ?_⟩
    · intro hw
      rw [hde, if_neg (by omega), if_neg (by omega)]
    · intro hw
      rw [hde, if_pos hw]

/-- C3 witness: concrete secret, plaintext and clock values for which the
envelope round-trips inside the window. -/
theorem C3_witness :
    Decrypt toyAEAD ((NewCipher toyKDF (List.replicate 16 0) false).toOption.getD ⟨[], [], 0⟩)
      100
      (Encrypt toyAEAD
        ((NewCipher toyKDF (List.replicate 16 0) true).toOption.getD ⟨[], [], 0⟩)
        0 [0, 0, 0, 0] [7, 8]).1 = Except.ok [7, 8] :=
  (C3_timestamped_envelope toyAEAD toyKDF (List.replicate 16 0) [7, 8] [0, 0, 0, 0] 0 100
    _ _ (by rfl) (by rfl) (by decide) (by decide) (by decide) (by decide)).2.1 (by decide)

/-- C4: for every ciphertext that authenticates correctly (the AEAD open of
its nonce/ciphertext split succeeds) and carries timestamp `T`,
`Cipher.Decrypt` accepts it iff `now − T ≤ 5 min` and `T − now ≤ 1 min`;
outside that asymmetric window it returns `ErrMessageTooOld` or
`ErrMessageTooNew` respectively, and no plaintext is returned. -/
theorem C4_decrypt_freshness_window
    (aead : AEADScheme) (c : Cipher) (data pl : List Nat) (now T : Int)
    (hlen : NonceSize + TimestampSize + AEADOverhead ≤ data.length)
    (hopen : aead.Open c.decryptKey (data.take NonceSize) (data.drop NonceSize) = some pl)
    (hpl : TimestampSize ≤ pl.length)
    (hT : T = (fromBE (pl.take TimestampSize) : Int)) :
    (Decrypt aead c now data = Except.ok (pl.drop TimestampSize) ↔
      now - T ≤ 300 ∧ T - now ≤ 60) ∧
    (now - T > 300 → Decrypt aead c now data = Except.error CryptoErr.messageTooOld) ∧
    (T - now > 60 → Decrypt aead c now data = Except.error CryptoErr.messageTooNew) := by
  have hrw : ReplayWindowSec = (300 : Int) := rfl
  unfold Decrypt
  rw [if_neg (by omega)]
  rw [hopen]
  dsimp only
  rw [if_neg (by omega)]
  subst hT
  refine ⟨⟨?_, ?_⟩, ?_, ?_⟩
  · intro h
    by_cases h1 : now - (fromBE (pl.take TimestampSize) : Int) > 300
    · rw [if_pos h1] at h
      exact absurd h (by simp)
    · rw [if_neg h1] at h
      by_cases h2 : (fromBE (pl.take TimestampSize) : Int) - now > 60
      · rw [if_pos h2] at h
        exact absurd h (by simp)
      · exact ⟨by omega, by omega⟩
  · intro h
    rw [if_neg (by omega), if_neg (by omega)]
  · intro h
    rw [if_pos (by omega)]
  · intro h
    rw [if_neg (by omega), if_pos (by omega)]

/-- C4 witness: a concrete authenticated ciphertext with timestamp 0,
checked at `now = 10`, is accepted. -/
theorem C4_witness :
    Decrypt toyAEAD ⟨[], [], 0⟩ 10
      (List.replicate 12 0 ++ List.replicate 16 0 ++ [0, 0, 0, 0, 5]) =
      Except.ok [5] ∧ (10 : Int) - 0 ≤ 300 ∧ (0 : Int) - 10 ≤ 60 := by
  have h := C4_decrypt_freshness_window toyAEAD ⟨[], [], 0⟩
    (List.replicate 12 0 ++ List.replicate 16 0 ++ [0, 0, 0, 0, 5]) [0, 0, 0, 0, 5] 10 0
    (by decide) (by decide) (by decide) (by decide)
  exact ⟨h.1.mpr ⟨by decide, by decide⟩, by decide, by decide⟩

theorem sortedGE_weaken (s2 s : Int) (ts : List Int) (h : s2 ≤ s)
    (hs : sortedGE s ts) : sortedGE s2 ts := by
  cases ts with
  | nil => trivial
  | cons t ts =>
    obtain ⟨h1, h2⟩ := hs
    exact ⟨by omega, h2⟩

theorem tagCount_zero (s : Int) (tr : List (Int × Bool × Int))
    (h : ∀ e ∈ tr, e.2.1 = true → e.2.2 ≠ s) : tagCount s tr = 0 := by
  unfold tagCount
  rw [List.filter_eq_nil.2]
  · rfl
  · intro e he
    simp only [Bool.and_eq_true, beq_iff_eq, not_and]
    intro ha
    exact fun hc => h e he ha hc

theorem rlRun_window_bound (L : Nat) (W : Int) (hW : 1 ≤ W) (hL : 1 ≤ L) :
    ∀ (ts : List Int) (c : Nat) (s : Int), 1 ≤ c → c ≤ L → sortedGE s ts →
      tagCount s (rlRun L W (some ⟨c, s⟩) ts) ≤ L - c ∧
      (∀ s2, s2 ≠ s → tagCount s2 (rlRun L W (some ⟨c, s⟩) ts) ≤ L) ∧
      (∀ e ∈ rlRun L W (some ⟨c, s⟩) ts, e.2.1 = true →
        (e.2.2 = s ∨ s + W ≤ e.2.2) ∧ e.2.2 ≤ e.1 ∧ e.1 < e.2.2 + W) := by
  intro ts
  induction ts with
  | nil =>
    intro c s hc1 hcL hsort
    refine ⟨by simp [rlRun, tagCount], fun s2 _ => by simp [rlRun, tagCount], by simp [rlRun]⟩
  | cons t ts ih =>
    intro c s hc1 hcL hsort
    obtain ⟨hst, hsort2⟩ := hsort
    rw [rlRun]
    unfold Allow
    dsimp only
    by_cases hreset : W ≤ t - s
    · rw [if_pos hreset]
      dsimp only
      obtain ⟨ih1, ih2, ih3⟩ := ih 1 t (le_refl 1) hL hsort2
      have hrest0 : tagCount s (rlRun L W (some ⟨1, t⟩) ts) = 0 := by
        apply tagCount_zero
        intro e he ha
        rcases (ih3 e he ha).1 with h | h <;> omega
      refine ⟨?_, ?_, ?_⟩
      · rw [show tagCount s ((t, true, t) ::
            rlRun L W (some ⟨1, t⟩) ts) =
            tagCount s (rlRun L W (some ⟨1, t⟩) ts) by
          unfold tagCount
          rw [List.filter_cons_of_neg]
          simp only [Bool.and_eq_true, beq_iff_eq, not_and]
          intro _
          omega]
        omega
      · intro s2 hs2
        by_cases hs2t : s2 = t
        · subst hs2t
          unfold tagCount
          rw [List.filter_cons_of_pos (by simp)]
          rw [List.length_cons]
          have := ih1
          unfold tagCount at this
          omega
        · unfold tagCount
          rw [List.filter_cons_of_neg (by
            simp only [Bool.and_eq_true, beq_iff_eq, not_and]
            intro _
            exact fun hc => hs2t hc.symm)]
          exact ih2 s2 hs2t
      · intro e he ha
        rcases List.mem_cons.1 he with he | he
        · subst he
          dsimp only
          exact ⟨Or.inr (by omega), by omega, by omega⟩
        · obtain ⟨hd, ht1, ht2⟩ := ih3 e he ha
          refine ⟨?_, ht1, ht2⟩
          rcases hd with h | h
          · exact Or.inr (by omega)
          · exact Or.inr (by omega)
    · rw [if_neg hreset]
      by_cases hfull : L ≤ c
      · rw [if_pos hfull]
        dsimp only
        obtain ⟨ih1, ih2, ih3⟩ := ih c s hc1 hcL (sortedGE_weaken s t ts hst hsort2)
        refine ⟨?_, ?_, ?_⟩
        · unfold tagCount
          rw [List.filter_cons_of_neg (by simp)]
          exact ih1
        · intro s2 hs2
          unfold tagCount
          rw [List.filter_cons_of_neg (by simp)]
          exact ih2 s2 hs2
        · intro e he ha
          rcases List.mem_cons.1 he with he | he
          · subst he
            simp at ha
          · exact ih3 e he ha
      · rw [if_neg hfull]
        dsimp only
        obtain ⟨ih1, ih2, ih3⟩ := ih (c + 1) s (by omega) (by omega)
          (sortedGE_weaken s t ts hst hsort2)
        refine ⟨?_, ?_, ?_⟩
        · unfold tagCount
          rw [List.filter_cons_of_pos (by simp)]
          rw [List.length_cons]
          have := ih1
          unfold tagCount at this
          omega
        · intro s2 hs2
          unfold tagCount
          rw [List.filter_cons_of_neg (by
            simp only [Bool.and_eq_true, beq_iff_eq, not_and]
            intro _
            exact fun hc => hs2 hc.symm)]
          exact ih2 s2 hs2
        · intro e he ha
          rcases List.mem_cons.1 he with he | he
          · subst he
            dsimp only
            exact ⟨Or.inl rfl, by omega, by omega⟩
          · exact ih3 e he ha

/-- C6 counterexample: with limit `L = 2` and a 1-second window (1000 time
units), the call sequence at times 0, 999, 1000, 1001 is admitted in full,
so the sliding 1-second window `[999, 1999)` contains 3 > 2 admitted
calls: the fixed-window limiter does not bound admissions in *every*
1-second window. -/
theorem C6_counterexample :
    admittedIn (rlRun 2 1000 none [0, 999, 1000, 1001]) 999 (999 + 1000) = 3 ∧
      ¬(admittedIn (rlRun 2 1000 none [0, 999, 1000, 1001]) 999 (999 + 1000) ≤ 2) := by
  constructor
  · decide
  · decide

/-- C6 (amended): for a single key with limit `L ≥ 1` and window `W ≥ 1`,
over any non-decreasing sequence of call times: (i) at most `L` calls are
admitted into each limiter window (identified by its window-start value),
and every admitted call's time lies inside `[start, start + W)`;
(ii) a call arriving while the current window holds `L` admissions and is
not yet over is denied; (iii) a call arriving once the window is over is
admitted (admission resumes). The original sliding-window reading is
refuted by `C6_counterexample`. -/
theorem C6_rate_limiter_fixed_window (L : Nat) (W : Int) (times : List Int)
    (hW : 1 ≤ W) (hL : 1 ≤ L) (hsort : sortedTimes times) :
    (∀ s, tagCount s (rlRun L W none times) ≤ L) ∧
    (∀ e ∈ rlRun L W none times, e.2.1 = true → e.2.2 ≤ e.1 ∧ e.1 < e.2.2 + W) ∧
    (∀ s now : Int, now - s < W → (Allow L W (some ⟨L, s⟩) now).1 = false) ∧
    (∀ (c : RLCounter) (now : Int), W ≤ now - c.windowStart →
      (Allow L W (some c) now).1 = true) := by
  have hstep1 : ∀ s now : Int, now - s < W → (Allow L W (some ⟨L, s⟩) now).1 = false := by
    intro s now h
    unfold Allow
    dsimp only
    rw [if_neg (by omega), if_pos (le_refl _)]
  have hstep2 : ∀ (c : RLCounter) (now : Int), W ≤ now - c.windowStart →
      (Allow L W (some c) now).1 = true := by
    intro c now h
    unfold Allow
    dsimp only
    rw [if_pos h]
  cases times with
  | nil => exact ⟨fun s => by simp [rlRun, tagCount], by simp [rlRun], hstep1, hstep2⟩
  | cons t ts =>
    obtain ⟨ih1, ih2, ih3⟩ := rlRun_window_bound L W hW hL ts 1 t (le_refl 1) hL hsort
    refine ⟨?_, ?_, hstep1, hstep2⟩
    · intro s
      rw [rlRun]
      unfold Allow
      dsimp only
      by_cases hst : s = t
      · subst hst
        unfold tagCount
        rw [List.filter_cons_of_pos (by simp)]
        rw [List.length_cons]
        have := ih1
        unfold tagCount at this
        omega
      · unfold tagCount
        rw [List.filter_cons_of_neg (by
          simp only [Bool.and_eq_true, beq_iff_eq, not_and]
          intro _
          exact fun hc => hst hc.symm)]
        exact ih2 s hst
    · intro e he ha
      rw [rlRun] at he
      unfold Allow at he
      dsimp only at he
      rcases List.mem_cons.1 he with he | he
      · subst he
        dsimp only
        exact ⟨by omega, by omega⟩
      · exact (ih3 e he ha).2

/-- C6 witness: the amended statement evaluated at limit 1, window 1 and
the single call time 0. -/
theorem C6_witness :
    (∀ s, tagCount s (rlRun 1 1 none [0]) ≤ 1) ∧
    (∀ e ∈ rlRun 1 1 none [0], e.2.1 = true → e.2.2 ≤ e.1 ∧ e.1 < e.2.2 + 1) ∧
    (∀ s now : Int, now - s < 1 → (Allow 1 1 (some ⟨1, s⟩) now).1 = false) ∧
    (∀ (c : RLCounter) (now : Int), 1 ≤ now - c.windowStart →
      (Allow 1 1 (some c) now).1 = true) :=
  C6_rate_limiter_fixed_window 1 1 [0] (by decide) (by decide)
    (by simp [sortedTimes, sortedGE])

theorem find?_filter_of_find? (st : RDState) (q p : List Nat × Int → Bool)
    (e : List Nat × Int) (hfind : st.find? q = some e) (hp : p e = true) :
    (st.filter p).find? q = some e := by
  induction st with
  | nil => simp [List.find?] at hfind
  | cons x t ih =>
    by_cases hq : q x = true
    · rw [List.find?_cons_of_pos _ hq] at hfind
      have hx := Option.some.inj hfind
      subst hx
      rw [List.filter_cons_of_pos hp]
      rw [List.find?_cons_of_pos _ hq]
    · rw [List.find?_cons_of_neg _ hq] at hfind
      by_cases hpx : p x = true
      · rw [List.filter_cons_of_pos hpx]
        rw [List.find?_cons_of_neg _ hq]
        exact ih hfind
      · rw [List.filter_cons_of_neg (by simpa using hpx)]
        exact ih hfind

theorem rdRun_preserves (W : Int) (n : List Nat) (t0 : Int) :
    ∀ (evs : List RDEvent) (st : RDState), rdLookup st n = some t0 →
      (∀ tc, RDEvent.sweep tc ∈ evs → tc ≤ t0 + W) →
      rdLookup (rdRun W st evs) n = some t0 := by
  intro evs
  induction evs with
  | nil =>
    intro st h _
    exact h
  | cons ev evs ih =>
    intro st h hsw
    rw [rdRun, List.foldl_cons]
    cases ev with
    | chk m t =>
      apply ih
      · show rdLookup (Check st m t).2 n = some t0
        unfold Check
        cases hm : rdLookup st m with
        | some v => exact h
        | none =>
          have hmn : (m == n) = false := by
            by_cases hc : m = n
            · subst hc
              rw [h] at hm
              exact absurd hm (by simp)
            · simp [hc]
          unfold rdLookup at h ⊢
          rw [List.find?_cons_of_neg _ (by simp [hmn])]
          exact h
      · intro tc htc
        exact hsw tc (List.mem_cons_of_mem _ htc)
    | sweep tc =>
      apply ih
      · show rdLookup (cleanupSweep W st tc) n = some t0
        unfold rdLookup at h ⊢
        unfold cleanupSweep
        rcases Option.map_eq_some'.1 h with ⟨e, hfind, he2⟩
        have htc : tc ≤ t0 + W := hsw tc (by simp)
        have hkeep : (fun e : List Nat × Int => !decide (e.2 < tc - W)) e = true := by
          simp only [Bool.not_eq_true', decide_eq_false_iff_not, not_lt]
          omega
        rw [find?_filter_of_find? st _ (fun e => !decide (e.2 < tc - W)) e hfind hkeep]
        simp [he2]
      · intro tc2 htc2
        exact hsw tc2 (List.mem_cons_of_mem _ htc2)

/-- C7 counterexample: window 300 s, first `Check` of a nonce at `t = 0`
returns false; the cleanup ticker sweeps at 150 and 300; a `Check` of the
same nonce at `t = 301` — after the window has expired — still returns
true, because at the `t = 300` sweep the entry was not yet older than the
window, and `Check` itself never expires entries. The claim predicts
false. -/
theorem C7_counterexample :
    (Check [] [0, 0, 0, 0, 0, 0, 0, 0, 0, 0, 0, 0] 0).1 = false ∧
    (Check (rdRun 300 (Check [] [0, 0, 0, 0, 0, 0, 0, 0, 0, 0, 0, 0] 0).2
        [RDEvent.sweep 150, RDEvent.sweep 300])
      [0, 0, 0, 0, 0, 0, 0, 0, 0, 0, 0, 0] 301).1 = true ∧
    (301 : Int) > 0 + 300 := by
  refine ⟨by decide, by decide, by decide⟩

/-- C7 (amended): the first `Check` of a fresh nonce returns false and
records it; any later `Check` of that nonce returns true as long as every
intervening cleanup sweep ran at a time ≤ first-seen + window — in
particular for any check within the window, since sweeps at monotone times
cannot exceed it before the window is over; and after a cleanup sweep that
ran more than `window` past the first sighting, `Check` returns false
again. `Check` alone never expires an entry (refuting the unconditional
"false again after the window" reading, see `C7_counterexample`). -/
theorem C7_replay_detector (W : Int) :
    (∀ (st : RDState) (n : List Nat) (t : Int), rdLookup st n = none →
      Check st n t = (false, (n, t) :: st)) ∧
    (∀ (st : RDState) (n : List Nat) (t0 : Int) (evs : List RDEvent) (t1 : Int),
      rdLookup st n = some t0 →
      (∀ tc, RDEvent.sweep tc ∈ evs → tc ≤ t0 + W) →
      (Check (rdRun W st evs) n t1).1 = true) ∧
    (∀ (st : RDState) (n : List Nat) (t0 tc t1 : Int),
      rdLookup st n = some t0 → (∀ e ∈ st, e.1 = n → e.2 = t0) →
      t0 < tc - W →
      (Check (cleanupSweep W st tc) n t1).1 = false) := by
  refine ⟨?_, ?_, ?_⟩
  · intro st n t h
    unfold Check
    rw [h]
  · intro st n t0 evs t1 h hsw
    unfold Check
    rw [rdRun_preserves W n t0 evs st h hsw]
  · intro st n t0 tc t1 h hall hold
    unfold Check
    have hnone : rdLookup (cleanupSweep W st tc) n = none := by
      unfold rdLookup
      rw [List.find?_eq_none.2]
      · rfl
      · intro e he
        rcases List.mem_filter.1 he with ⟨hest, hkeep⟩
        simp only [Bool.not_eq_true', decide_eq_false_iff_not, not_lt] at hkeep
        simp only [beq_iff_eq]
        intro hc
        have := hall e hest hc
        omega
    rw [hnone]

/-- C7 witness: the amended statement's three parts evaluated at window
300 on concrete states and times. -/
theorem C7_witness :
    Check [] [9] 5 = (false, [([9], 5)]) ∧
    (Check (rdRun 300 [([9], 5)] [RDEvent.sweep 100]) [9] 50).1 = true ∧
    (Check (cleanupSweep 300 [([9], 5)] 400) [9] 401).1 = false := by
  obtain ⟨h1, h2, h3⟩ := C7_replay_detector 300
  refine ⟨h1 [] [9] 5 (by decide), ?_, ?_⟩
  · apply h2 [([9], 5)] [9] 5 [RDEvent.sweep 100] 50 (by decide)
    intro tc htc
    simp only [List.mem_singleton, RDEvent.sweep.injEq] at htc
    omega
  · apply h3 [([9], 5)] [9] 5 400 401 (by decide)
    · intro e he h
      simp only [List.mem_singleton] at he
      subst he
      rfl
    · decide

/-! ### C5: rcode mapping for codec failures -/

/-- C5 counterexample: a query whose name is `a.t` under the authoritative
suffix `t` (prefix label `a` is a 1-character base32 string, which the
base32 decoder rejects) passes validation but fails the payload codec; the
handler answers SERVFAIL (rcode 2), not the claimed FORMERR (rcode 1),
because `handleQuery` maps every `processTunnelQuery` error to
`RcodeServerFail`. -/
theorem C5_counterexample :
    handleQuery
        ⟨[[116]], 1232, 60, toyAEAD, ⟨[], [], 0⟩, fun _ => none, []⟩ 0
        ((Marshal ⟨1, 0, [⟨[[97], [116]], 16, 1⟩], [], [],
            [⟨[], 41, 4096, 0, []⟩]⟩).toOption.getD []) =
      HandlerAction.respondErr RcodeServerFail ∧
    handleQuery
        ⟨[[116]], 1232, 60, toyAEAD, ⟨[], [], 0⟩, fun _ => none, []⟩ 0
        ((Marshal ⟨1, 0, [⟨[[97], [116]], 16, 1⟩], [], [],
            [⟨[], 41, 4096, 0, []⟩]⟩).toOption.getD []) ≠
      HandlerAction.respondErr RcodeFormatError := by
  constructor
  · rfl
  · decide

/-- C5 (amended): for a parsed non-response query, a suffix mismatch
(`ErrNotAuthoritative`) yields NXDOMAIN, and the remaining validation
failures yield FORMERR; but prefix labels that fail the payload codec after
validation passes yield SERVFAIL, because the handler maps every
`processTunnelQuery` error (including `ExtractQueryPayload` codec errors)
to `RcodeServerFail`. -/
theorem C5_codec_failure_rcode (env : ServerEnv) (now : Int) (data : List Nat)
    (query : Message) (hparse : ParseMessage data = Except.ok query)
    (hresp : IsResponse query = false) :
    (ValidateQuery query env.domain (env.maxUDPSize % 65536) =
        Except.error VErr.notAuthoritative →
      handleQuery env now data = HandlerAction.respondErr RcodeNameError) ∧
    (∀ e : VErr, e ≠ VErr.notAuthoritative →
      ValidateQuery query env.domain (env.maxUDPSize % 65536) = Except.error e →
      handleQuery env now data = HandlerAction.respondErr RcodeFormatError) ∧
    (∀ pe : PayErr,
      ValidateQuery query env.domain (env.maxUDPSize % 65536) = Except.ok () →
      ExtractQueryPayload query env.domain = Except.error pe →
      handleQuery env now data = HandlerAction.respondErr RcodeServerFail) := by
  unfold handleQuery
  rw [hparse]
  dsimp only
  rw [hresp, if_neg (by decide)]
  refine ⟨?_, ?_, ?_⟩
  · intro hv
    rw [hv]
  · intro e hne hv
    rw [hv]
    cases e with
    | notAuthoritative => exact absurd rfl hne
    | invalidQuery => rfl
    | badOpcode => rfl
    | badQuestionCount => rfl
    | ednsTooSmall => rfl
  · intro pe hv hx
    rw [hv]
    dsimp only
    unfold processTunnelQuery
    rw [hx]

/-- C5 witness: a query for `b.t` (suffix mismatch against domain `t`)
draws NXDOMAIN from the handler. -/
theorem C5_witness :
    handleQuery ⟨[[116]], 1232, 60, toyAEAD, ⟨[], [], 0⟩, fun _ => none, []⟩ 0
        ((Marshal ⟨1, 0, [⟨[[98]], 16, 1⟩], [], [],
            [⟨[], 41, 4096, 0, []⟩]⟩).toOption.getD []) =
      HandlerAction.respondErr RcodeNameError :=
  (C5_codec_failure_rcode
      ⟨[[116]], 1232, 60, toyAEAD, ⟨[], [], 0⟩, fun _ => none, []⟩ 0
      ((Marshal ⟨1, 0, [⟨[[98]], 16, 1⟩], [], [],
          [⟨[], 41, 4096, 0, []⟩]⟩).toOption.getD [])
      ⟨1, 0, [⟨[[98]], 16, 1⟩], [], [], [⟨[], 41, 4096, 0, []⟩]⟩
      (by rfl) (by rfl)).1 (by rfl)

/-! ### C10: no replay protection in the query pipeline -/

/-- If a ciphertext decrypts successfully at time `t1` and carries
timestamp `T`, then at any other time `t2` inside the freshness window for
`T` it decrypts to the same plaintext: `Decrypt` keeps no nonce state. -/
theorem Decrypt_ok_shift (aead : AEADScheme) (c : Cipher) (data dq : List Nat)
    (t1 t2 T : Int) (h1 : Decrypt aead c t1 data = Except.ok dq)
    (hT : DecryptTimestamp aead c data = some T)
    (h2a : t2 - T <= ReplayWindowSec) (h2b : T - t2 <= 60) :
    Decrypt aead c t2 data = Except.ok dq := by
  unfold Decrypt at h1 ⊢
  unfold DecryptTimestamp at hT
  by_cases hl : data.length < NonceSize + TimestampSize + AEADOverhead
  · rw [if_pos hl] at h1
    exact absurd h1 (by simp)
  · rw [if_neg hl] at h1 hT ⊢
    cases hO : aead.Open c.decryptKey (data.take NonceSize) (data.drop NonceSize) with
    | none =>
      rw [hO] at h1
      exact absurd h1 (by simp)
    | some payload =>
      rw [hO] at h1 hT
      dsimp only at h1 hT ⊢
      by_cases hp : payload.length < TimestampSize
      · rw [if_pos hp] at h1
        exact absurd h1 (by simp)
      · rw [if_neg hp] at h1 hT ⊢
        have hTeq : ((fromBE (payload.take TimestampSize) : Nat) : Int) = T :=
          Option.some.inj hT
        rw [hTeq] at h1 ⊢
        rw [if_neg (by omega), if_neg (by omega)]
        by_cases ha : t1 - T > ReplayWindowSec
        · rw [if_pos ha] at h1
          exact absurd h1 (by simp)
        · rw [if_neg ha] at h1
          by_cases hb : T - t1 > 60
          · rw [if_pos hb] at h1
            exact absurd h1 (by simp)
          · rw [if_neg hb] at h1
            exact h1

/-- C10: the query pipeline keeps no replay state. If `processTunnelQuery`
accepts a query at time `t1` and the query's embedded timestamp is `T`,
then replaying the byte-identical query at any `t2` still inside the
freshness window (`t2 - T <= 300`, `T - t2 <= 60`) is accepted again with
the identical result: no replay cache is consulted anywhere in the path. -/
theorem C10_no_replay_protection (env : ServerEnv) (query : Message)
    (t1 t2 T : Int) (r1 : Message × Cipher)
    (h1 : processTunnelQuery env t1 query = Except.ok r1)
    (hT : queryTimestampOf env query = some T)
    (h2a : t2 - T <= ReplayWindowSec) (h2b : T - t2 <= 60) :
    processTunnelQuery env t2 query = Except.ok r1 := by
  unfold processTunnelQuery at h1 ⊢
  unfold queryTimestampOf at hT
  cases hE : ExtractQueryPayload query env.domain with
  | error e =>
    rw [hE] at h1
    exact absurd h1 (by simp)
  | ok p =>
    obtain ⟨cid, enc⟩ := p
    rw [hE] at h1 hT
    dsimp only at h1 hT ⊢
    cases hD : Decrypt env.aead env.cipher t1 enc with
    | error e =>
      rw [hD] at h1
      exact absurd h1 (by simp)
    | ok dq =>
      rw [hD] at h1
      dsimp only at h1
      rw [Decrypt_ok_shift env.aead env.cipher enc dq t1 t2 T hD hT h2a h2b]
      exact h1

/-- C10 witness: a full end-to-end query (inner DNS query marshalled,
encrypted under the toy AEAD at time 0, encoded into labels under domain
`t`) accepted at time 5 is accepted with the identical result when
replayed at time 100. -/
theorem C10_witness :
    processTunnelQuery
        ⟨[[116]], 1232, 60, toyAEAD, ⟨[], [], 0⟩,
          fun _ => some ⟨5, 32768, [], [], [], []⟩, [7, 7, 7, 7]⟩ 100
        ⟨7, 0,
          [⟨(EncodePayload
                (Encrypt toyAEAD ⟨[], [], 0⟩ 0 [0, 0, 0, 0]
                  ((Marshal ⟨5, 256, [⟨[[99]], 1, 1⟩], [], [], []⟩).toOption.getD [])).1
                [1, 1, 1, 1, 1, 1, 1, 1] [[116]] 0 (fun _ => 0)).toOption.getD [],
              16, 1⟩], [], [], []⟩ =
      Except.ok
        ((processTunnelQuery
            ⟨[[116]], 1232, 60, toyAEAD, ⟨[], [], 0⟩,
              fun _ => some ⟨5, 32768, [], [], [], []⟩, [7, 7, 7, 7]⟩ 5
            ⟨7, 0,
              [⟨(EncodePayload
                    (Encrypt toyAEAD ⟨[], [], 0⟩ 0 [0, 0, 0, 0]
                      ((Marshal ⟨5, 256, [⟨[[99]], 1, 1⟩], [], [], []⟩).toOption.getD [])).1
                    [1, 1, 1, 1, 1, 1, 1, 1] [[116]] 0 (fun _ => 0)).toOption.getD [],
                  16, 1⟩], [], [], []⟩).toOption.getD
          ⟨⟨0, 0, [], [], [], []⟩, ⟨[], [], 0⟩⟩) :=
  C10_no_replay_protection _ _ 5 100 0 _ (by rfl) (by rfl) (by decide) (by decide)

/-! ### C9: totality of the decoders -/

/-- `NewNameAux` only reports name-shape errors, never fuel exhaustion. -/
theorem NewNameAux_ne_fuel (ls : List (List Nat)) :
    ∀ tot, NewNameAux ls tot ≠ Except.error DnsErr.fuel := by
  induction ls with
  | nil =>
    intro tot
    unfold NewNameAux
    by_cases h : MaxNameLength < tot + 1
    · rw [if_pos h]
      exact fun hc => DnsErr.noConfusion (Except.error.inj hc)
    · rw [if_neg h]
      exact fun hc => Except.noConfusion hc
  | cons l rest ih =>
    intro tot
    unfold NewNameAux
    by_cases h0 : l.length = 0
    · rw [if_pos h0]
      exact fun hc => DnsErr.noConfusion (Except.error.inj hc)
    · rw [if_neg h0]
      by_cases h1 : MaxLabelLength < l.length
      · rw [if_pos h1]
        exact fun hc => DnsErr.noConfusion (Except.error.inj hc)
      · rw [if_neg h1]
        exact ih _

/-- Fuel sufficiency for the name reader: with the pointer budget intact
and fuel dominating the measure `(11 - nPtr)*(|buf|+2) - min pos (|buf|+1)`
(each label strictly advances the position, and each of the at most 11
pointer follows restarts it), `readNameAux` never exhausts its fuel. -/
theorem readNameAux_ne_fuel (buf : List Nat) :
    ∀ (fuel : Nat), ∀ (pos nPtr : Nat) (seekTo : Option Nat) (labels : List (List Nat)),
      nPtr ≤ 10 →
      (11 - nPtr) * (buf.length + 2) - min pos (buf.length + 1) ≤ fuel →
      readNameAux buf fuel pos nPtr seekTo labels ≠ Except.error DnsErr.fuel := by
  intro fuel
  induction fuel with
  | zero =>
    intro pos nPtr st labels hn hf
    exfalso
    have h1 : 1 * (buf.length + 2) ≤ (11 - nPtr) * (buf.length + 2) :=
      Nat.mul_le_mul_right _ (by omega)
    have h2 : min pos (buf.length + 1) ≤ buf.length + 1 := Nat.min_le_right _ _
    omega
  | succ fuel ih =>
    intro pos nPtr st labels hn hf
    rw [readNameAux]
    cases hb : byteAt buf pos with
    | none =>
      exact fun hc => DnsErr.noConfusion (Except.error.inj hc)
    | some labelType =>
      have hpos := byteAt_lt_length buf pos labelType hb
      dsimp only
      rcases h64 : labelType / 64 with _ | _ | _ | _ | q
      · by_cases hz : labelType % 64 = 0
        · rw [if_pos hz]
          unfold NewName
          cases hNN : NewNameAux labels 0 with
          | error e =>
            have hne := NewNameAux_ne_fuel labels 0
            rw [hNN] at hne
            dsimp only [Except.map]
            exact fun hc => hne (by rw [Except.error.inj hc])
          | ok u =>
            dsimp only [Except.map]
            exact fun hc => Except.noConfusion hc
        · rw [if_neg hz]
          by_cases hin : pos + 1 + labelType % 64 ≤ buf.length
          · rw [if_pos hin]
            apply ih _ _ _ _ hn
            have h2 : min pos (buf.length + 1) ≤ buf.length + 1 := Nat.min_le_right _ _
            omega
          · rw [if_neg hin]
            exact fun hc => DnsErr.noConfusion (Except.error.inj hc)
      · exact fun hc => DnsErr.noConfusion (Except.error.inj hc)
      · exact fun hc => DnsErr.noConfusion (Except.error.inj hc)
      · cases hb2 : byteAt buf (pos + 1) with
        | none =>
          exact fun hc => DnsErr.noConfusion (Except.error.inj hc)
        | some lower =>
          dsimp only
          by_cases hlim : compressionPointerLimit < nPtr + 1
          · rw [if_pos hlim]
            exact fun hc => DnsErr.noConfusion (Except.error.inj hc)
          · rw [if_neg hlim]
            have hlim10 : nPtr + 1 ≤ 10 := by
              have hc10 : compressionPointerLimit = 10 := rfl
              omega
            apply ih _ _ _ _ hlim10
            have hprod : (11 - nPtr) * (buf.length + 2)
                = (11 - (nPtr + 1)) * (buf.length + 2) + (buf.length + 2) := by
              have h : 11 - nPtr = (11 - (nPtr + 1)) + 1 := by omega
              rw [h, Nat.add_mul, Nat.one_mul]
            have h2 : min pos (buf.length + 1) ≤ buf.length + 1 := Nat.min_le_right _ _
            have h3 : min (2 % 64 * 256 + lower) (buf.length + 1) ≤ buf.length + 1 :=
              Nat.min_le_right _ _
            omega
      · exact fun hc => DnsErr.noConfusion (Except.error.inj hc)

/-- `readName` carries enough fuel: it never reports fuel exhaustion. -/
theorem readName_ne_fuel (buf : List Nat) (pos : Nat) :
    readName buf pos ≠ Except.error DnsErr.fuel := by
  unfold readName
  apply readNameAux_ne_fuel buf (readNameFuel buf) pos 0 none [] (by omega)
  unfold readNameFuel
  have h2 : min pos (buf.length + 1) ≤ buf.length + 1 := Nat.min_le_right _ _
  omega

/-- `readU16` only fails with EOF. -/
theorem readU16_ne_fuel (buf : List Nat) (pos : Nat) :
    readU16 buf pos ≠ Except.error DnsErr.fuel := by
  unfold readU16
  cases byteAt buf pos with
  | none => exact fun hc => DnsErr.noConfusion (Except.error.inj hc)
  | some b0 =>
    cases byteAt buf (pos + 1) with
    | none => exact fun hc => DnsErr.noConfusion (Except.error.inj hc)
    | some b1 => exact fun hc => Except.noConfusion hc

/-- `readU32` only fails with EOF. -/
theorem readU32_ne_fuel (buf : List Nat) (pos : Nat) :
    readU32 buf pos ≠ Except.error DnsErr.fuel := by
  unfold readU32
  cases byteAt buf pos with
  | none => exact fun hc => DnsErr.noConfusion (Except.error.inj hc)
  | some b0 =>
    cases byteAt buf (pos + 1) with
    | none => exact fun hc => DnsErr.noConfusion (Except.error.inj hc)
    | some b1 =>
      cases byteAt buf (pos + 2) with
      | none => exact fun hc => DnsErr.noConfusion (Except.error.inj hc)
      | some b2 =>
        cases byteAt buf (pos + 3) with
        | none => exact fun hc => DnsErr.noConfusion (Except.error.inj hc)
        | some b3 => exact fun hc => Except.noConfusion hc

/-- `readQuestion` never reports fuel exhaustion. -/
theorem readQuestion_ne_fuel (buf : List Nat) (pos : Nat) :
    readQuestion buf pos ≠ Except.error DnsErr.fuel := by
  unfold readQuestion
  cases hn : readName buf pos with
  | error e =>
    have hx := readName_ne_fuel buf pos
    rw [hn] at hx
    dsimp only
    exact fun hc => hx (by rw [Except.error.inj hc])
  | ok r =>
    obtain ⟨nm, pos1⟩ := r
    dsimp only
    cases h1 : readU16 buf pos1 with
    | error e =>
      have hx := readU16_ne_fuel buf pos1
      rw [h1] at hx
      dsimp only
      exact fun hc => hx (by rw [Except.error.inj hc])
    | ok r2 =>
      obtain ⟨t, pos2⟩ := r2
      dsimp only
      cases h2 : readU16 buf pos2 with
      | error e =>
        have hx := readU16_ne_fuel buf pos2
        rw [h2] at hx
        dsimp only
        exact fun hc => hx (by rw [Except.error.inj hc])
      | ok r3 =>
        obtain ⟨cl, pos3⟩ := r3
        exact fun hc => Except.noConfusion hc

/-- `readRR` never reports fuel exhaustion. -/
theorem readRR_ne_fuel (buf : List Nat) (pos : Nat) :
    readRR buf pos ≠ Except.error DnsErr.fuel := by
  unfold readRR
  cases hn : readName buf pos with
  | error e =>
    have hx := readName_ne_fuel buf pos
    rw [hn] at hx
    dsimp only
    exact fun hc => hx (by rw [Except.error.inj hc])
  | ok r =>
    obtain ⟨nm, pos1⟩ := r
    dsimp only
    cases h1 : readU16 buf pos1 with
    | error e =>
      have hx := readU16_ne_fuel buf pos1
      rw [h1] at hx
      dsimp only
      exact fun hc => hx (by rw [Except.error.inj hc])
    | ok r2 =>
      obtain ⟨t, pos2⟩ := r2
      dsimp only
      cases h2 : readU16 buf pos2 with
      | error e =>
        have hx := readU16_ne_fuel buf pos2
        rw [h2] at hx
        dsimp only
        exact fun hc => hx (by rw [Except.error.inj hc])
      | ok r3 =>
        obtain ⟨cl, pos3⟩ := r3
        dsimp only
        cases h3 : readU32 buf pos3 with
        | error e =>
          have hx := readU32_ne_fuel buf pos3
          rw [h3] at hx
          dsimp only
          exact fun hc => hx (by rw [Except.error.inj hc])
        | ok r4 =>
          obtain ⟨ttl, pos4⟩ := r4
          dsimp only
          cases h4 : readU16 buf pos4 with
          | error e =>
            have hx := readU16_ne_fuel buf pos4
            rw [h4] at hx
            dsimp only
            exact fun hc => hx (by rw [Except.error.inj hc])
          | ok r5 =>
            obtain ⟨rdLength, pos5⟩ := r5
            dsimp only
            by_cases hle : pos5 + rdLength ≤ buf.length
            · rw [if_pos hle]
              exact fun hc => Except.noConfusion hc
            · rw [if_neg hle]
              exact fun hc => DnsErr.noConfusion (Except.error.inj hc)

/-- The question loop never reports fuel exhaustion. -/
theorem readQuestions_ne_fuel (buf : List Nat) :
    ∀ (n pos : Nat), readQuestions buf n pos ≠ Except.error DnsErr.fuel := by
  intro n
  induction n with
  | zero =>
    intro pos
    exact fun hc => Except.noConfusion hc
  | succ n ih =>
    intro pos
    rw [readQuestions]
    cases hq : readQuestion buf pos with
    | error e =>
      have hx := readQuestion_ne_fuel buf pos
      rw [hq] at hx
      dsimp only
      exact fun hc => hx (by rw [Except.error.inj hc])
    | ok r =>
      obtain ⟨q, pos1⟩ := r
      dsimp only
      cases hqs : readQuestions buf n pos1 with
      | error e =>
        have hx := ih pos1
        rw [hqs] at hx
        dsimp only
        exact fun hc => hx (by rw [Except.error.inj hc])
      | ok r2 =>
        obtain ⟨qs, pos2⟩ := r2
        exact fun hc => Except.noConfusion hc

/-- The record loop never reports fuel exhaustion. -/
theorem readRRs_ne_fuel (buf : List Nat) :
    ∀ (n pos : Nat), readRRs buf n pos ≠ Except.error DnsErr.fuel := by
  intro n
  induction n with
  | zero =>
    intro pos
    exact fun hc => Except.noConfusion hc
  | succ n ih =>
    intro pos
    rw [readRRs]
    cases hq : readRR buf pos with
    | error e =>
      have hx := readRR_ne_fuel buf pos
      rw [hq] at hx
      dsimp only
      exact fun hc => hx (by rw [Except.error.inj hc])
    | ok r =>
      obtain ⟨rr, pos1⟩ := r
      dsimp only
      cases hqs : readRRs buf n pos1 with
      | error e =>
        have hx := ih pos1
        rw [hqs] at hx
        dsimp only
        exact fun hc => hx (by rw [Except.error.inj hc])
      | ok r2 =>
        obtain ⟨rrs, pos2⟩ := r2
        exact fun hc => Except.noConfusion hc

/-- `ParseMessage` never reports fuel exhaustion: every failure is one of
the typed wire-format errors. -/
theorem ParseMessage_ne_fuel (buf : List Nat) :
    ParseMessage buf ≠ Except.error DnsErr.fuel := by
  unfold ParseMessage
  cases hu0 : readU16 buf 0 with
  | error e =>
    have hx := readU16_ne_fuel buf 0
    rw [hu0] at hx
    dsimp only
    exact fun hc => hx (by rw [Except.error.inj hc])
  | ok r0 =>
    obtain ⟨id, p1⟩ := r0
    dsimp only
    cases hu1 : readU16 buf p1 with
    | error e =>
      have hx := readU16_ne_fuel buf p1
      rw [hu1] at hx
      dsimp only
      exact fun hc => hx (by rw [Except.error.inj hc])
    | ok r1 =>
      obtain ⟨flags, p2⟩ := r1
      dsimp only
      cases hu2 : readU16 buf p2 with
      | error e =>
        have hx := readU16_ne_fuel buf p2
        rw [hu2] at hx
        dsimp only
        exact fun hc => hx (by rw [Except.error.inj hc])
      | ok r2 =>
        obtain ⟨qdCount, p3⟩ := r2
        dsimp only
        cases hu3 : readU16 buf p3 with
        | error e =>
          have hx := readU16_ne_fuel buf p3
          rw [hu3] at hx
          dsimp only
          exact fun hc => hx (by rw [Except.error.inj hc])
        | ok r3 =>
          obtain ⟨anCount, p4⟩ := r3
          dsimp only
          cases hu4 : readU16 buf p4 with
          | error e =>
            have hx := readU16_ne_fuel buf p4
            rw [hu4] at hx
            dsimp only
            exact fun hc => hx (by rw [Except.error.inj hc])
          | ok r4 =>
            obtain ⟨nsCount, p5⟩ := r4
            dsimp only
            cases hu5 : readU16 buf p5 with
            | error e =>
              have hx := readU16_ne_fuel buf p5
              rw [hu5] at hx
              dsimp only
              exact fun hc => hx (by rw [Except.error.inj hc])
            | ok r5 =>
              obtain ⟨arCount, p6⟩ := r5
              dsimp only
              cases hq : readQuestions buf qdCount p6 with
              | error e =>
                have hx := readQuestions_ne_fuel buf qdCount p6
                rw [hq] at hx
                dsimp only
                exact fun hc => hx (by rw [Except.error.inj hc])
              | ok rq =>
                obtain ⟨qs, p7⟩ := rq
                dsimp only
                cases ha : readRRs buf anCount p7 with
                | error e =>
                  have hx := readRRs_ne_fuel buf anCount p7
                  rw [ha] at hx
                  dsimp only
                  exact fun hc => hx (by rw [Except.error.inj hc])
                | ok ra =>
                  obtain ⟨ans, p8⟩ := ra
                  dsimp only
                  cases hau : readRRs buf nsCount p8 with
                  | error e =>
                    have hx := readRRs_ne_fuel buf nsCount p8
                    rw [hau] at hx
                    dsimp only
                    exact fun hc => hx (by rw [Except.error.inj hc])
                  | ok rau =>
                    obtain ⟨auth, p9⟩ := rau
                    dsimp only
                    cases had : readRRs buf arCount p9 with
                    | error e =>
                      have hx := readRRs_ne_fuel buf arCount p9
                      rw [had] at hx
                      dsimp only
                      exact fun hc => hx (by rw [Except.error.inj hc])
                    | ok rad =>
                      obtain ⟨add, p10⟩ := rad
                      dsimp only
                      by_cases ht : p10 < buf.length
                      · rw [if_pos ht]
                        exact fun hc => DnsErr.noConfusion (Except.error.inj hc)
                      · rw [if_neg ht]
                        exact fun hc => Except.noConfusion hc

/-- The frame loop consumes at least one byte per step, so fuel exceeding
the buffer length never runs out. -/
theorem readFramesAux_ne_fuelOut :
    ∀ (fuel : Nat) (l acc : List Nat), l.length < fuel →
      readFramesAux fuel l acc ≠ Except.error PayErr.fuelOut := by
  intro fuel
  induction fuel with
  | zero =>
    intro l acc h
    exact absurd h (Nat.not_lt_zero _)
  | succ fuel ih =>
    intro l acc h
    cases l with
    | nil => exact fun hc => Except.noConfusion hc
    | cons p rest =>
      rw [readFramesAux]
      by_cases hp : PaddingPrefixBase ≤ p
      · rw [if_pos hp]
        by_cases hlen : p - PaddingPrefixBase ≤ rest.length
        · rw [if_pos hlen]
          apply ih
          rw [List.length_drop]
          simp only [List.length_cons] at h
          omega
        · rw [if_neg hlen]
          exact fun hc => PayErr.noConfusion (Except.error.inj hc)
      · rw [if_neg hp]
        by_cases hq : p ≤ rest.length
        · rw [if_pos hq]
          apply ih
          rw [List.length_drop]
          simp only [List.length_cons] at h
          omega
        · rw [if_neg hq]
          exact fun hc => PayErr.noConfusion (Except.error.inj hc)

/-- `DecodePayload` never reports fuel exhaustion. -/
theorem DecodePayload_ne_fuelOut (name domain : Name) :
    DecodePayload name domain ≠ Except.error PayErr.fuelOut := by
  unfold DecodePayload
  cases trimSuffix name domain with
  | none => exact fun hc => PayErr.noConfusion (Except.error.inj hc)
  | some pre =>
    dsimp only
    cases b32decode ((pre.flatten).map upperByte) with
    | none => exact fun hc => PayErr.noConfusion (Except.error.inj hc)
    | some decoded =>
      dsimp only
      by_cases hlen : decoded.length < ClientIDSize
      · rw [if_pos hlen]
        exact fun hc => PayErr.noConfusion (Except.error.inj hc)
      · rw [if_neg hlen]
        cases hf : readFramesAux (((decoded.drop ClientIDSize).length) + 1)
            (decoded.drop ClientIDSize) [] with
        | error e =>
          have hne := readFramesAux_ne_fuelOut (((decoded.drop ClientIDSize).length) + 1)
            (decoded.drop ClientIDSize) [] (by omega)
          rw [hf] at hne
          dsimp only [Except.map]
          exact fun hc => hne (by rw [Except.error.inj hc])
        | ok payload =>
          dsimp only [Except.map]
          exact fun hc => Except.noConfusion hc

/-- C9: the three decoders are total in the embedding. `ParseMessage` and
`DecodePayload` are fuelled only to satisfy the termination checker and
provably never exhaust their fuel (in particular compression-pointer
chasing is bounded by the 10-pointer cap, each label strictly advances the
reader, and each frame consumes at least one byte), so every input yields
either a success or one of the typed wire/payload errors; and a too-short
`Decrypt` input hits the explicit length-check branch. -/
theorem C9_decoder_totality :
    (∀ buf : List Nat, ParseMessage buf ≠ Except.error DnsErr.fuel) ∧
    (∀ name domain : Name, DecodePayload name domain ≠ Except.error PayErr.fuelOut) ∧
    (∀ (aead : AEADScheme) (c : Cipher) (now : Int) (data : List Nat),
      data.length < NonceSize + TimestampSize + AEADOverhead →
      Decrypt aead c now data = Except.error CryptoErr.decryptionFailed) := by
  refine ⟨ParseMessage_ne_fuel, DecodePayload_ne_fuelOut, ?_⟩
  intro aead c now data h
  unfold Decrypt
  rw [if_pos h]

/-- C9 witness: concrete instances of all three totality statements. -/
theorem C9_witness :
    Decrypt toyAEAD ⟨[], [], 0⟩ 0 [1, 2, 3] = Except.error CryptoErr.decryptionFailed ∧
    ParseMessage [] ≠ Except.error DnsErr.fuel ∧
    DecodePayload [] [] ≠ Except.error PayErr.fuelOut :=
  ⟨C9_decoder_totality.2.2 toyAEAD ⟨[], [], 0⟩ 0 [1, 2, 3] (by decide),
   C9_decoder_totality.1 [],
   C9_decoder_totality.2.1 [] []⟩

/-! ### C2: name-string injectivity (cache keys identify names) -/

/-- `hexDigit` is injective on nibbles. -/
theorem hexDigit_inj (d1 d2 : Nat) (h1 : d1 < 16) (h2 : d2 < 16)
    (h : hexDigit d1 = hexDigit d2) : d1 = d2 := by
  unfold hexDigit at h
  split at h <;> split at h <;> omega

/-- Escaping a byte never yields the empty string. -/
theorem escByte_ne_nil (b : Nat) : escByte b ≠ [] := by
  unfold escByte
  split <;> simp

/-- Bytes of a well-formed label are below 256. -/
theorem validLabelB_bytes (l : List Nat) (h : validLabelB l = true) :
    ∀ b ∈ l, b < 256 := by
  unfold validLabelB at h
  obtain ⟨-, hb⟩ := (Bool.and_eq_true _ _).mp h
  intro b hbl
  exact of_decide_eq_true (List.all_eq_true.mp hb b hbl)

/-- A well-formed label is nonempty. -/
theorem validLabelB_ne_nil (l : List Nat) (h : validLabelB l = true) : l ≠ [] := by
  unfold validLabelB at h
  obtain ⟨h1, -⟩ := (Bool.and_eq_true _ _).mp h
  obtain ⟨h2, -⟩ := (Bool.and_eq_true _ _).mp h1
  intro hc
  subst hc
  exact absurd (of_decide_eq_true h2) (by decide)

/-- The escaped byte streams of two byte lists, each followed by a
terminator that is empty or starts with a dot, coincide only when the
byte lists and terminators coincide: `escByte` is a prefix code avoiding
the dot. -/
theorem esc_stream (l1 : List Nat) : ∀ (l2 s1 s2 : List Nat),
    (∀ b ∈ l1, b < 256) → (∀ b ∈ l2, b < 256) →
    (s1 = [] ∨ ∃ t1, s1 = 46 :: t1) → (s2 = [] ∨ ∃ t2, s2 = 46 :: t2) →
    (l1.map escByte).flatten ++ s1 = (l2.map escByte).flatten ++ s2 →
    l1 = l2 ∧ s1 = s2 := by
  induction l1 with
  | nil =>
    intro l2 s1 s2 h1 h2 hs1 hs2 heq
    simp only [List.map_nil, List.flatten_nil, List.nil_append] at heq
    cases l2 with
    | nil =>
      simp only [List.map_nil, List.flatten_nil, List.nil_append] at heq
      exact ⟨rfl, heq⟩
    | cons b2 r2 =>
      exfalso
      simp only [List.map_cons, List.flatten_cons, List.append_assoc] at heq
      rcases hs1 with h | ⟨t1, h⟩
      · subst h
        have hlen := congrArg List.length heq
        simp only [List.length_nil, List.length_append] at hlen
        have hne := escByte_ne_nil b2
        have h0 : (escByte b2).length = 0 := by omega
        exact hne (List.length_eq_zero.mp h0)
      · subst h
        by_cases hp : b2 = 45 ∨ (48 ≤ b2 ∧ b2 ≤ 57) ∨ (65 ≤ b2 ∧ b2 ≤ 90) ∨
            (97 ≤ b2 ∧ b2 ≤ 122)
        · unfold escByte at heq
          rw [if_pos hp] at heq
          simp only [List.cons_append, List.nil_append, List.cons.injEq] at heq
          obtain ⟨hb, -⟩ := heq
          rcases hp with h | h | h | h <;> omega
        · unfold escByte at heq
          rw [if_neg hp] at heq
          simp only [List.cons_append, List.cons.injEq] at heq
          obtain ⟨hb, -⟩ := heq
          exact absurd hb (by decide)
  | cons b1 r1 ih =>
    intro l2 s1 s2 h1 h2 hs1 hs2 heq
    cases l2 with
    | nil =>
      exfalso
      simp only [List.map_nil, List.flatten_nil, List.nil_append, List.map_cons,
        List.flatten_cons, List.append_assoc] at heq
      rcases hs2 with h | ⟨t2, h⟩
      · subst h
        have hlen := congrArg List.length heq
        simp only [List.length_nil, List.length_append] at hlen
        have hne := escByte_ne_nil b1
        have h0 : (escByte b1).length = 0 := by omega
        exact hne (List.length_eq_zero.mp h0)
      · subst h
        by_cases hp : b1 = 45 ∨ (48 ≤ b1 ∧ b1 ≤ 57) ∨ (65 ≤ b1 ∧ b1 ≤ 90) ∨
            (97 ≤ b1 ∧ b1 ≤ 122)
        · unfold escByte at heq
          rw [if_pos hp] at heq
          simp only [List.cons_append, List.nil_append, List.cons.injEq] at heq
          obtain ⟨hb, -⟩ := heq
          rcases hp with h | h | h | h <;> omega
        · unfold escByte at heq
          rw [if_neg hp] at heq
          simp only [List.cons_append, List.cons.injEq] at heq
          obtain ⟨hb, -⟩ := heq
          exact absurd hb (by decide)
    | cons b2 r2 =>
      simp only [List.map_cons, List.flatten_cons, List.append_assoc] at heq
      have hr1 : ∀ b ∈ r1, b < 256 := fun b hb => h1 b (List.mem_cons_of_mem _ hb)
      have hr2 : ∀ b ∈ r2, b < 256 := fun b hb => h2 b (List.mem_cons_of_mem _ hb)
      by_cases hp1 : b1 = 45 ∨ (48 ≤ b1 ∧ b1 ≤ 57) ∨ (65 ≤ b1 ∧ b1 ≤ 90) ∨
          (97 ≤ b1 ∧ b1 ≤ 122)
      · by_cases hp2 : b2 = 45 ∨ (48 ≤ b2 ∧ b2 ≤ 57) ∨ (65 ≤ b2 ∧ b2 ≤ 90) ∨
            (97 ≤ b2 ∧ b2 ≤ 122)
        · unfold escByte at heq
          rw [if_pos hp1, if_pos hp2] at heq
          simp only [List.cons_append, List.nil_append, List.cons.injEq] at heq
          obtain ⟨hb, ht⟩ := heq
          subst hb
          obtain ⟨hl, hs⟩ := ih r2 s1 s2 hr1 hr2 hs1 hs2 ht
          exact ⟨by rw [hl], hs⟩
        · exfalso
          unfold escByte at heq
          rw [if_pos hp1, if_neg hp2] at heq
          simp only [List.cons_append, List.nil_append, List.cons.injEq] at heq
          obtain ⟨hb, -⟩ := heq
          subst hb
          rcases hp1 with h | h | h | h <;> omega
      · by_cases hp2 : b2 = 45 ∨ (48 ≤ b2 ∧ b2 ≤ 57) ∨ (65 ≤ b2 ∧ b2 ≤ 90) ∨
            (97 ≤ b2 ∧ b2 ≤ 122)
        · exfalso
          unfold escByte at heq
          rw [if_neg hp1, if_pos hp2] at heq
          simp only [List.cons_append, List.nil_append, List.cons.injEq] at heq
          obtain ⟨hb, -⟩ := heq
          rcases hp2 with h | h | h | h <;> omega
        · unfold escByte at heq
          rw [if_neg hp1, if_neg hp2] at heq
          simp only [List.cons_append, List.cons.injEq] at heq
          obtain ⟨-, -, hh1, hh2, ht⟩ := heq
          have hb1 := h1 b1 (List.mem_cons_self _ _)
          have hb2 := h2 b2 (List.mem_cons_self _ _)
          have e1 : b1 / 16 % 16 = b2 / 16 % 16 :=
            hexDigit_inj _ _ (by omega) (by omega) hh1
          have e2 : b1 % 16 = b2 % 16 := hexDigit_inj _ _ (by omega) (by omega) hh2
          have hb : b1 = b2 := by omega
          subst hb
          obtain ⟨hl, hs⟩ := ih r2 s1 s2 hr1 hr2 hs1 hs2 ht
          exact ⟨by rw [hl], hs⟩

/-- Unfolding of `List.intercalate [46]` on a leading chunk. -/
theorem interDot (c : List Nat) (cs : List (List Nat)) :
    List.intercalate [46] (c :: cs)
      = c ++ (if cs.isEmpty then ([] : List Nat) else 46 :: List.intercalate [46] cs) := by
  cases cs with
  | nil => simp [List.intercalate]
  | cons c2 cs2 => simp [List.intercalate, List.intersperse]

/-- `Name.String()` is injective on names made of well-formed labels: the
compression-cache key identifies the name. -/
theorem nameStr_inj (n1 : Name) : ∀ (n2 : Name),
    (∀ l ∈ n1, validLabelB l = true) → (∀ l ∈ n2, validLabelB l = true) →
    nameStr n1 = nameStr n2 → n1 = n2 := by
  induction n1 with
  | nil =>
    intro n2 h1 h2 heq
    cases n2 with
    | nil => rfl
    | cons l2 r2 =>
      exfalso
      unfold nameStr at heq
      simp only [List.isEmpty_nil, List.isEmpty_cons, if_true, if_false,
        Bool.false_eq_true, if_pos, List.map_cons] at heq
      rw [interDot] at heq
      have hl2 := h2 l2 (List.mem_cons_self _ _)
      cases l2 with
      | nil => exact absurd rfl (validLabelB_ne_nil [] hl2)
      | cons b lb =>
        have hb := validLabelB_bytes _ hl2 b (List.mem_cons_self _ _)
        simp only [List.map_cons, List.flatten_cons, List.append_assoc] at heq
        by_cases hp : b = 45 ∨ (48 ≤ b ∧ b ≤ 57) ∨ (65 ≤ b ∧ b ≤ 90) ∨
            (97 ≤ b ∧ b ≤ 122)
        · unfold escByte at heq
          rw [if_pos hp] at heq
          simp only [List.cons_append, List.nil_append, List.cons.injEq] at heq
          obtain ⟨hb46, -⟩ := heq
          rcases hp with h | h | h | h <;> omega
        · unfold escByte at heq
          rw [if_neg hp] at heq
          simp only [List.cons_append, List.cons.injEq] at heq
          obtain ⟨hb46, -⟩ := heq
          exact absurd hb46 (by decide)
  | cons l1 r1 ih =>
    intro n2 h1 h2 heq
    cases n2 with
    | nil =>
      exfalso
      unfold nameStr at heq
      simp only [List.isEmpty_nil, List.isEmpty_cons, if_true, if_false,
        Bool.false_eq_true, if_pos, List.map_cons] at heq
      rw [interDot] at heq
      have hl1 := h1 l1 (List.mem_cons_self _ _)
      cases l1 with
      | nil => exact absurd rfl (validLabelB_ne_nil [] hl1)
      | cons b lb =>
        have hb := validLabelB_bytes _ hl1 b (List.mem_cons_self _ _)
        simp only [List.map_cons, List.flatten_cons, List.append_assoc] at heq
        by_cases hp : b = 45 ∨ (48 ≤ b ∧ b ≤ 57) ∨ (65 ≤ b ∧ b ≤ 90) ∨
            (97 ≤ b ∧ b ≤ 122)
        · unfold escByte at heq
          rw [if_pos hp] at heq
          simp only [List.cons_append, List.nil_append, List.cons.injEq] at heq
          obtain ⟨hb46, -⟩ := heq
          rcases hp with h | h | h | h <;> omega
        · unfold escByte at heq
          rw [if_neg hp] at heq
          simp only [List.cons_append, List.cons.injEq] at heq
          obtain ⟨hb46, -⟩ := heq
          exact absurd hb46 (by decide)
    | cons l2 r2 =>
      have hL1 := validLabelB_bytes l1 (h1 l1 (List.mem_cons_self _ _))
      have hL2 := validLabelB_bytes l2 (h2 l2 (List.mem_cons_self _ _))
      have hr1 : ∀ l ∈ r1, validLabelB l = true :=
        fun l hl => h1 l (List.mem_cons_of_mem _ hl)
      have hr2 : ∀ l ∈ r2, validLabelB l = true :=
        fun l hl => h2 l (List.mem_cons_of_mem _ hl)
      unfold nameStr at heq
      simp only [List.isEmpty_cons, Bool.false_eq_true, if_false, List.map_cons] at heq
      rw [interDot, interDot] at heq
      cases r1 with
      | nil =>
        cases r2 with
        | nil =>
          simp only [List.map_nil, List.isEmpty_nil, if_true, List.append_nil] at heq
          obtain ⟨hl, -⟩ := esc_stream l1 l2 [] [] hL1 hL2 (Or.inl rfl) (Or.inl rfl)
            (by rw [List.append_nil, List.append_nil]; exact heq)
          rw [hl]
        | cons l2x r2x =>
          exfalso
          simp only [List.map_nil, List.map_cons, List.isEmpty_nil, List.isEmpty_cons,
            Bool.false_eq_true, if_true, if_false, List.append_nil] at heq
          obtain ⟨-, hs⟩ := esc_stream l1 l2 [] _ hL1 hL2 (Or.inl rfl) (Or.inr ⟨_, rfl⟩)
            (by rw [List.append_nil]; exact heq)
          exact List.noConfusion hs
      | cons l1x r1x =>
        cases r2 with
        | nil =>
          exfalso
          simp only [List.map_nil, List.map_cons, List.isEmpty_nil, List.isEmpty_cons,
            Bool.false_eq_true, if_true, if_false, List.append_nil] at heq
          obtain ⟨-, hs⟩ := esc_stream l1 l2 _ [] hL1 hL2 (Or.inr ⟨_, rfl⟩) (Or.inl rfl)
            (by rw [List.append_nil]; exact heq)
          exact List.noConfusion hs
        | cons l2x r2x =>
          simp only [List.map_cons, List.isEmpty_cons, Bool.false_eq_true, if_false] at heq
          obtain ⟨hl, hs⟩ := esc_stream l1 l2 _ _ hL1 hL2
            (Or.inr ⟨_, rfl⟩) (Or.inr ⟨_, rfl⟩) heq
          have htail := List.cons.inj hs |>.2
          have hrec : nameStr (l1x :: r1x) = nameStr (l2x :: r2x) := by
            unfold nameStr
            simp only [List.isEmpty_cons, Bool.false_eq_true, if_false, List.map_cons]
            exact htail
          have := ih (l2x :: r2x) hr1 hr2 hrec
          rw [hl, this]

/-! ### C2: reading back written names -/

/-- The byte right after a prefix. -/
theorem byteAt_cons_here (pre : List Nat) (x : Nat) (rest : List Nat) :
    byteAt (pre ++ x :: rest) pre.length = some x := by
  have h := byteAt_append_right pre (x :: rest) 0
  simpa using h

/-- Label length bounds of a well-formed label. -/
theorem validLabelB_len (l : List Nat) (h : validLabelB l = true) :
    1 ≤ l.length ∧ l.length ≤ 63 := by
  unfold validLabelB at h
  obtain ⟨h1, -⟩ := (Bool.and_eq_true _ _).mp h
  obtain ⟨h2, h3⟩ := (Bool.and_eq_true _ _).mp h1
  exact ⟨of_decide_eq_true h2, of_decide_eq_true h3⟩

/-- `NewNameAux` accepts well-formed labels within the wire budget. -/
theorem NewNameAux_ok (ls : List (List Nat)) : ∀ tot,
    (∀ l ∈ ls, validLabelB l = true) → tot + sumParts ls ≤ 254 →
    NewNameAux ls tot = Except.ok () := by
  induction ls with
  | nil =>
    intro tot hall hsum
    unfold NewNameAux
    rw [if_neg]
    have hm : MaxNameLength = 255 := rfl
    simp only [sumParts, List.map_nil, List.sum_nil] at hsum
    omega
  | cons l rest ih =>
    intro tot hall hsum
    unfold NewNameAux
    have hl := hall l (List.mem_cons_self _ _)
    obtain ⟨hlen1, hlen63⟩ := validLabelB_len l hl
    rw [if_neg (by omega), if_neg (by
      have hm : MaxLabelLength = 63 := rfl
      omega)]
    apply ih
    · intro x hx
      exact hall x (List.mem_cons_of_mem _ hx)
    · simp only [sumParts, List.map_cons, List.sum_cons] at hsum ⊢
      omega

/-- `NewName` accepts every well-formed name. -/
theorem NewName_ok (nm : Name) (h : validNameB nm = true) : NewName nm = Except.ok nm := by
  unfold NewName
  unfold validNameB at h
  obtain ⟨hall, hwire⟩ := (Bool.and_eq_true _ _).mp h
  rw [NewNameAux_ok nm 0 (fun l hl => List.all_eq_true.mp hall l hl) (by
    have hw : nameWire nm = sumParts nm + 1 := rfl
    have := of_decide_eq_true hwire
    omega)]
  rfl

/-- `ReadsAt` is stable under buffer extension. -/
theorem ReadsAt_extend (buf more : List Nat) (off : Nat) (nm : Name) (endP : Nat)
    (h : ReadsAt buf off nm endP) : ReadsAt (buf ++ more) off nm endP := by
  intro ext fuel nPtr st acc hws
  rw [List.append_assoc]
  exact h (more ++ ext) fuel nPtr st acc hws

/-- A terminator byte reads as the empty suffix, leaving the reader right
after it. -/
theorem ReadsAt_terminator (pre suf : List Nat) :
    ReadsAt (pre ++ 0 :: suf) pre.length [] (pre.length + 1) := by
  intro ext fuel nPtr st acc hws
  cases fuel with
  | zero => exact Or.inl rfl
  | succ fuel =>
    right; right
    rw [readNameAux]
    have hb : byteAt ((pre ++ 0 :: suf) ++ ext) pre.length = some 0 := by
      rw [List.append_assoc]
      exact byteAt_cons_here pre 0 (suf ++ ext)
    rw [hb]
    dsimp only
    rw [if_pos (show (0 : Nat) % 64 = 0 from rfl), List.append_nil]

/-- A length-prefixed label followed by bytes that read as `rest` reads as
`l :: rest`. -/
theorem ReadsAt_label (pre suf l : List Nat) (rest : Name) (endP : Nat)
    (hl1 : 1 ≤ l.length) (hl63 : l.length ≤ 63)
    (hrest : ReadsAt (pre ++ l.length :: (l ++ suf)) (pre.length + 1 + l.length) rest endP) :
    ReadsAt (pre ++ l.length :: (l ++ suf)) pre.length (l :: rest) endP := by
  intro ext fuel nPtr st acc hws
  cases fuel with
  | zero => exact Or.inl rfl
  | succ fuel =>
    rw [readNameAux]
    have hb : byteAt ((pre ++ l.length :: (l ++ suf)) ++ ext) pre.length = some l.length := by
      rw [List.append_assoc]
      exact byteAt_cons_here pre l.length ((l ++ suf) ++ ext)
    rw [hb]
    dsimp only
    have h64 : l.length / 64 = 0 := by omega
    rw [h64]
    dsimp only
    rw [if_neg (by omega)]
    have hmod : l.length % 64 = l.length := by omega
    rw [hmod]
    have hin : pre.length + 1 + l.length ≤ ((pre ++ l.length :: (l ++ suf)) ++ ext).length := by
      simp only [List.length_append, List.length_cons]
      omega
    rw [if_pos hin]
    have hslice : sliceAt ((pre ++ l.length :: (l ++ suf)) ++ ext) (pre.length + 1)
        l.length = l := by
      have hshape : (pre ++ l.length :: (l ++ suf)) ++ ext
          = (pre ++ [l.length]) ++ l ++ (suf ++ ext) := by simp
      rw [hshape]
      have hs := sliceAt_append (pre ++ [l.length]) l (suf ++ ext)
      simpa using hs
    rw [hslice]
    rcases hrest ext fuel nPtr st (acc ++ [l]) hws with h | h | h
    · exact Or.inl h
    · exact Or.inr (Or.inl h)
    · right; right
      rw [h]
      have hacc : (acc ++ [l]) ++ rest = acc ++ l :: rest := by simp
      rw [hacc]

/-- A compression pointer to an offset that reads as `nm` reads as `nm`,
leaving a top-level reader right after the two pointer bytes. -/
theorem ReadsAt_pointer (pre suf : List Nat) (ptr : Nat) (nm : Name) (endP' : Nat)
    (hfit : ptr % 16384 = ptr)
    (hread : ReadsAt (pre ++ (192 + ptr / 256) :: ptr % 256 :: suf) ptr nm endP') :
    ReadsAt (pre ++ (192 + ptr / 256) :: ptr % 256 :: suf) pre.length nm (pre.length + 2) := by
  intro ext fuel nPtr st acc hws
  cases fuel with
  | zero => exact Or.inl rfl
  | succ fuel =>
    rw [readNameAux]
    have hb : byteAt ((pre ++ (192 + ptr / 256) :: ptr % 256 :: suf) ++ ext) pre.length
        = some (192 + ptr / 256) := by
      rw [List.append_assoc]
      exact byteAt_cons_here pre _ _
    rw [hb]
    dsimp only
    have hlt : ptr < 16384 := by omega
    have h64 : (192 + ptr / 256) / 64 = 3 := by omega
    rw [h64]
    dsimp only
    have hb2 : byteAt ((pre ++ (192 + ptr / 256) :: ptr % 256 :: suf) ++ ext) (pre.length + 1)
        = some (ptr % 256) := by
      rw [List.append_assoc]
      have hr := byteAt_append_right pre ((192 + ptr / 256) :: ptr % 256 :: (suf ++ ext)) 1
      simpa using hr
    rw [hb2]
    dsimp only
    by_cases hlim : compressionPointerLimit < nPtr + 1
    · rw [if_pos hlim]
      exact Or.inr (Or.inl rfl)
    · rw [if_neg hlim]
      have htgt : (192 + ptr / 256) % 64 * 256 + ptr % 256 = ptr := by omega
      rw [htgt]
      have hws' : (nPtr + 1 = 0 ↔ (if nPtr = 0 then some (pre.length + 2) else st) = none) := by
        constructor
        · intro hc
          exact absurd hc (by omega)
        · intro hc
          by_cases h0 : nPtr = 0
          · rw [if_pos h0] at hc
            exact Option.noConfusion hc
          · rw [if_neg h0] at hc
            exact absurd (hws.mpr hc) h0
      rcases hread ext fuel (nPtr + 1) _ acc hws' with h | h | h
      · exact Or.inl h
      · exact Or.inr (Or.inl h)
      · right; right
        rw [h]
        by_cases h0 : nPtr = 0
        · rw [hws.mp h0, if_pos h0]
          rfl
        · rw [if_neg h0]
          cases hst : st with
          | none => exact absurd (hws.mpr hst) h0
          | some sv => rfl

/-- Unpacking `validNameB` over a cons. -/
theorem validNameB_cons (l : List Nat) (rest : Name) (h : validNameB (l :: rest) = true) :
    validLabelB l = true ∧ validNameB rest = true := by
  unfold validNameB at h ⊢
  obtain ⟨hall, hwire⟩ := (Bool.and_eq_true _ _).mp h
  simp only [List.all_cons, Bool.and_eq_true] at hall
  refine ⟨hall.1, ?_⟩
  rw [hall.2]
  simp only [Bool.true_and, decide_eq_true_eq]
  have hw := of_decide_eq_true hwire
  simp only [nameWire, List.map_cons, List.sum_cons] at hw ⊢
  omega

/-- Every label of a well-formed name is well-formed. -/
theorem validNameB_labels (n : Name) (h : validNameB n = true) :
    ∀ l ∈ n, validLabelB l = true := by
  unfold validNameB at h
  obtain ⟨hall, -⟩ := (Bool.and_eq_true _ _).mp h
  exact fun l hl => List.all_eq_true.mp hall l hl

/-- Correctness of `writeName`: starting from a builder whose cache splits
into pending entries (keys of strictly longer names still being written by
enclosing calls) and good entries, writing a well-formed name appends some
bytes, pushes good entries for the name's suffixes, keeps old good entries
good, and the written name reads back from its offset up to the pointer
budget. -/
theorem writeName_spec (nm : Name) : ∀ (b : msgBuilder) (pend good : List (List Nat × Nat)),
    validNameB nm = true →
    b.nameCache = pend ++ good →
    (∀ e ∈ pend, ∃ pn : Name, e.1 = nameStr pn ∧ (∀ l ∈ pn, validLabelB l = true) ∧
      nm.length < pn.length) →
    (∀ e ∈ good, entryGood b.buf e) →
    ∃ (w : List Nat) (newE : List (List Nat × Nat)),
      (writeName b nm).buf = b.buf ++ w ∧
      (writeName b nm).nameCache = newE ++ pend ++ good ∧
      (∀ e ∈ newE, entryGood (writeName b nm).buf e) ∧
      (∀ e ∈ good, entryGood (writeName b nm).buf e) ∧
      ReadsAt (writeName b nm).buf b.buf.length nm ((writeName b nm).buf.length) := by
  induction nm with
  | nil =>
    intro b pend good hv hc hpend hgood
    refine ⟨[0], [], rfl, by simpa using hc, ?_, ?_, ?_⟩
    · intro e he
      exact absurd he (List.not_mem_nil e)
    · intro e he
      obtain ⟨nm2, endP2, k1, k2, k3, k4⟩ := hgood e he
      exact ⟨nm2, endP2, k1, k2, k3, ReadsAt_extend _ _ _ _ _ k4⟩
    · have ht := ReadsAt_terminator b.buf []
      have hbuf : (writeName b []).buf = b.buf ++ [0] := rfl
      rw [hbuf]
      simpa using ht
  | cons l rest ih =>
    intro b pend good hv hc hpend hgood
    obtain ⟨hvl, hvrest⟩ := validNameB_cons l rest hv
    obtain ⟨hl1, hl63⟩ := validLabelB_len l hvl
    have hmod : l.length % 256 = l.length := by omega
    have hstep : writeName b (l :: rest)
          = writeName ⟨b.buf ++ [l.length % 256] ++ l,
              (nameStr (l :: rest), b.buf.length) :: b.nameCache⟩ rest →
        ∃ (w : List Nat) (newE : List (List Nat × Nat)),
          (writeName b (l :: rest)).buf = b.buf ++ w ∧
          (writeName b (l :: rest)).nameCache = newE ++ pend ++ good ∧
          (∀ e ∈ newE, entryGood (writeName b (l :: rest)).buf e) ∧
          (∀ e ∈ good, entryGood (writeName b (l :: rest)).buf e) ∧
          ReadsAt (writeName b (l :: rest)).buf b.buf.length (l :: rest)
            ((writeName b (l :: rest)).buf.length) := by
      intro hwn
      have hcache' : ((⟨b.buf ++ [l.length % 256] ++ l,
          (nameStr (l :: rest), b.buf.length) :: b.nameCache⟩ : msgBuilder)).nameCache
          = ((nameStr (l :: rest), b.buf.length) :: pend) ++ good := by
        dsimp only
        rw [hc, List.cons_append]
      have hpend' : ∀ e ∈ (nameStr (l :: rest), b.buf.length) :: pend,
          ∃ pn : Name, e.1 = nameStr pn ∧ (∀ x ∈ pn, validLabelB x = true) ∧
            rest.length < pn.length := by
        intro e he
        rcases List.mem_cons.mp he with h | h
        · subst h
          exact ⟨l :: rest, rfl, validNameB_labels _ hv, by simp⟩
        · obtain ⟨pn, k1, k2, k3⟩ := hpend e h
          refine ⟨pn, k1, k2, ?_⟩
          simp only [List.length_cons] at k3
          omega
      have hgood' : ∀ e ∈ good, entryGood ((⟨b.buf ++ [l.length % 256] ++ l,
          (nameStr (l :: rest), b.buf.length) :: b.nameCache⟩ : msgBuilder)).buf e := by
        intro e he
        obtain ⟨nm2, endP2, k1, k2, k3, k4⟩ := hgood e he
        refine ⟨nm2, endP2, k1, k2, k3, ?_⟩
        dsimp only
        rw [List.append_assoc]
        exact ReadsAt_extend _ _ _ _ _ k4
      obtain ⟨w, newE, g1, g2, g3, g4, g5⟩ :=
        ih ⟨b.buf ++ [l.length % 256] ++ l,
             (nameStr (l :: rest), b.buf.length) :: b.nameCache⟩
          ((nameStr (l :: rest), b.buf.length) :: pend) good hvrest hcache' hpend' hgood'
      rw [← hwn] at g1 g2 g3 g4 g5
      have hshape : (writeName b (l :: rest)).buf = b.buf ++ l.length :: (l ++ w) := by
        rw [g1]
        dsimp only
        rw [hmod]
        simp [List.append_assoc]
      have hblen : ((⟨b.buf ++ [l.length % 256] ++ l,
          (nameStr (l :: rest), b.buf.length) :: b.nameCache⟩ : msgBuilder)).buf.length
          = b.buf.length + 1 + l.length := by
        simp
        omega
      rw [hshape, hblen] at g5
      have hmain0 := ReadsAt_label b.buf w l rest _ hl1 hl63 g5
      have hmain : ReadsAt (writeName b (l :: rest)).buf b.buf.length (l :: rest)
          ((writeName b (l :: rest)).buf.length) := by
        rw [hshape]
        exact hmain0
      refine ⟨l.length :: (l ++ w), newE ++ [(nameStr (l :: rest), b.buf.length)],
        by rw [hshape], ?_, ?_, g4, hmain⟩
      · rw [g2]
        simp [List.append_assoc]
      · intro e he
        rcases List.mem_append.mp he with h | h
        · exact g3 e h
        · have he2 : e = (nameStr (l :: rest), b.buf.length) := List.mem_singleton.mp h
          subst he2
          exact ⟨l :: rest, (writeName b (l :: rest)).buf.length, rfl, hv,
            List.cons_ne_nil _ _, hmain⟩
    cases hlook : cacheLookup b.nameCache (nameStr (l :: rest)) with
    | none =>
      exact hstep (by rw [writeName, hlook])
    | some ptr =>
      by_cases hfit : ptr % 16384 = ptr
      · have hwn : writeName b (l :: rest)
            = { b with buf := b.buf ++ [192 + ptr / 256, ptr % 256] } := by
          rw [writeName, hlook]
          dsimp only
          rw [if_pos hfit]
        unfold cacheLookup at hlook
        cases hfind : b.nameCache.find? (fun e => e.1 == nameStr (l :: rest)) with
        | none =>
          rw [hfind] at hlook
          exact absurd hlook (by simp)
        | some entry =>
          rw [hfind] at hlook
          simp only [Option.map_some'] at hlook
          have hptr : entry.2 = ptr := Option.some.inj hlook
          have hbeq := List.find?_some hfind
          simp only [beq_iff_eq] at hbeq
          have hkey : entry.1 = nameStr (l :: rest) := hbeq
          have hmem := List.mem_of_find?_eq_some hfind
          rw [hc] at hmem
          rcases List.mem_append.mp hmem with hpe | hge
          · obtain ⟨pn, k1, k2, k3⟩ := hpend entry hpe
            have hpn : pn = l :: rest := nameStr_inj pn (l :: rest) k2
              (validNameB_labels _ hv) (by rw [← k1, hkey])
            rw [hpn] at k3
            exact absurd k3 (lt_irrefl _)
          · obtain ⟨nm2, endP2, k1, k2, k3, k4⟩ := hgood entry hge
            have hnm2 : nm2 = l :: rest := nameStr_inj nm2 (l :: rest)
              (validNameB_labels _ k2) (validNameB_labels _ hv) (by rw [← k1, hkey])
            subst hnm2
            rw [hptr] at k4
            refine ⟨[192 + ptr / 256, ptr % 256], [], by rw [hwn], ?_, ?_, ?_, ?_⟩
            · rw [hwn]
              simpa using hc
            · intro e' he'
              exact absurd he' (List.not_mem_nil _)
            · intro e' he'
              obtain ⟨nm3, endP3, m1, m2, m3, m4⟩ := hgood e' he'
              rw [hwn]
              exact ⟨nm3, endP3, m1, m2, m3, ReadsAt_extend _ _ _ _ _ m4⟩
            · rw [hwn]
              have hre : ReadsAt (b.buf ++ (192 + ptr / 256) :: ptr % 256 :: []) ptr
                  (l :: rest) endP2 := ReadsAt_extend _ _ _ _ _ k4
              have hp := ReadsAt_pointer b.buf [] ptr (l :: rest) endP2 hfit hre
              have hlen : (b.buf ++ [192 + ptr / 256, ptr % 256]).length = b.buf.length + 2 := by
                simp
              show ReadsAt (b.buf ++ [192 + ptr / 256, ptr % 256]) b.buf.length (l :: rest)
                ((b.buf ++ [192 + ptr / 256, ptr % 256]).length)
              rw [hlen]
              exact hp
      · exact hstep (by
          rw [writeName, hlook]
          dsimp only
          rw [if_neg hfit])

/-- Reading back a written big-endian `uint16` at its position. -/
theorem readU16_at (pre suf : List Nat) (v : Nat) (hv : v < 65536) :
    readU16 (pre ++ writeU16 v ++ suf) pre.length = Except.ok (v, pre.length + 2) := by
  have hshape : pre ++ writeU16 v ++ suf = pre ++ v / 256 % 256 :: v % 256 :: suf := by
    simp [writeU16]
  rw [hshape]
  unfold readU16
  rw [byteAt_cons_here]
  have h1 : byteAt (pre ++ v / 256 % 256 :: v % 256 :: suf) (pre.length + 1)
      = some (v % 256) := by
    have h := byteAt_append_right pre (v / 256 % 256 :: v % 256 :: suf) 1
    simpa using h
  rw [h1]
  dsimp only
  have hval : v / 256 % 256 * 256 + v % 256 = v := by omega
  rw [hval]

/-- Reading back a written big-endian `uint32` at its position. -/
theorem readU32_at (pre suf : List Nat) (v : Nat) (hv : v < 4294967296) :
    readU32 (pre ++ writeU32 v ++ suf) pre.length = Except.ok (v, pre.length + 4) := by
  have hshape : pre ++ writeU32 v ++ suf
      = pre ++ v / 16777216 % 256 :: v / 65536 % 256 :: v / 256 % 256 :: v % 256 :: suf := by
    simp [writeU32]
  rw [hshape]
  unfold readU32
  rw [byteAt_cons_here]
  have h1 : byteAt (pre ++ v / 16777216 % 256 :: v / 65536 % 256 :: v / 256 % 256 ::
      v % 256 :: suf) (pre.length + 1) = some (v / 65536 % 256) := by
    have h := byteAt_append_right pre
      (v / 16777216 % 256 :: v / 65536 % 256 :: v / 256 % 256 :: v % 256 :: suf) 1
    simpa using h
  have h2 : byteAt (pre ++ v / 16777216 % 256 :: v / 65536 % 256 :: v / 256 % 256 ::
      v % 256 :: suf) (pre.length + 2) = some (v / 256 % 256) := by
    have h := byteAt_append_right pre
      (v / 16777216 % 256 :: v / 65536 % 256 :: v / 256 % 256 :: v % 256 :: suf) 2
    simpa [Nat.add_comm] using h
  have h3 : byteAt (pre ++ v / 16777216 % 256 :: v / 65536 % 256 :: v / 256 % 256 ::
      v % 256 :: suf) (pre.length + 3) = some (v % 256) := by
    have h := byteAt_append_right pre
      (v / 16777216 % 256 :: v / 65536 % 256 :: v / 256 % 256 :: v % 256 :: suf) 3
    simpa [Nat.add_comm] using h
  rw [h1, h2, h3]
  dsimp only
  have hval : ((v / 16777216 % 256 * 256 + v / 65536 % 256) * 256 + v / 256 % 256) * 256
      + v % 256 = v := by omega
  rw [hval]

/-- Correctness of `writeQuestion`: the question's bytes are appended, the
cache stays good, and the question reads back. -/
theorem writeQuestion_spec (b : msgBuilder) (q : Question)
    (hq : validQuestionB q = true) (hcg : CacheGood b) :
    ∃ w, (writeQuestion b q).buf = b.buf ++ w ∧ CacheGood (writeQuestion b q) ∧
      QReadsAt (writeQuestion b q).buf b.buf.length q ((writeQuestion b q).buf.length) := by
  unfold validQuestionB at hq
  obtain ⟨h12, hclass⟩ := (Bool.and_eq_true _ _).mp hq
  obtain ⟨hname, htype⟩ := (Bool.and_eq_true _ _).mp h12
  obtain ⟨w1, newE, g1, g2, g3, g4, g5⟩ := writeName_spec q.qname b [] b.nameCache hname
    (by simp) (fun e he => absurd he (List.not_mem_nil _)) hcg
  refine ⟨w1 ++ writeU16 q.qtype ++ writeU16 q.qclass, ?_, ?_, ?_⟩
  · show (writeName b q.qname).buf ++ writeU16 q.qtype ++ writeU16 q.qclass
      = b.buf ++ (w1 ++ writeU16 q.qtype ++ writeU16 q.qclass)
    rw [g1]
    simp [List.append_assoc]
  · intro e he
    have he' : e ∈ (writeName b q.qname).nameCache := he
    have hg : entryGood (writeName b q.qname).buf e := by
      rw [g2] at he'
      rcases List.mem_append.mp he' with h | h
      · rcases List.mem_append.mp h with h2 | h2
        · exact g3 e h2
        · exact absurd h2 (List.not_mem_nil _)
      · exact g4 e h
    obtain ⟨nm2, e2, k1, k2, k3, k4⟩ := hg
    refine ⟨nm2, e2, k1, k2, k3, ?_⟩
    show ReadsAt ((writeName b q.qname).buf ++ writeU16 q.qtype ++ writeU16 q.qclass) e.2 nm2 e2
    rw [List.append_assoc]
    exact ReadsAt_extend _ _ _ _ _ k4
  · intro ext
    have hra : ReadsAt ((writeName b q.qname).buf ++ writeU16 q.qtype ++ writeU16 q.qclass)
        b.buf.length q.qname ((writeName b q.qname).buf.length) := by
      rw [List.append_assoc]
      exact ReadsAt_extend _ _ _ _ _ g5
    have h3 := hra ext (readNameFuel (((writeName b q.qname).buf ++ writeU16 q.qtype ++
      writeU16 q.qclass) ++ ext)) 0 none [] (by simp)
    rcases h3 with h | h | h
    · exfalso
      have hnf := readName_ne_fuel (((writeName b q.qname).buf ++ writeU16 q.qtype ++
        writeU16 q.qclass) ++ ext) b.buf.length
      exact hnf (by unfold readName; exact h)
    · left
      show readQuestion (((writeName b q.qname).buf ++ writeU16 q.qtype ++
        writeU16 q.qclass) ++ ext) b.buf.length = Except.error DnsErr.tooManyPointers
      unfold readQuestion
      rw [show readName (((writeName b q.qname).buf ++ writeU16 q.qtype ++
        writeU16 q.qclass) ++ ext) b.buf.length = Except.error DnsErr.tooManyPointers
        from by unfold readName; exact h]
    · right
      show readQuestion (((writeName b q.qname).buf ++ writeU16 q.qtype ++
        writeU16 q.qclass) ++ ext) b.buf.length
        = Except.ok (q, ((writeName b q.qname).buf ++ writeU16 q.qtype ++
            writeU16 q.qclass).length)
      simp only [List.nil_append] at h
      unfold readQuestion
      have hname_ok : readName (((writeName b q.qname).buf ++ writeU16 q.qtype ++
          writeU16 q.qclass) ++ ext) b.buf.length
          = Except.ok (q.qname, (writeName b q.qname).buf.length) := by
        unfold readName
        rw [h, NewName_ok q.qname hname]
        rfl
      rw [hname_ok]
      dsimp only
      have hshape : ((writeName b q.qname).buf ++ writeU16 q.qtype ++ writeU16 q.qclass) ++ ext
          = (writeName b q.qname).buf ++ writeU16 q.qtype ++ (writeU16 q.qclass ++ ext) := by
        simp [List.append_assoc]
      rw [hshape, readU16_at _ _ _ (of_decide_eq_true htype)]
      dsimp only
      have hshape2 : (writeName b q.qname).buf ++ writeU16 q.qtype ++ (writeU16 q.qclass ++ ext)
          = ((writeName b q.qname).buf ++ writeU16 q.qtype) ++ writeU16 q.qclass ++ ext := by
        simp [List.append_assoc]
      have hlen2 : (writeName b q.qname).buf.length + 2
          = ((writeName b q.qname).buf ++ writeU16 q.qtype).length := by
        simp [writeU16]
      rw [hshape2, hlen2, readU16_at _ _ _ (of_decide_eq_true hclass)]
      dsimp only
      have hfin : ((writeName b q.qname).buf ++ writeU16 q.qtype).length + 2
          = ((writeName b q.qname).buf ++ writeU16 q.qtype ++ writeU16 q.qclass).length := by
        simp [writeU16]
      rw [hfin]

/-- Correctness of `writeRR`: a valid record is written successfully, the
cache stays good, and the record reads back. -/
theorem writeRR_spec (b : msgBuilder) (rr : RR)
    (hr : validRRB rr = true) (hcg : CacheGood b) :
    ∃ b1 w, writeRR b rr = Except.ok b1 ∧ b1.buf = b.buf ++ w ∧ CacheGood b1 ∧
      RRReadsAt b1.buf b.buf.length rr b1.buf.length := by
  unfold validRRB at hr
  obtain ⟨h5, hbytes⟩ := (Bool.and_eq_true _ _).mp hr
  obtain ⟨h4, hlen⟩ := (Bool.and_eq_true _ _).mp h5
  obtain ⟨h3, httl⟩ := (Bool.and_eq_true _ _).mp h4
  obtain ⟨h2, hclass⟩ := (Bool.and_eq_true _ _).mp h3
  obtain ⟨hname, htype⟩ := (Bool.and_eq_true _ _).mp h2
  have hlenN := of_decide_eq_true hlen
  have hmod : rr.rdata.length % 65536 = rr.rdata.length := Nat.mod_eq_of_lt hlenN
  obtain ⟨w1, newE, g1, g2, g3, g4, g5⟩ := writeName_spec rr.rname b [] b.nameCache hname
    (by simp) (fun e he => absurd he (List.not_mem_nil _)) hcg
  have hwr : writeRR b rr = Except.ok
      ⟨(writeName b rr.rname).buf ++ writeU16 rr.rtype ++ writeU16 rr.rclass ++
        writeU32 rr.ttl ++ writeU16 rr.rdata.length ++ rr.rdata,
        (writeName b rr.rname).nameCache⟩ := by
    unfold writeRR
    rw [if_pos hmod]
  refine ⟨_, w1 ++ writeU16 rr.rtype ++ writeU16 rr.rclass ++ writeU32 rr.ttl ++
    writeU16 rr.rdata.length ++ rr.rdata, hwr, ?_, ?_, ?_⟩
  · show (writeName b rr.rname).buf ++ writeU16 rr.rtype ++ writeU16 rr.rclass ++
      writeU32 rr.ttl ++ writeU16 rr.rdata.length ++ rr.rdata
      = b.buf ++ (w1 ++ writeU16 rr.rtype ++ writeU16 rr.rclass ++ writeU32 rr.ttl ++
        writeU16 rr.rdata.length ++ rr.rdata)
    rw [g1]
    simp [List.append_assoc]
  · intro e he
    have he' : e ∈ (writeName b rr.rname).nameCache := he
    have hg : entryGood (writeName b rr.rname).buf e := by
      rw [g2] at he'
      rcases List.mem_append.mp he' with h | h
      · rcases List.mem_append.mp h with hh | hh
        · exact g3 e hh
        · exact absurd hh (List.not_mem_nil _)
      · exact g4 e h
    obtain ⟨nm2, e2, k1, k2, k3, k4⟩ := hg
    refine ⟨nm2, e2, k1, k2, k3, ?_⟩
    show ReadsAt ((writeName b rr.rname).buf ++ writeU16 rr.rtype ++ writeU16 rr.rclass ++
      writeU32 rr.ttl ++ writeU16 rr.rdata.length ++ rr.rdata) e.2 nm2 e2
    rw [List.append_assoc, List.append_assoc, List.append_assoc, List.append_assoc]
    exact ReadsAt_extend _ _ _ _ _ k4
  · intro ext
    have hra : ReadsAt ((writeName b rr.rname).buf ++ writeU16 rr.rtype ++
        writeU16 rr.rclass ++ writeU32 rr.ttl ++ writeU16 rr.rdata.length ++ rr.rdata)
        b.buf.length rr.rname ((writeName b rr.rname).buf.length) := by
      rw [List.append_assoc, List.append_assoc, List.append_assoc, List.append_assoc]
      exact ReadsAt_extend _ _ _ _ _ g5
    have h6 := hra ext (readNameFuel (((writeName b rr.rname).buf ++ writeU16 rr.rtype ++
      writeU16 rr.rclass ++ writeU32 rr.ttl ++ writeU16 rr.rdata.length ++ rr.rdata) ++ ext))
      0 none [] (by simp)
    rcases h6 with h | h | h
    · exfalso
      have hnf := readName_ne_fuel (((writeName b rr.rname).buf ++ writeU16 rr.rtype ++
        writeU16 rr.rclass ++ writeU32 rr.ttl ++ writeU16 rr.rdata.length ++ rr.rdata) ++ ext)
        b.buf.length
      exact hnf (by unfold readName; exact h)
    · left
      show readRR (((writeName b rr.rname).buf ++ writeU16 rr.rtype ++ writeU16 rr.rclass ++
        writeU32 rr.ttl ++ writeU16 rr.rdata.length ++ rr.rdata) ++ ext) b.buf.length
        = Except.error DnsErr.tooManyPointers
      unfold readRR
      rw [show readName (((writeName b rr.rname).buf ++ writeU16 rr.rtype ++
        writeU16 rr.rclass ++ writeU32 rr.ttl ++ writeU16 rr.rdata.length ++ rr.rdata) ++ ext)
        b.buf.length = Except.error DnsErr.tooManyPointers from by unfold readName; exact h]
    · right
      show readRR (((writeName b rr.rname).buf ++ writeU16 rr.rtype ++ writeU16 rr.rclass ++
        writeU32 rr.ttl ++ writeU16 rr.rdata.length ++ rr.rdata) ++ ext) b.buf.length
        = Except.ok (rr, ((writeName b rr.rname).buf ++ writeU16 rr.rtype ++
          writeU16 rr.rclass ++ writeU32 rr.ttl ++ writeU16 rr.rdata.length ++ rr.rdata).length)
      simp only [List.nil_append] at h
      unfold readRR
      have hname_ok : readName (((writeName b rr.rname).buf ++ writeU16 rr.rtype ++
          writeU16 rr.rclass ++ writeU32 rr.ttl ++ writeU16 rr.rdata.length ++ rr.rdata) ++ ext)
          b.buf.length = Except.ok (rr.rname, (writeName b rr.rname).buf.length) := by
        unfold readName
        rw [h, NewName_ok rr.rname hname]
        rfl
      rw [hname_ok]
      dsimp only
      have hs1 : ((writeName b rr.rname).buf ++ writeU16 rr.rtype ++ writeU16 rr.rclass ++
          writeU32 rr.ttl ++ writeU16 rr.rdata.length ++ rr.rdata) ++ ext
          = (writeName b rr.rname).buf ++ writeU16 rr.rtype ++ (writeU16 rr.rclass ++
            writeU32 rr.ttl ++ writeU16 rr.rdata.length ++ rr.rdata ++ ext) := by
        simp [List.append_assoc]
      rw [hs1, readU16_at _ _ _ (of_decide_eq_true htype)]
      dsimp only
      have hs2 : (writeName b rr.rname).buf ++ writeU16 rr.rtype ++ (writeU16 rr.rclass ++
          writeU32 rr.ttl ++ writeU16 rr.rdata.length ++ rr.rdata ++ ext)
          = ((writeName b rr.rname).buf ++ writeU16 rr.rtype) ++ writeU16 rr.rclass ++
            (writeU32 rr.ttl ++ writeU16 rr.rdata.length ++ rr.rdata ++ ext) := by
        simp [List.append_assoc]
      have hl2 : (writeName b rr.rname).buf.length + 2
          = ((writeName b rr.rname).buf ++ writeU16 rr.rtype).length := by
        simp [writeU16]
      rw [hs2, hl2, readU16_at _ _ _ (of_decide_eq_true hclass)]
      dsimp only
      have hs3 : ((writeName b rr.rname).buf ++ writeU16 rr.rtype) ++ writeU16 rr.rclass ++
          (writeU32 rr.ttl ++ writeU16 rr.rdata.length ++ rr.rdata ++ ext)
          = (((writeName b rr.rname).buf ++ writeU16 rr.rtype) ++ writeU16 rr.rclass) ++
            writeU32 rr.ttl ++ (writeU16 rr.rdata.length ++ rr.rdata ++ ext) := by
        simp [List.append_assoc]
      have hl3 : ((writeName b rr.rname).buf ++ writeU16 rr.rtype).length + 2
          = (((writeName b rr.rname).buf ++ writeU16 rr.rtype) ++ writeU16 rr.rclass).length := by
        simp [writeU16]
      rw [hs3, hl3, readU32_at _ _ _ (of_decide_eq_true httl)]
      dsimp only
      have hs4 : (((writeName b rr.rname).buf ++ writeU16 rr.rtype) ++ writeU16 rr.rclass) ++
          writeU32 rr.ttl ++ (writeU16 rr.rdata.length ++ rr.rdata ++ ext)
          = ((((writeName b rr.rname).buf ++ writeU16 rr.rtype) ++ writeU16 rr.rclass) ++
            writeU32 rr.ttl) ++ writeU16 rr.rdata.length ++ (rr.rdata ++ ext) := by
        simp [List.append_assoc]
      have hl4 : (((writeName b rr.rname).buf ++ writeU16 rr.rtype) ++ writeU16 rr.rclass).length
          + 4 = ((((writeName b rr.rname).buf ++ writeU16 rr.rtype) ++ writeU16 rr.rclass) ++
            writeU32 rr.ttl).length := by
        simp only [List.length_append, List.length_cons, List.length_nil, writeU16, writeU32]
        try omega
      rw [hs4, hl4, readU16_at _ _ _ hlenN]
      dsimp only
      have hs5 : ((((writeName b rr.rname).buf ++ writeU16 rr.rtype) ++ writeU16 rr.rclass) ++
          writeU32 rr.ttl) ++ writeU16 rr.rdata.length ++ (rr.rdata ++ ext)
          = (((((writeName b rr.rname).buf ++ writeU16 rr.rtype) ++ writeU16 rr.rclass) ++
            writeU32 rr.ttl) ++ writeU16 rr.rdata.length) ++ rr.rdata ++ ext := by
        simp [List.append_assoc]
      have hl5 : ((((writeName b rr.rname).buf ++ writeU16 rr.rtype) ++ writeU16 rr.rclass) ++
          writeU32 rr.ttl).length + 2
          = (((((writeName b rr.rname).buf ++ writeU16 rr.rtype) ++ writeU16 rr.rclass) ++
            writeU32 rr.ttl) ++ writeU16 rr.rdata.length).length := by
        simp only [List.length_append, List.length_cons, List.length_nil, writeU16, writeU32]
        try omega
      rw [hs5, hl5]
      have hbound : (((((writeName b rr.rname).buf ++ writeU16 rr.rtype) ++
          writeU16 rr.rclass) ++ writeU32 rr.ttl) ++ writeU16 rr.rdata.length).length +
          rr.rdata.length
          ≤ ((((((writeName b rr.rname).buf ++ writeU16 rr.rtype) ++ writeU16 rr.rclass) ++
            writeU32 rr.ttl) ++ writeU16 rr.rdata.length) ++ rr.rdata ++ ext).length := by
        simp only [List.length_append, List.length_cons, List.length_nil, writeU16, writeU32]
        try omega
      rw [if_pos hbound]
      rw [sliceAt_append]
      have hfin : (((((writeName b rr.rname).buf ++ writeU16 rr.rtype) ++ writeU16 rr.rclass) ++
          writeU32 rr.ttl) ++ writeU16 rr.rdata.length).length + rr.rdata.length
          = ((writeName b rr.rname).buf ++ writeU16 rr.rtype ++ writeU16 rr.rclass ++
            writeU32 rr.ttl ++ writeU16 rr.rdata.length ++ rr.rdata).length := by
        simp only [List.length_append, List.length_cons, List.length_nil, writeU16, writeU32]
        try omega
      rw [hfin]

/-- Correctness of the question-section fold. -/
theorem writeQuestions_fold_spec (qs : List Question) : ∀ (b : msgBuilder),
    (∀ q ∈ qs, validQuestionB q = true) → CacheGood b →
    ∃ w, (qs.foldl writeQuestion b).buf = b.buf ++ w ∧
      CacheGood (qs.foldl writeQuestion b) ∧
      QsReadAt (qs.foldl writeQuestion b).buf b.buf.length qs
        ((qs.foldl writeQuestion b).buf.length) := by
  induction qs with
  | nil =>
    intro b hv hcg
    refine ⟨[], by simp, hcg, ?_⟩
    intro ext
    right
    rfl
  | cons q rest ih =>
    intro b hv hcg
    obtain ⟨w1, q1, q2, q3⟩ := writeQuestion_spec b q (hv q (List.mem_cons_self _ _)) hcg
    obtain ⟨w2, r1, r2, r3⟩ := ih (writeQuestion b q)
      (fun x hx => hv x (List.mem_cons_of_mem _ hx)) q2
    refine ⟨w1 ++ w2, ?_, r2, ?_⟩
    · show (rest.foldl writeQuestion (writeQuestion b q)).buf = b.buf ++ (w1 ++ w2)
      rw [r1, q1]
      simp [List.append_assoc]
    · intro ext
      have hF : (rest.foldl writeQuestion (writeQuestion b q)).buf ++ ext
          = (writeQuestion b q).buf ++ (w2 ++ ext) := by
        rw [r1]
        simp [List.append_assoc]
      rcases q3 (w2 ++ ext) with hq | hq
      · left
        show readQuestions ((rest.foldl writeQuestion (writeQuestion b q)).buf ++ ext)
          (q :: rest).length b.buf.length = Except.error DnsErr.tooManyPointers
        rw [show (q :: rest).length = rest.length + 1 from rfl, readQuestions, hF, hq]
      · rcases r3 ext with hr | hr
        · left
          show readQuestions ((rest.foldl writeQuestion (writeQuestion b q)).buf ++ ext)
            (q :: rest).length b.buf.length = Except.error DnsErr.tooManyPointers
          rw [show (q :: rest).length = rest.length + 1 from rfl, readQuestions, hF, hq]
          dsimp only
          rw [← hF, hr]
        · right
          show readQuestions ((rest.foldl writeQuestion (writeQuestion b q)).buf ++ ext)
            (q :: rest).length b.buf.length
            = Except.ok (q :: rest, (rest.foldl writeQuestion (writeQuestion b q)).buf.length)
          rw [show (q :: rest).length = rest.length + 1 from rfl, readQuestions, hF, hq]
          dsimp only
          rw [← hF, hr]
  
/-- Correctness of a record-section loop. -/
theorem writeRRs_spec (rrs : List RR) : ∀ (b : msgBuilder),
    (∀ rr ∈ rrs, validRRB rr = true) → CacheGood b →
    ∃ b1 w, writeRRs b rrs = Except.ok b1 ∧ b1.buf = b.buf ++ w ∧ CacheGood b1 ∧
      RRsReadAt b1.buf b.buf.length rrs b1.buf.length := by
  induction rrs with
  | nil =>
    intro b hv hcg
    refine ⟨b, [], rfl, by simp, hcg, ?_⟩
    intro ext
    right
    rfl
  | cons rr rest ih =>
    intro b hv hcg
    obtain ⟨b1, w1, e1, e2, e3, e4⟩ := writeRR_spec b rr (hv rr (List.mem_cons_self _ _)) hcg
    obtain ⟨b2, w2, f1, f2, f3, f4⟩ := ih b1 (fun x hx => hv x (List.mem_cons_of_mem _ hx)) e3
    have hwr : writeRRs b (rr :: rest) = Except.ok b2 := by
      rw [writeRRs, e1]
      exact f1
    refine ⟨b2, w1 ++ w2, hwr, ?_, f3, ?_⟩
    · rw [f2, e2]
      simp [List.append_assoc]
    · intro ext
      have hF : b2.buf ++ ext = b1.buf ++ (w2 ++ ext) := by
        rw [f2]
        simp [List.append_assoc]
      rcases e4 (w2 ++ ext) with hq | hq
      · left
        show readRRs (b2.buf ++ ext) (rr :: rest).length b.buf.length
          = Except.error DnsErr.tooManyPointers
        rw [show (rr :: rest).length = rest.length + 1 from rfl, readRRs, hF, hq]
      · rcases f4 ext with hr | hr
        · left
          show readRRs (b2.buf ++ ext) (rr :: rest).length b.buf.length
            = Except.error DnsErr.tooManyPointers
          rw [show (rr :: rest).length = rest.length + 1 from rfl, readRRs, hF, hq]
          dsimp only
          rw [← hF, hr]
        · right
          show readRRs (b2.buf ++ ext) (rr :: rest).length b.buf.length
            = Except.ok (rr :: rest, b2.buf.length)
          rw [show (rr :: rest).length = rest.length + 1 from rfl, readRRs, hF, hq]
          dsimp only
          rw [← hF, hr]

/-- Reading the six header words back. -/
theorem read_header (v1 v2 v3 v4 v5 v6 : Nat) (rest : List Nat)
    (h1 : v1 < 65536) (h2 : v2 < 65536) (h3 : v3 < 65536)
    (h4 : v4 < 65536) (h5 : v5 < 65536) (h6 : v6 < 65536) :
    readU16 (writeU16 v1 ++ writeU16 v2 ++ writeU16 v3 ++ writeU16 v4 ++ writeU16 v5 ++
      writeU16 v6 ++ rest) 0 = Except.ok (v1, 2) ∧
    readU16 (writeU16 v1 ++ writeU16 v2 ++ writeU16 v3 ++ writeU16 v4 ++ writeU16 v5 ++
      writeU16 v6 ++ rest) 2 = Except.ok (v2, 4) ∧
    readU16 (writeU16 v1 ++ writeU16 v2 ++ writeU16 v3 ++ writeU16 v4 ++ writeU16 v5 ++
      writeU16 v6 ++ rest) 4 = Except.ok (v3, 6) ∧
    readU16 (writeU16 v1 ++ writeU16 v2 ++ writeU16 v3 ++ writeU16 v4 ++ writeU16 v5 ++
      writeU16 v6 ++ rest) 6 = Except.ok (v4, 8) ∧
    readU16 (writeU16 v1 ++ writeU16 v2 ++ writeU16 v3 ++ writeU16 v4 ++ writeU16 v5 ++
      writeU16 v6 ++ rest) 8 = Except.ok (v5, 10) ∧
    readU16 (writeU16 v1 ++ writeU16 v2 ++ writeU16 v3 ++ writeU16 v4 ++ writeU16 v5 ++
      writeU16 v6 ++ rest) 10 = Except.ok (v6, 12) := by
  refine ⟨?_, ?_, ?_, ?_, ?_, ?_⟩
  · have h := readU16_at []
      (writeU16 v2 ++ writeU16 v3 ++ writeU16 v4 ++ writeU16 v5 ++ writeU16 v6 ++ rest) v1 h1
    simpa [writeU16, List.append_assoc] using h
  · have h := readU16_at (writeU16 v1)
      (writeU16 v3 ++ writeU16 v4 ++ writeU16 v5 ++ writeU16 v6 ++ rest) v2 h2
    simpa [writeU16, List.append_assoc] using h
  · have h := readU16_at (writeU16 v1 ++ writeU16 v2)
      (writeU16 v4 ++ writeU16 v5 ++ writeU16 v6 ++ rest) v3 h3
    simpa [writeU16, List.append_assoc] using h
  · have h := readU16_at (writeU16 v1 ++ writeU16 v2 ++ writeU16 v3)
      (writeU16 v5 ++ writeU16 v6 ++ rest) v4 h4
    simpa [writeU16, List.append_assoc] using h
  · have h := readU16_at (writeU16 v1 ++ writeU16 v2 ++ writeU16 v3 ++ writeU16 v4)
      (writeU16 v6 ++ rest) v5 h5
    simpa [writeU16, List.append_assoc] using h
  · have h := readU16_at (writeU16 v1 ++ writeU16 v2 ++ writeU16 v3 ++ writeU16 v4 ++
      writeU16 v5) rest v6 h6
    simpa [writeU16, List.append_assoc] using h

/-- C2 (amended): marshalling a valid message succeeds, and parsing the
result either returns the message exactly or fails with
`ErrTooManyPointers`: the writer can emit compression-pointer chains
deeper than the reader's 10-pointer cap. -/
theorem C2_roundtrip_or_pointer_limit (m : Message) (hv : validMessage m = true) :
    ∃ wire, Marshal m = Except.ok wire ∧
      (ParseMessage wire = Except.ok m ∨
        ParseMessage wire = Except.error DnsErr.tooManyPointers) := by
  unfold validMessage at hv
  obtain ⟨h9, hadall⟩ := (Bool.and_eq_true _ _).mp hv
  obtain ⟨h8, hauall⟩ := (Bool.and_eq_true _ _).mp h9
  obtain ⟨h7, haall⟩ := (Bool.and_eq_true _ _).mp h8
  obtain ⟨h6, hqall⟩ := (Bool.and_eq_true _ _).mp h7
  obtain ⟨h5, hadc⟩ := (Bool.and_eq_true _ _).mp h6
  obtain ⟨h4, hauc⟩ := (Bool.and_eq_true _ _).mp h5
  obtain ⟨h3, hac⟩ := (Bool.and_eq_true _ _).mp h4
  obtain ⟨h2, hqc⟩ := (Bool.and_eq_true _ _).mp h3
  obtain ⟨hid, hflags⟩ := (Bool.and_eq_true _ _).mp h2
  have hidN := of_decide_eq_true hid
  have hflagsN := of_decide_eq_true hflags
  have hqcN := of_decide_eq_true hqc
  have hacN := of_decide_eq_true hac
  have haucN := of_decide_eq_true hauc
  have hadcN := of_decide_eq_true hadc
  have hqv : ∀ q ∈ m.question, validQuestionB q = true :=
    fun q hq => List.all_eq_true.mp hqall q hq
  have hav : ∀ rr ∈ m.answer, validRRB rr = true :=
    fun rr hr => List.all_eq_true.mp haall rr hr
  have hauv : ∀ rr ∈ m.authority, validRRB rr = true :=
    fun rr hr => List.all_eq_true.mp hauall rr hr
  have hadv : ∀ rr ∈ m.additional, validRRB rr = true :=
    fun rr hr => List.all_eq_true.mp hadall rr hr
  have hcg0 : CacheGood (⟨writeU16 m.id ++ writeU16 m.flags ++ writeU16 m.question.length ++
      writeU16 m.answer.length ++ writeU16 m.authority.length ++
      writeU16 m.additional.length, []⟩ : msgBuilder) :=
    fun e he => absurd he (List.not_mem_nil e)
  obtain ⟨wq, hq1, hq2, hq3⟩ := writeQuestions_fold_spec m.question
    ⟨writeU16 m.id ++ writeU16 m.flags ++ writeU16 m.question.length ++
      writeU16 m.answer.length ++ writeU16 m.authority.length ++
      writeU16 m.additional.length, []⟩ hqv hcg0
  obtain ⟨b2, w2, ha1, ha2, ha3, ha4⟩ := writeRRs_spec m.answer
    (m.question.foldl writeQuestion
      ⟨writeU16 m.id ++ writeU16 m.flags ++ writeU16 m.question.length ++
        writeU16 m.answer.length ++ writeU16 m.authority.length ++
        writeU16 m.additional.length, []⟩) hav hq2
  obtain ⟨b3, w3, hb1, hb2, hb3, hb4⟩ := writeRRs_spec m.authority b2 hauv ha3
  obtain ⟨b4, w4, hc1, hc2, hc3, hc4⟩ := writeRRs_spec m.additional b3 hadv hb3
  have hM : Marshal m = Except.ok b4.buf := by
    unfold Marshal
    rw [if_neg (by simp [Nat.mod_eq_of_lt hqcN]), if_neg (by simp [Nat.mod_eq_of_lt hacN]),
      if_neg (by simp [Nat.mod_eq_of_lt haucN]), if_neg (by simp [Nat.mod_eq_of_lt hadcN]),
      ha1]
    dsimp only
    rw [hb1]
    dsimp only
    rw [hc1]
  refine ⟨b4.buf, hM, ?_⟩
  have hwire : b4.buf = writeU16 m.id ++ writeU16 m.flags ++ writeU16 m.question.length ++
      writeU16 m.answer.length ++ writeU16 m.authority.length ++
      writeU16 m.additional.length ++ (wq ++ (w2 ++ (w3 ++ w4))) := by
    rw [hc2, hb2, ha2, hq1]
    simp [List.append_assoc]
  obtain ⟨r1, r2, r3, r4, r5, r6⟩ := read_header m.id m.flags m.question.length
    m.answer.length m.authority.length m.additional.length (wq ++ (w2 ++ (w3 ++ w4)))
    hidN hflagsN hqcN hacN haucN hadcN
  unfold ParseMessage
  rw [hwire, r1]
  dsimp only
  rw [r2]
  dsimp only
  rw [r3]
  dsimp only
  rw [r4]
  dsimp only
  rw [r5]
  dsimp only
  rw [r6]
  dsimp only
  have hshq : writeU16 m.id ++ writeU16 m.flags ++ writeU16 m.question.length ++
      writeU16 m.answer.length ++ writeU16 m.authority.length ++
      writeU16 m.additional.length ++ (wq ++ (w2 ++ (w3 ++ w4)))
      = (m.question.foldl writeQuestion
          ⟨writeU16 m.id ++ writeU16 m.flags ++ writeU16 m.question.length ++
            writeU16 m.answer.length ++ writeU16 m.authority.length ++
            writeU16 m.additional.length, []⟩).buf ++ (w2 ++ (w3 ++ w4)) := by
    rw [hq1]
    simp [List.append_assoc]
  have h12 : (12 : Nat) = (⟨writeU16 m.id ++ writeU16 m.flags ++ writeU16 m.question.length ++
      writeU16 m.answer.length ++ writeU16 m.authority.length ++
      writeU16 m.additional.length, []⟩ : msgBuilder).buf.length := by
    simp [writeU16]
  rw [hshq, h12]
  rcases hq3 (w2 ++ (w3 ++ w4)) with hqq | hqq
  · right
    rw [hqq]
  · rw [hqq]
    dsimp only
    have hsha : (m.question.foldl writeQuestion
        ⟨writeU16 m.id ++ writeU16 m.flags ++ writeU16 m.question.length ++
          writeU16 m.answer.length ++ writeU16 m.authority.length ++
          writeU16 m.additional.length, []⟩).buf ++ (w2 ++ (w3 ++ w4))
        = b2.buf ++ (w3 ++ w4) := by
      rw [ha2]
      simp [List.append_assoc]
    rw [hsha]
    rcases ha4 (w3 ++ w4) with haa | haa
    · right
      rw [haa]
    · rw [haa]
      dsimp only
      have hshb : b2.buf ++ (w3 ++ w4) = b3.buf ++ w4 := by
        rw [hb2]
        simp [List.append_assoc]
      rw [hshb]
      rcases hb4 w4 with hbb | hbb
      · right
        rw [hbb]
      · rw [hbb]
        dsimp only
        have hshc : b3.buf ++ w4 = b4.buf ++ [] := by
          rw [hc2]
          simp
        rw [hshc]
        rcases hc4 [] with hcc | hcc
        · right
          rw [hcc]
        · rw [hcc]
          dsimp only
          left
          rw [if_neg (by simp)]

/-- C2 counterexample: a valid 12-question message whose names form a
nested suffix chain. Each question's name is written as one label plus a
pointer to the previous name, so the twelfth name needs 11 pointer
follows to read back; `Marshal` succeeds but `ParseMessage` fails with
`ErrTooManyPointers`, refuting the claimed unconditional round trip. -/
theorem C2_counterexample :
    validMessage ⟨1, 0, [⟨[[97]], 1, 1⟩, ⟨[[98], [97]], 1, 1⟩, ⟨[[99], [98], [97]], 1, 1⟩, ⟨[[100], [99], [98], [97]], 1, 1⟩, ⟨[[101], [100], [99], [98], [97]], 1, 1⟩, ⟨[[102], [101], [100], [99], [98], [97]], 1, 1⟩, ⟨[[103], [102], [101], [100], [99], [98], [97]], 1, 1⟩, ⟨[[104], [103], [102], [101], [100], [99], [98], [97]], 1, 1⟩, ⟨[[105], [104], [103], [102], [101], [100], [99], [98], [97]], 1, 1⟩, ⟨[[106], [105], [104], [103], [102], [101], [100], [99], [98], [97]], 1, 1⟩, ⟨[[107], [106], [105], [104], [103], [102], [101], [100], [99], [98], [97]], 1, 1⟩, ⟨[[108], [107], [106], [105], [104], [103], [102], [101], [100], [99], [98], [97]], 1, 1⟩], [], [], []⟩ = true ∧
    (Marshal ⟨1, 0, [⟨[[97]], 1, 1⟩, ⟨[[98], [97]], 1, 1⟩, ⟨[[99], [98], [97]], 1, 1⟩, ⟨[[100], [99], [98], [97]], 1, 1⟩, ⟨[[101], [100], [99], [98], [97]], 1, 1⟩, ⟨[[102], [101], [100], [99], [98], [97]], 1, 1⟩, ⟨[[103], [102], [101], [100], [99], [98], [97]], 1, 1⟩, ⟨[[104], [103], [102], [101], [100], [99], [98], [97]], 1, 1⟩, ⟨[[105], [104], [103], [102], [101], [100], [99], [98], [97]], 1, 1⟩, ⟨[[106], [105], [104], [103], [102], [101], [100], [99], [98], [97]], 1, 1⟩, ⟨[[107], [106], [105], [104], [103], [102], [101], [100], [99], [98], [97]], 1, 1⟩, ⟨[[108], [107], [106], [105], [104], [103], [102], [101], [100], [99], [98], [97]], 1, 1⟩], [], [], []⟩).isOk = true ∧
    ParseMessage ((Marshal ⟨1, 0, [⟨[[97]], 1, 1⟩, ⟨[[98], [97]], 1, 1⟩, ⟨[[99], [98], [97]], 1, 1⟩, ⟨[[100], [99], [98], [97]], 1, 1⟩, ⟨[[101], [100], [99], [98], [97]], 1, 1⟩, ⟨[[102], [101], [100], [99], [98], [97]], 1, 1⟩, ⟨[[103], [102], [101], [100], [99], [98], [97]], 1, 1⟩, ⟨[[104], [103], [102], [101], [100], [99], [98], [97]], 1, 1⟩, ⟨[[105], [104], [103], [102], [101], [100], [99], [98], [97]], 1, 1⟩, ⟨[[106], [105], [104], [103], [102], [101], [100], [99], [98], [97]], 1, 1⟩, ⟨[[107], [106], [105], [104], [103], [102], [101], [100], [99], [98], [97]], 1, 1⟩, ⟨[[108], [107], [106], [105], [104], [103], [102], [101], [100], [99], [98], [97]], 1, 1⟩], [], [], []⟩).toOption.getD [])
      = Except.error DnsErr.tooManyPointers := by
  refine ⟨by decide, by rfl, by rfl⟩

/-- C2 witness: a concrete two-question message using one compression
pointer marshals and parses back. -/
theorem C2_witness :
    ∃ wire, Marshal ⟨3, 0, [⟨[[97], [98]], 1, 1⟩, ⟨[[99], [97], [98]], 1, 1⟩],
        [], [], []⟩ = Except.ok wire ∧
      (ParseMessage wire
          = Except.ok ⟨3, 0, [⟨[[97], [98]], 1, 1⟩, ⟨[[99], [97], [98]], 1, 1⟩],
              [], [], []⟩ ∨
        ParseMessage wire = Except.error DnsErr.tooManyPointers) :=
  C2_roundtrip_or_pointer_limit _ (by decide)

end DnsTunnel
